import Mathlib

/-!
# Ponca: spatial queries and plane fitting

A shallow embedding of

* `Ponca/src/SpatialPartitioning/KdTree/Query/kdTreeQuery.h` (`KdTreeQuery::search_internal`),
* `Ponca/src/SpatialPartitioning/KdTree/Query/kdTreeKNearestQueries.h`,
* `Ponca/src/SpatialPartitioning/KnnGraph/Query/knnGraphRangeQuery.h`,
* `Ponca/src/Fitting/meanPlaneFit.h`.

Conventions.

* `Scalar` is an arbitrary linearly ordered commutative ring `α` (exact arithmetic), a linearly
  ordered field for the plane fit; every definition is computable and can be evaluated at
  `α = ℤ` or `α = ℚ`.
* `IndexType` is `Nat`. A read outside a container (undefined behaviour in C++) is an explicit
  outcome `undefinedBehaviour`.
* The mutable state captured by the four functors handed to `search_internal` is a value of an
  arbitrary type `σ`; each functor is a state transformer on it.
* Every state carries a ghost `trace` of the functor calls and node reads made so far. The trace
  is written by the embedding only; no functor can read or change it.
* `while` loops take a fuel argument; running out of fuel is the explicit outcome `outOfFuel`.
* The macro `PONCA_DEBUG_ASSERT` is not among the sources: the operations of the graph query
  take a flag `debug` that says whether the assertions are compiled in, and a failed assertion
  is the explicit outcome `assertionFailed`.
* Code that the embedded functions call and that is not among the sources is either an argument
  of the embedding or a definition whose comment starts `Modelled from the spec:`.
-/

set_option linter.unusedSectionVars false

namespace Ponca

/-! ## Data model -/

/-- A position in `D`-dimensional space (`DataPoint::VectorType`). -/
abbrev VectorType (α : Type) (D : Nat) := Fin D → α

/-- The squared Euclidean norm, Eigen's `squaredNorm()`. -/
def squaredNorm {α : Type} [LinearOrderedCommRing α] {D : Nat} (v : VectorType α D) : α :=
  (List.ofFn fun i => v i * v i).sum

/-- The value `(point - p).squaredNorm()`. -/
def squaredDistance {α : Type} [LinearOrderedCommRing α] {D : Nat}
    (point p : VectorType α D) : α :=
  squaredNorm fun i => point i - p i

/-- A node of the k-d tree: a leaf `(leaf_start, leaf_size)` into the sample permutation, or an
inner node `(split_dim, split_value, first_child_id)` whose children are stored at
`first_child_id` and `first_child_id + 1`. -/
inductive KdNode (α : Type) (D : Nat) where
  | leaf (leaf_start leaf_size : Nat)
  | inner (inner_split_dim : Fin D) (inner_split_value : α) (inner_first_child_id : Nat)

/-- Modelled from the spec: the class `KdTreeBase` is not among the sources. It owns the node
array `nodes()`, the point container `points()` and the sample permutation, read through
`pointFromSample(i)`; `sample_count()` is the length of the permutation. -/
structure KdTreeBase (α : Type) (D : Nat) where
  nodes : List (KdNode α D)
  points : List (VectorType α D)
  indices : List Nat

/-- The number of samples, `sample_count()`. -/
def KdTreeBase.sample_count {α : Type} {D : Nat} (t : KdTreeBase α D) : Nat :=
  t.indices.length

/-- The point index of sample `i`, `pointFromSample(i)`; `none` when `i` is out of range. -/
def KdTreeBase.pointFromSample {α : Type} {D : Nat} (t : KdTreeBase α D) (i : Nat) :
    Option Nat :=
  t.indices[i]?

/-- A frame of the traversal stack, `IndexSquaredDistance<IndexType, Scalar>`. -/
structure IndexSquaredDistance (α : Type) where
  index : Nat
  squared_distance : α

/-- A descent threshold: a scalar, or `none` for a threshold above every scalar
(`std::numeric_limits<Scalar>::max()`). -/
abbrev Threshold (α : Type) := Option α

/-- The comparison `d < descentDistanceThreshold()`. -/
def belowThreshold {α : Type} [LinearOrderedCommRing α] (d : α) : Threshold α → Bool
  | none => true
  | some th => decide (d < th)

/-- One entry of the ghost trace. -/
inductive Event (α : Type) where
  | node (index : Nat)
  | prepareLeafTraversal (start stop : Nat)
  | descentDistanceThreshold (result : Threshold α)
  | skipFunctor (idx : Nat) (result : Bool)
  | processNeighborFunctor (idx i : Nat) (d : α) (result : Bool)

/-- The four functors of `search_internal`, as transformers of the captured state `σ`. -/
structure Functors (α σ : Type) where
  prepareLeafTraversal : Nat → Nat → σ → σ
  descentDistanceThreshold : σ → Threshold α × σ
  skipFunctor : Nat → σ → Bool × σ
  processNeighborFunctor : Nat → Nat → α → σ → Bool × σ

/-- The state of a `KdTreeQuery`: the traversal stack `m_stack` (top first), the state captured
by the functors, and the ghost trace. -/
structure KdTreeQuery (α σ : Type) where
  m_stack : List (IndexSquaredDistance α)
  user : σ
  trace : List (Event α)

/-- `KdTreeQuery::reset`: clear the stack and push the frame `{0, 0}`. -/
def KdTreeQuery.reset {α σ : Type} [LinearOrderedCommRing α] (st : KdTreeQuery α σ) :
    KdTreeQuery α σ :=
  { st with m_stack := [⟨0, 0⟩] }

/-- How one pass through a loop body ends. -/
inductive Step (S : Type) where
  | next (st : S)
  | stop (value : Bool) (st : S)
  | undefinedBehaviour

/-- How `search_internal` ends. -/
inductive SearchResult (S : Type) where
  | returned (value : Bool) (st : S)
  | threw (st : S)
  | undefinedBehaviour
  | outOfFuel

/-! ## `KdTreeQuery::search_internal` -/

section Search

variable {α σ : Type} [LinearOrderedCommRing α] {D : Nat}

/-- The body of the `for` loop over the samples of a leaf, for sample `i`. `stop false` is the
statement `return false`. -/
def leafBody (F : Functors α σ) (t : KdTreeBase α D) (point : VectorType α D) (i : Nat)
    (st : KdTreeQuery α σ) : Step (KdTreeQuery α σ) :=
  match t.pointFromSample i with
  | none => .undefinedBehaviour
  | some idx =>
    let sk := F.skipFunctor idx st.user
    let st1 : KdTreeQuery α σ :=
      { st with user := sk.2, trace := st.trace ++ [.skipFunctor idx sk.1] }
    if sk.1 then .next st1
    else
      match t.points[idx]? with
      | none => .undefinedBehaviour
      | some p =>
        let d := squaredDistance point p
        let th := F.descentDistanceThreshold st1.user
        let st2 : KdTreeQuery α σ :=
          { st1 with user := th.2, trace := st1.trace ++ [.descentDistanceThreshold th.1] }
        if belowThreshold d th.1 then
          let pr := F.processNeighborFunctor idx i d st2.user
          let st3 : KdTreeQuery α σ :=
            { st2 with user := pr.2, trace := st2.trace ++ [.processNeighborFunctor idx i d pr.1] }
          if pr.1 then .stop false st3 else .next st3
        else .next st2

/-- The loop `for (i = start; i < end; ++i)` with `n = end - i` passes left. -/
def leafLoop (F : Functors α σ) (t : KdTreeBase α D) (point : VectorType α D) :
    Nat → Nat → KdTreeQuery α σ → Step (KdTreeQuery α σ)
  | 0, _, st => .next st
  | n + 1, i, st =>
    match leafBody F t point i st with
    | .next st1 => leafLoop F t point n (i + 1) st1
    | .stop v st1 => .stop v st1
    | .undefinedBehaviour => .undefinedBehaviour

/-- One pass through the body of `while (!m_stack.empty())`; with an empty stack the loop is left
and `search_internal` returns `true`. -/
def searchStep (F : Functors α σ) (t : KdTreeBase α D) (point : VectorType α D)
    (st : KdTreeQuery α σ) : Step (KdTreeQuery α σ) :=
  match st.m_stack with
  | [] => .stop true st
  | qnode :: rest =>
    match t.nodes[qnode.index]? with
    | none => .undefinedBehaviour
    | some node =>
      let th := F.descentDistanceThreshold st.user
      let tr := st.trace ++ [.node qnode.index, .descentDistanceThreshold th.1]
      if belowThreshold qnode.squared_distance th.1 then
        match node with
        | .leaf start size =>
          leafLoop F t point size start
            { m_stack := rest
              user := F.prepareLeafTraversal start (start + size) th.2
              trace := tr ++ [.prepareLeafTraversal start (start + size)] }
        | .inner dim value child =>
          let newOff := point dim - value
          if newOff < 0 then
            .next { m_stack := ⟨child, qnode.squared_distance⟩ :: ⟨child + 1, newOff * newOff⟩ :: rest
                    user := th.2
                    trace := tr }
          else
            .next { m_stack := ⟨child + 1, qnode.squared_distance⟩ :: ⟨child, newOff * newOff⟩ :: rest
                    user := th.2
                    trace := tr }
      else
        .next { m_stack := rest, user := th.2, trace := tr }

/-- The `while` loop of `search_internal`, with fuel. -/
def searchLoop (F : Functors α σ) (t : KdTreeBase α D) (point : VectorType α D) :
    Nat → KdTreeQuery α σ → SearchResult (KdTreeQuery α σ)
  | 0, _ => .outOfFuel
  | fuel + 1, st =>
    match searchStep F t point st with
    | .next st1 => searchLoop F t point fuel st1
    | .stop v st1 => .returned v st1
    | .undefinedBehaviour => .undefinedBehaviour

/-- `KdTreeQuery::search_internal`: the emptiness check, then the loop. -/
def search_internal (F : Functors α σ) (t : KdTreeBase α D) (point : VectorType α D)
    (fuel : Nat) (st : KdTreeQuery α σ) : SearchResult (KdTreeQuery α σ) :=
  if t.nodes.isEmpty || t.points.isEmpty || t.sample_count == 0 then .threw st
  else searchLoop F t point fuel st

/-- The state after `n` passes through the loop body, when the loop is still running then. -/
def searchIterate (F : Functors α σ) (t : KdTreeBase α D) (point : VectorType α D) :
    Nat → KdTreeQuery α σ → Option (KdTreeQuery α σ)
  | 0, st => some st
  | n + 1, st =>
    match searchStep F t point st with
    | .next st1 => searchIterate F t point n st1
    | _ => none

end Search

/-! ## k-nearest-neighbour queries -/

section KNearest

variable {α : Type} [LinearOrderedCommRing α] {D : Nat}

/-- Modelled from the spec: the bounded max-heap (`limited_priority_queue`) is not among the
sources. It is kept as a list in ascending order of squared distance; a new entry goes behind
the entries that are not farther than it. -/
def insertSorted (x : IndexSquaredDistance α) :
    List (IndexSquaredDistance α) → List (IndexSquaredDistance α)
  | [] => [x]
  | y :: ys =>
    if x.squared_distance < y.squared_distance then x :: y :: ys else y :: insertSorted x ys

/-- Modelled from the spec: `m_queue.push` on a heap of capacity `k` inserts the entry and, when
the heap was full, drops the farthest entry. -/
def limitedPush (k : Nat) (x : IndexSquaredDistance α) (queue : List (IndexSquaredDistance α)) :
    List (IndexSquaredDistance α) :=
  (insertSorted x queue).take k

/-- Modelled from the spec: `QueryType::descentDistanceThreshold()` is the heap's current worst
distance, or +infinity until the heap is full. -/
def knnThreshold (k : Nat) (queue : List (IndexSquaredDistance α)) : Threshold α :=
  if queue.length < k then none else queue.getLast?.map fun e => e.squared_distance

/-- The four lambdas of `KdTreeKNearestQueryBase::search`; `skip` is
`QueryType::skipIndexFunctor`. -/
def knnFunctors (k : Nat) (skip : Nat → Bool) : Functors α (List (IndexSquaredDistance α)) where
  prepareLeafTraversal := fun _ _ queue => queue
  descentDistanceThreshold := fun queue => (knnThreshold k queue, queue)
  skipFunctor := fun idx queue => (skip idx, queue)
  processNeighborFunctor := fun idx _ d queue => (false, limitedPush k ⟨idx, d⟩ queue)

/-- A query object before its first use. -/
def KdTreeQuery.fresh {σ : Type} (u : σ) : KdTreeQuery α σ :=
  { m_stack := [], user := u, trace := [] }

/-- `KdTreeKNearestQueryBase::begin` up to the construction of the iterator: both resets (the
heap is emptied), then `search()`. -/
def knnBegin (t : KdTreeBase α D) (k : Nat) (skip : Nat → Bool) (point : VectorType α D)
    (fuel : Nat) (st : KdTreeQuery α (List (IndexSquaredDistance α))) :
    SearchResult (KdTreeQuery α (List (IndexSquaredDistance α))) :=
  search_internal (knnFunctors k skip) t point fuel { st.reset with user := [] }

/-- `KdTreeKNearestPointQuery`: the query position is the input, no index is skipped. -/
def kNearestPoint (t : KdTreeBase α D) (k : Nat) (point : VectorType α D) (fuel : Nat) :
    SearchResult (KdTreeQuery α (List (IndexSquaredDistance α))) :=
  knnBegin t k (fun _ => false) point fuel (KdTreeQuery.fresh [])

/-- `KdTreeKNearestIndexQuery`: the query position is that of point `i`, and `i` is skipped. -/
def kNearestIndex (t : KdTreeBase α D) (k : Nat) (i : Nat) (fuel : Nat) :
    SearchResult (KdTreeQuery α (List (IndexSquaredDistance α))) :=
  match t.points[i]? with
  | none => .undefinedBehaviour
  | some p => knnBegin t k (fun idx => decide (idx = i)) p fuel (KdTreeQuery.fresh [])

end KNearest

/-! ## Well-formed trees -/

section WellFormed

variable {α : Type} [LinearOrderedCommRing α] {D : Nat}

/-- The finite binary tree that a node array unfolds to below one of its nodes. -/
inductive Shape (α : Type) (D : Nat) where
  | leaf (start size : Nat)
  | inner (dim : Fin D) (value : α) (child : Nat) (left right : Shape α D)

/-- The samples stored in the leaves of a shape, left to right. -/
def Shape.samples : Shape α D → List Nat
  | .leaf start size => List.range' start size
  | .inner _ _ _ l r => l.samples ++ r.samples

/-- The number of nodes of a shape. -/
def Shape.size : Shape α D → Nat
  | .leaf _ _ => 1
  | .inner _ _ _ l r => l.size + r.size + 1

/-- The number of nodes on the longest root-to-leaf path of a shape. -/
def Shape.depth : Shape α D → Nat
  | .leaf _ _ => 1
  | .inner _ _ _ l r => max l.depth r.depth + 1

/-- The node array holds the shape `sh` at index `i`: the children of an inner node are read at
`first_child_id` and `first_child_id + 1`. -/
def Embeds (nodes : List (KdNode α D)) : Nat → Shape α D → Prop
  | i, .leaf start size => nodes[i]? = some (.leaf start size)
  | i, .inner dim value child l r =>
    nodes[i]? = some (.inner dim value child) ∧ Embeds nodes child l ∧ Embeds nodes (child + 1) r

/-- The position of sample `s`, `points[pointFromSample(s)].pos()`. -/
def KdTreeBase.samplePos (t : KdTreeBase α D) (s : Nat) : Option (VectorType α D) :=
  (t.pointFromSample s).bind fun idx => t.points[idx]?

/-- The split invariant: below every inner node the samples of the left subtree have coordinate
`< split_value` along `split_dim`, those of the right subtree have coordinate `>= split_value`. -/
def Shape.Ordered (t : KdTreeBase α D) : Shape α D → Prop
  | .leaf _ _ => True
  | .inner dim value _ l r =>
    (∀ s ∈ l.samples, ∀ p, t.samplePos s = some p → p dim < value) ∧
    (∀ s ∈ r.samples, ∀ p, t.samplePos s = some p → value ≤ p dim) ∧
    l.Ordered t ∧ r.Ordered t

/-- The data-model invariants of a k-d tree: the sample permutation is a bijection onto the point
indices, the node array unfolds from the root to a finite tree, every sample is in exactly one of
its leaves, and the split invariant holds. -/
def WellFormed (t : KdTreeBase α D) : Prop :=
  t.indices.Perm (List.range t.points.length) ∧
  ∃ sh : Shape α D, Embeds t.nodes 0 sh ∧ sh.samples.Perm (List.range t.sample_count) ∧
    sh.Ordered t

/-- Every sample of the list can be read: its point index and its position exist. -/
def SamplesValid (t : KdTreeBase α D) (S : List Nat) : Prop :=
  ∀ s ∈ S, ∃ p, t.samplePos s = some p

/-- The scalar `b` is a lower bound of the squared distance from `point` to every listed
sample. -/
def LowerBound (t : KdTreeBase α D) (point : VectorType α D) (b : α) (S : List Nat) : Prop :=
  ∀ s ∈ S, ∀ p, t.samplePos s = some p → b ≤ squaredDistance point p

/-- What the traversal needs to know of a frame `f` and the shape `sh` below its node. -/
def FrameOk (t : KdTreeBase α D) (point : VectorType α D) (f : IndexSquaredDistance α)
    (sh : Shape α D) : Prop :=
  Embeds t.nodes f.index sh ∧ sh.Ordered t ∧ SamplesValid t sh.samples ∧
    LowerBound t point f.squared_distance sh.samples

/-- The samples still to be visited: those below the frames of the stack, top first. -/
def pendingSamples (shapes : List (Shape α D)) : List Nat :=
  (shapes.map Shape.samples).flatten

/-- The total number of nodes below the frames of the stack. -/
def pendingSize (shapes : List (Shape α D)) : Nat :=
  (shapes.map Shape.size).sum

end WellFormed

end Ponca

namespace Ponca

section Rule

variable {α σ : Type} [LinearOrderedCommRing α] {D : Nat}

/-- The hypotheses of the traversal rule: `Inv A u tr` says that the captured state `u` and the
trace `tr` account for the samples `A`; `Abort u tr` is what holds after `return false`. -/
structure TraversalRule (F : Functors α σ) (t : KdTreeBase α D) (point : VectorType α D)
    (Inv : List Nat → σ → List (Event α) → Prop) (Abort : σ → List (Event α) → Prop) : Prop where
  pass : ∀ A u tr idx, Inv A u tr →
    Inv A (F.descentDistanceThreshold u).2
      (tr ++ [.node idx, .descentDistanceThreshold (F.descentDistanceThreshold u).1])
  prune : ∀ A S u tr idx b, Inv A u tr →
    belowThreshold b (F.descentDistanceThreshold u).1 = false →
    SamplesValid t S → LowerBound t point b S →
    Inv (A ++ S) (F.descentDistanceThreshold u).2
      (tr ++ [.node idx, .descentDistanceThreshold (F.descentDistanceThreshold u).1])
  prepare : ∀ A u tr a b, Inv A u tr →
    Inv A (F.prepareLeafTraversal a b u) (tr ++ [.prepareLeafTraversal a b])
  body_next : ∀ A stk u tr i st1, Inv A u tr →
    leafBody F t point i ⟨stk, u, tr⟩ = .next st1 → Inv (A ++ [i]) st1.user st1.trace
  body_stop : ∀ A stk u tr i v st1, Inv A u tr →
    leafBody F t point i ⟨stk, u, tr⟩ = .stop v st1 → Abort st1.user st1.trace

end Rule

end Ponca

namespace Ponca

/-- The event is a call of `processNeighborFunctor` that returned `true`. -/
def Event.returnedTrue {α : Type} : Event α → Bool
  | .processNeighborFunctor _ _ _ r => r
  | _ => false

/-- The frames of the stack fit under the depth bound `M`: below the node of the frame with `m`
frames underneath lies a shape of depth at most `M - m`. -/
def StackDepth {α : Type} {D : Nat} (nodes : List (KdNode α D)) (M : Nat) :
    List (IndexSquaredDistance α) → Prop
  | [] => True
  | f :: rest =>
    (∃ sh : Shape α D, Embeds nodes f.index sh ∧ sh.depth + rest.length ≤ M) ∧
      StackDepth nodes M rest

end Ponca

namespace Ponca

/-- The trace `tr1` continues `tr` by events none of which is a call of
`processNeighborFunctor` that returned `true`. -/
def Quiet {α : Type} (tr tr1 : List (Event α)) : Prop :=
  ∃ new, tr1 = tr ++ new ∧ ∀ e ∈ new, e.returnedTrue = false

/-- The trace `tr1` continues `tr` by events whose last one is the first call of
`processNeighborFunctor` that returned `true`. -/
def Stopped {α : Type} (tr tr1 : List (Event α)) : Prop :=
  ∃ pre idx j d, tr1 = tr ++ pre ++ [.processNeighborFunctor idx j d true] ∧
    ∀ e ∈ pre, e.returnedTrue = false

end Ponca

namespace Ponca

section KnnSpec

variable {α : Type} [LinearOrderedCommRing α] {D : Nat}

/-- The entry that visiting sample `s` offers to the heap: nothing when its point index is
skipped. -/
def candidate (t : KdTreeBase α D) (point : VectorType α D) (skip : Nat → Bool) (s : Nat) :
    Option (IndexSquaredDistance α) :=
  (t.pointFromSample s).bind fun idx =>
    if skip idx then none else (t.points[idx]?).map fun p => ⟨idx, squaredDistance point p⟩

/-- The brute-force candidates: every point index that is not skipped, with its squared distance
to the query position. -/
def bruteForce (t : KdTreeBase α D) (point : VectorType α D) (skip : Nat → Bool) :
    List (IndexSquaredDistance α) :=
  (List.range t.points.length).filterMap fun idx =>
    if skip idx then none else (t.points[idx]?).map fun p => ⟨idx, squaredDistance point p⟩

/-- The entries are in ascending order of squared distance. -/
def Ascending (queue : List (IndexSquaredDistance α)) : Prop :=
  queue.Pairwise fun a b => a.squared_distance ≤ b.squared_distance

/-- The heap holds the best `k` of the candidates `C`: the candidates are the heap and a
remainder, the heap is ascending and no entry of the remainder is nearer than an entry of the
heap, and the remainder is empty while the heap is not full. -/
def BestOf (k : Nat) (C queue : List (IndexSquaredDistance α)) : Prop :=
  ∃ rest, C.Perm (queue ++ rest) ∧ Ascending queue ∧
    (∀ x ∈ queue, ∀ y ∈ rest, x.squared_distance ≤ y.squared_distance) ∧
    queue.length ≤ k ∧ (queue.length < k → rest = [])

end KnnSpec

end Ponca

namespace Ponca

/-- The entries that visiting the samples `A` offers to the heap. -/
def candidates {α : Type} [LinearOrderedCommRing α] {D : Nat} (t : KdTreeBase α D)
    (point : VectorType α D) (skip : Nat → Bool) (A : List Nat) :
    List (IndexSquaredDistance α) :=
  A.filterMap (candidate t point skip)

end Ponca

namespace Ponca

/-! ## A small tree, for concrete instances

Five points of the plane over `ℤ`; the root splits along `x` at 2, its right child along `y`
at 5. -/

/-- A well-formed tree over five points. -/
def exampleTree : KdTreeBase ℤ 2 where
  nodes := [.inner 0 2 1, .leaf 0 2, .inner 1 5 3, .leaf 2 1, .leaf 3 2]
  points := [![3, 7], ![0, 0], ![1, 4], ![2, 1], ![5, 6]]
  indices := [1, 2, 3, 0, 4]

/-- The shape of `exampleTree`. -/
def exampleShape : Shape ℤ 2 :=
  .inner 0 2 1 (.leaf 0 2) (.inner 1 5 3 (.leaf 2 1) (.leaf 3 2))

end Ponca

namespace Ponca

section RangeSpec

variable {α : Type} [LinearOrderedCommRing α] {D : Nat}

/-- The calls of `processNeighborFunctor` recorded in a trace, in order: the point index and the
squared distance each was given. -/
def processed : List (Event α) → List (IndexSquaredDistance α)
  | [] => []
  | .processNeighborFunctor idx _ d _ :: tr => ⟨idx, d⟩ :: processed tr
  | _ :: tr => processed tr

/-- Modelled from the spec: the range query is not among the sources. Its descent threshold is
the fixed squared radius and its `processNeighbor` appends the index to the result. -/
def rangeFunctors (r2 : α) (skip : Nat → Bool) : Functors α (List Nat) where
  prepareLeafTraversal := fun _ _ out => out
  descentDistanceThreshold := fun out => (some r2, out)
  skipFunctor := fun idx out => (skip idx, out)
  processNeighborFunctor := fun idx _ _ out => (false, out ++ [idx])

end RangeSpec

end Ponca

namespace Ponca

/-! ## `KnnGraphRangeQuery` -/

section KnnGraph

variable {α : Type} [LinearOrderedCommRing α] {D : Nat}

/-- Modelled from the spec: the class `KnnGraphBase` is not among the sources. It holds the
points of the k-d tree it was built from and, for each point index, the list of its k nearest
neighbours (`k_nearest_neighbors(i)`); `size()` is the number of lists. -/
structure KnnGraphBase (α : Type) (D : Nat) where
  m_kdTreePoints : List (VectorType α D)
  m_neighbors : List (List Nat)

/-- The number of points of the graph, `size()`. -/
def KnnGraphBase.size (g : KnnGraphBase α D) : Nat :=
  g.m_neighbors.length

/-- The neighbour list of point `i`; `none` when `i` is out of range. -/
def KnnGraphBase.k_nearest_neighbors (g : KnnGraphBase α D) (i : Nat) : Option (List Nat) :=
  g.m_neighbors[i]?

/-- The mutable members of a `KnnGraphRangeQuery`: the visited set `m_flag` and the frontier
`m_stack` (top first). The graph, the radius and the seed index `input()` do not change and are
arguments of the operations. -/
structure KnnGraphRangeQuery where
  m_flag : Finset Nat
  m_stack : List Nat

/-- A query object as its constructor leaves it. -/
def KnnGraphRangeQuery.fresh : KnnGraphRangeQuery :=
  { m_flag := ∅, m_stack := [] }

/-- How an operation of the graph query ends. `assertionFailed` is a failed
`PONCA_DEBUG_ASSERT`, which only a build with debug assertions can produce. -/
inductive QueryResult (β : Type) where
  | ok (value : β)
  | assertionFailed
  | undefinedBehaviour
  | outOfFuel

/-- The loop over the neighbours of the popped index in `advance`: a neighbour whose squared
distance to the seed is below the threshold and which `m_flag.insert` reports as new is
pushed. The assertion `idx_nei >= 0` holds of every index of type `Nat`. -/
def neighborLoop (g : KnnGraphBase α D) (point : VectorType α D) (squared_radius : α) :
    List Nat → KnnGraphRangeQuery → QueryResult KnnGraphRangeQuery
  | [], q => .ok q
  | idx_nei :: rest, q =>
    match g.m_kdTreePoints[idx_nei]? with
    | none => .undefinedBehaviour
    | some p =>
      if squaredDistance point p < squared_radius then
        if idx_nei ∈ q.m_flag then neighborLoop g point squared_radius rest q
        else neighborLoop g point squared_radius rest
          { m_flag := insert idx_nei q.m_flag, m_stack := idx_nei :: q.m_stack }
      else neighborLoop g point squared_radius rest q

/-- The member function `initialize` of `KnnGraphRangeQuery` (the name is reserved in Lean). The macro `PONCA_DEBUG_ASSERT` is not among the sources:
`debug` says whether the build compiles the assertions in. -/
def initializeIterator (debug : Bool) (input : Nat) (q : KnnGraphRangeQuery) :
    QueryResult (KnnGraphRangeQuery × Int) :=
  if debug && !q.m_stack.isEmpty then .assertionFailed
  else .ok ({ m_flag := {input}, m_stack := input :: q.m_stack }, -1)

/-- The assertion of `advance` on the popped index,
`PONCA_DEBUG_ASSERT((point - points[idx_current].pos()).squaredNorm() < squared_radius())`;
nothing is read or checked in a build without debug assertions. -/
def assertWithinRadius (g : KnnGraphBase α D) (debug : Bool) (point : VectorType α D)
    (squared_radius : α) (idx_current : Nat) : QueryResult Unit :=
  if debug then
    match g.m_kdTreePoints[idx_current]? with
    | none => .undefinedBehaviour
    | some p => if squaredDistance point p < squared_radius then .ok () else .assertionFailed
  else .ok ()

/-- `KnnGraphRangeQuery::advance` on the iterator with index `m_index`; the fuel bounds the depth
of the recursive call made when the popped index is the seed. The squared radius and the descent
threshold of the absent `RangeIndexQuery` are both `radius * radius`. -/
def advance (g : KnnGraphBase α D) (debug : Bool) (radius : α) (input : Nat) :
    Nat → KnnGraphRangeQuery × Int → QueryResult (KnnGraphRangeQuery × Int)
  | 0, _ => .outOfFuel
  | fuel + 1, (q, m_index) =>
    match g.m_kdTreePoints[input]? with
    | none => .undefinedBehaviour
    | some point =>
      if m_index = g.size then .ok (q, m_index)
      else
        match q.m_stack with
        | [] => .ok (q, g.size)
        | idx_current :: rest =>
          match assertWithinRadius g debug point (radius * radius) idx_current with
          | .ok _ =>
            match g.k_nearest_neighbors idx_current with
            | none => .undefinedBehaviour
            | some nbrs =>
              match neighborLoop g point (radius * radius) nbrs { q with m_stack := rest } with
              | .ok q1 =>
                if idx_current = input then advance g debug radius input fuel (q1, idx_current)
                else .ok (q1, idx_current)
              | .assertionFailed => .assertionFailed
              | .undefinedBehaviour => .undefinedBehaviour
              | .outOfFuel => .outOfFuel
          | .assertionFailed => .assertionFailed
          | .undefinedBehaviour => .undefinedBehaviour
          | .outOfFuel => .outOfFuel

/-- `KnnGraphRangeQuery::begin`: a new iterator, `initializeIterator`, `advance`. -/
def KnnGraphRangeQuery.begin (g : KnnGraphBase α D) (debug : Bool) (radius : α) (input : Nat)
    (fuel : Nat) (q : KnnGraphRangeQuery) : QueryResult (KnnGraphRangeQuery × Int) :=
  match initializeIterator debug input q with
  | .ok s => advance g debug radius input fuel s
  | .assertionFailed => .assertionFailed
  | .undefinedBehaviour => .undefinedBehaviour
  | .outOfFuel => .outOfFuel

/-- Modelled from the spec: the iterator is not among the sources. The caller's loop
`for (it = begin(); it != end(); ++it)` reads `*it`, the index `m_index`, and `++it` calls
`advance`; it yields the indices read and the query object it leaves behind. -/
def enumerateLoop (g : KnnGraphBase α D) (debug : Bool) (radius : α) (input : Nat) (fuel : Nat) :
    Nat → KnnGraphRangeQuery × Int → QueryResult (List Int × KnnGraphRangeQuery)
  | 0, _ => .outOfFuel
  | n + 1, (q, m_index) =>
    if m_index = g.size then .ok ([], q)
    else
      match advance g debug radius input fuel (q, m_index) with
      | .ok s =>
        match enumerateLoop g debug radius input fuel n s with
        | .ok (out, q1) => .ok (m_index :: out, q1)
        | .assertionFailed => .assertionFailed
        | .undefinedBehaviour => .undefinedBehaviour
        | .outOfFuel => .outOfFuel
      | .assertionFailed => .assertionFailed
      | .undefinedBehaviour => .undefinedBehaviour
      | .outOfFuel => .outOfFuel

/-- A complete enumeration: `begin()`, then the caller's loop until `end()`. -/
def enumerate (g : KnnGraphBase α D) (debug : Bool) (radius : α) (input : Nat) (fuel : Nat)
    (q : KnnGraphRangeQuery) : QueryResult (List Int × KnnGraphRangeQuery) :=
  match KnnGraphRangeQuery.begin g debug radius input fuel q with
  | .ok s => enumerateLoop g debug radius input fuel fuel s
  | .assertionFailed => .assertionFailed
  | .undefinedBehaviour => .undefinedBehaviour
  | .outOfFuel => .outOfFuel

end KnnGraph

end Ponca

namespace Ponca

section KnnGraphSpec

variable {α : Type} [LinearOrderedCommRing α] {D : Nat}

/-- A k-NN graph over its points: one neighbour list for each point, and every neighbour is a
point index. -/
def KnnGraphBase.Valid (g : KnnGraphBase α D) : Prop :=
  g.m_kdTreePoints.length = g.size ∧ ∀ nbrs ∈ g.m_neighbors, ∀ j ∈ nbrs, j < g.size

/-- Point `j` exists and its squared distance to `point` is below `r2`. -/
def Within (g : KnnGraphBase α D) (point : VectorType α D) (r2 : α) (j : Nat) : Prop :=
  ∃ p, g.m_kdTreePoints[j]? = some p ∧ squaredDistance point p < r2

/-- One step of the expansion: `j` is in the neighbour list of `v` and within the radius. -/
def Edge (g : KnnGraphBase α D) (point : VectorType α D) (r2 : α) (v j : Nat) : Prop :=
  ∃ nbrs, g.k_nearest_neighbors v = some nbrs ∧ j ∈ nbrs ∧ Within g point r2 j

/-- One step along the graph, whatever the distance: `j` is in the neighbour list of `v`. -/
def Neighbor (g : KnnGraphBase α D) (v j : Nat) : Prop :=
  ∃ nbrs, g.k_nearest_neighbors v = some nbrs ∧ j ∈ nbrs

/-- The invariant of the expansion from seed `s`, with `P` the indices popped so far. -/
structure GraphInv (g : KnnGraphBase α D) (point : VectorType α D) (r2 : α) (s : Nat)
    (q : KnnGraphRangeQuery) (P : List Nat) : Prop where
  seed_flag : s ∈ q.m_flag
  pop_nodup : P.Nodup
  stack_nodup : q.m_stack.Nodup
  disjoint : ∀ j ∈ P, j ∉ q.m_stack
  flag_iff : ∀ j, j ∈ q.m_flag ↔ j ∈ P ∨ j ∈ q.m_stack
  reach : ∀ j ∈ q.m_flag, Relation.ReflTransGen (Edge g point r2) s j ∧ j < g.size
  closed : ∀ v ∈ P, ∀ j, Edge g point r2 v j → j ∈ q.m_flag
  stack_within : ∀ j ∈ q.m_stack, j ≠ s → Within g point r2 j

/-- The number of passes of `advance` still possible. -/
def graphMeasure (g : KnnGraphBase α D) (q : KnnGraphRangeQuery) : Nat :=
  (g.size - q.m_flag.card) + q.m_stack.length

end KnnGraphSpec

end Ponca

namespace Ponca

/-! ## Small graphs, for concrete instances -/

/-- Four points on a line, at 0, 1, 10 and 11. -/
def linePoints : List (VectorType ℤ 1) := [![0], ![1], ![10], ![11]]

/-- A k-d tree over `linePoints` with a single leaf. -/
def lineTree : KdTreeBase ℤ 1 where
  nodes := [.leaf 0 4]
  points := linePoints
  indices := [0, 1, 2, 3]

/-- Modelled from the spec: the construction of the graph is not among the sources. It runs
k-nearest-by-index for every point and stores the indices returned. -/
def buildKnnGraph {α : Type} [LinearOrderedCommRing α] {D : Nat} (t : KdTreeBase α D)
    (k fuel : Nat) : Option (KnnGraphBase α D) :=
  ((List.range t.points.length).mapM fun i =>
    match kNearestIndex t k i fuel with
    | .returned _ st => some (st.user.map IndexSquaredDistance.index)
    | _ => none).map fun lists => { m_kdTreePoints := t.points, m_neighbors := lists }

/-- The 1-nearest-neighbour graph of `linePoints`: two pairs of mutual neighbours. -/
def lineGraph : KnnGraphBase ℤ 1 where
  m_kdTreePoints := linePoints
  m_neighbors := [[1], [0], [3], [2]]

/-- The 2-nearest-neighbour graph of three points on a line, at 0, 1 and 2. -/
def triangleGraph : KnnGraphBase ℤ 1 where
  m_kdTreePoints := [![0], ![1], ![2]]
  m_neighbors := [[1, 2], [0, 2], [1, 0]]

end Ponca

namespace Ponca

/-! ## `MeanPlaneFitImpl::finalize` -/

/-- Modelled from the spec: the enumeration `FIT_RESULT` is not among the sources. -/
inductive FIT_RESULT where
  | UNDEFINED
  | STABLE
  | UNSTABLE
  | NEED_OTHER_PASS
  | CONFLICT_ERROR_FOUND
  | NOT_SUPPORTED
  deriving DecidableEq

section MeanPlane

variable {α : Type} [LinearOrderedField α]

/-- The cross product of two vectors of dimension 3, Eigen's `cross`. -/
def cross (a b : VectorType α 3) : VectorType α 3 :=
  ![a 1 * b 2 - a 2 * b 1, a 2 * b 0 - a 0 * b 2, a 0 * b 1 - a 1 * b 0]

/-- The dot product of two vectors of dimension 3, Eigen's `dot`. -/
def dot (a b : VectorType α 3) : α :=
  a 0 * b 0 + a 1 * b 1 + a 2 * b 2

/-- Modelled from the spec: the layers below `MeanPlaneFitImpl` (`MeanNormal`, `MeanPosition`,
`PlaneFrame`, `Plane` and the primitive base) are not among the sources. Their members read by
`finalize`: the state `m_eCurrentState`, the sums `m_sumW`, `m_sumP` and `m_sumN`, the plane as a
normal and an offset (the plane is the set of `x` with `normal . x + offset = 0`), and the frame
`m_u`, `m_v`. -/
structure MeanPlaneFit (α : Type) where
  m_eCurrentState : FIT_RESULT
  m_sumW : α
  m_sumP : VectorType α 3
  m_sumN : VectorType α 3
  planeNormal : VectorType α 3
  planeOffset : α
  m_u : VectorType α 3
  m_v : VectorType α 3

/-- Modelled from the spec: `MeanPosition` exposes `barycenter = sum_wp / sum_w`. -/
def MeanPlaneFit.barycenter (s : MeanPlaneFit α) : VectorType α 3 :=
  fun i => s.m_sumP i / s.m_sumW

/-- Modelled from the spec: a plane is set when its coefficients are not all zero
(`plane().isValid()`). -/
def MeanPlaneFit.isValid (s : MeanPlaneFit α) : Bool :=
  decide (s.planeNormal ≠ 0 ∨ s.planeOffset ≠ 0)

/-- Modelled from the spec: `setPlane(n, pointOnPlane)` normalizes the direction and stores the
plane with that normal through the point. The normalization of the linear-algebra collaborator
is the argument `normalize`. -/
def MeanPlaneFit.setPlane (normalize : VectorType α 3 → VectorType α 3) (s : MeanPlaneFit α)
    (dir pos : VectorType α 3) : MeanPlaneFit α :=
  { s with planeNormal := normalize dir, planeOffset := -dot (normalize dir) pos }

/-- The auxiliary vector of `finalize`, before it is normalized: `(-n.y, n.x, 0)` when
`|n.x| > |n.z|`, otherwise `(0, -n.z, n.y)`. -/
def auxiliary (norm : VectorType α 3) : VectorType α 3 :=
  if |norm 0| > |norm 2| then ![-norm 1, norm 0, 0] else ![0, -norm 2, norm 1]

/-- `MeanPlaneFitImpl::finalize`. The base layers' `finalize` is the argument `baseFinalize`: it
returns a `FIT_RESULT` and the state it leaves. The result is the returned value and the final
state. -/
def MeanPlaneFitImpl.finalize (normalize : VectorType α 3 → VectorType α 3)
    (baseFinalize : MeanPlaneFit α → FIT_RESULT × MeanPlaneFit α) (s : MeanPlaneFit α) :
    FIT_RESULT × MeanPlaneFit α :=
  let base := baseFinalize s
  if base.1 = FIT_RESULT.STABLE then
    let s1 : MeanPlaneFit α :=
      if base.2.isValid then { base.2 with m_eCurrentState := FIT_RESULT.CONFLICT_ERROR_FOUND }
      else base.2
    let s2 := s1.setPlane normalize (fun i => s1.m_sumN i / s1.m_sumW) s1.barycenter
    let norm := s2.planeNormal
    let a := normalize (auxiliary norm)
    let u := normalize (cross norm a)
    let v := normalize (cross norm u)
    let s3 : MeanPlaneFit α := { s2 with m_u := u, m_v := v }
    (s3.m_eCurrentState, s3)
  else (base.2.m_eCurrentState, base.2)

/-- A normalization for concrete instances: division by the norm when the vector is not zero,
with the square root `sqrt`. -/
def normalizedWith (sqrt : α → α) (v : VectorType α 3) : VectorType α 3 :=
  if 0 < dot v v then fun i => v i / sqrt (dot v v) else v

/-- A base `finalize` for concrete instances: it reports `STABLE` when the sum of weights is not
zero, `UNSTABLE` otherwise, and stores what it reports. -/
def exampleBaseFinalize (s : MeanPlaneFit α) : FIT_RESULT × MeanPlaneFit α :=
  if s.m_sumW = 0 then (FIT_RESULT.UNSTABLE, { s with m_eCurrentState := FIT_RESULT.UNSTABLE })
  else (FIT_RESULT.STABLE, { s with m_eCurrentState := FIT_RESULT.STABLE })

/-- A fit state with no plane set: two unit weights, normals `(0, 0, 1)`. -/
def exampleFitIn (α : Type) [LinearOrderedField α] : MeanPlaneFit α where
  m_eCurrentState := FIT_RESULT.UNDEFINED
  m_sumW := 2
  m_sumP := ![2, 4, 6]
  m_sumN := ![0, 0, 2]
  planeNormal := 0
  planeOffset := 0
  m_u := 0
  m_v := 0

/-- A fit state over `ℚ` with no plane set: two unit weights, normals `(0, 0, 1)`. -/
def exampleFit : MeanPlaneFit ℚ where
  m_eCurrentState := FIT_RESULT.UNDEFINED
  m_sumW := 2
  m_sumP := ![2, 4, 6]
  m_sumN := ![0, 0, 2]
  planeNormal := 0
  planeOffset := 0
  m_u := 0
  m_v := 0

end MeanPlane

end Ponca

namespace Ponca

/-! ## Monge patch (`Fitting/mongePatch.hpp`)

`MongePatch<DataPoint, WFunctor, T>` derives from its template argument `T`. The members of the
base class that the three procedures call are the fields of `MongeBase`, over a base state `B`. -/

/-- The members of the base class used by `MongePatch`: `Base::init`,
`Base::addLocalNeighbor`, `Base::finalize`, the assignment to `Base::m_eCurrentState`,
`Base::worldToLocalFrame`, and `DataPoint::pos`. -/
structure MongeBase (α P B : Type) where
  init : VectorType α 3 → B → B
  addLocalNeighbor : α → VectorType α 3 → P → B → Bool × B
  finalize : B → FIT_RESULT × B
  setCurrentState : FIT_RESULT → B → B
  worldToLocalFrame : B → VectorType α 3 → VectorType α 3
  pos : P → VectorType α 3

/-- The state of a `MongePatch`: the base object and the members `m_A`, `m_b`, `m_x`,
`m_planeIsReady`. -/
structure MongePatch (α B : Type) where
  base : B
  m_A : Matrix (Fin 6) (Fin 6) α
  m_b : Fin 6 → α
  m_x : Fin 6 → α
  m_planeIsReady : Bool

section MongePatch

variable {α P B : Type} [LinearOrderedField α]

/-- `MongePatch::init`: `Base::init`, `m_b` and `m_x` set to zero, the plane not ready.
`m_A` is not assigned. -/
def MongePatch.init (ops : MongeBase α P B) (evalPos : VectorType α 3) (s : MongePatch α B) :
    MongePatch α B :=
  { s with base := ops.init evalPos s.base, m_b := 0, m_x := 0, m_planeIsReady := false }

/-- The vector `p << u*u, v*v, u*v, u, v, 1` of `MongePatch::addLocalNeighbor`. -/
def mongeBasis (u v : α) : Fin 6 → α := ![u * u, v * v, u * v, u, v, 1]

/-- `MongePatch::addLocalNeighbor`: the returned boolean and the state after the call. -/
def MongePatch.addLocalNeighbor (ops : MongeBase α P B) (w : α) (localQ : VectorType α 3)
    (attributes : P) (s : MongePatch α B) : Bool × MongePatch α B :=
  let r := ops.addLocalNeighbor w localQ attributes s.base
  let res := r.1
  let s1 : MongePatch α B := { s with base := r.2 }
  if ! s1.m_planeIsReady then (res, s1)
  else
    let loc := ops.worldToLocalFrame s1.base (ops.pos attributes)
    let h := loc 0
    let u := loc 1
    let v := loc 2
    let p := mongeBasis u v
    (true, { s1 with m_A := fun i j => s1.m_A i j + w * p i * p j,
                     m_b := fun i => s1.m_b i + w * h * p i })

/-- `MongePatch::finalize`: the returned state and the object after the call. `solve A b` is
`A.bdcSvd(ComputeThinU | ComputeThinV).solve(b)`. -/
def MongePatch.finalize (ops : MongeBase α P B)
    (solve : Matrix (Fin 6) (Fin 6) α → (Fin 6 → α) → Fin 6 → α) (s : MongePatch α B) :
    FIT_RESULT × MongePatch α B :=
  if ! s.m_planeIsReady then
    let r := ops.finalize s.base
    let res := r.1
    let s1 : MongePatch α B := { s with base := r.2 }
    if res = FIT_RESULT.STABLE then
      (FIT_RESULT.NEED_OTHER_PASS,
        { s1 with m_planeIsReady := true, m_A := 0, m_b := 0,
                  base := ops.setCurrentState FIT_RESULT.NEED_OTHER_PASS s1.base })
    else (res, s1)
  else
    (FIT_RESULT.STABLE,
      { s with m_x := solve s.m_A s.m_b,
               base := ops.setCurrentState FIT_RESULT.STABLE s.base })

/-- A call made on a `MongePatch` between two `init` calls. -/
inductive MongeCall (α P : Type) where
  | addLocalNeighbor (w : α) (localQ : VectorType α 3) (attributes : P)
  | finalize

/-- The calls `cs` made in order on the state `s`: the values returned by the `finalize` calls,
in order, and the state after the last call. -/
def MongePatch.run (ops : MongeBase α P B)
    (solve : Matrix (Fin 6) (Fin 6) α → (Fin 6 → α) → Fin 6 → α) :
    List (MongeCall α P) → MongePatch α B → List FIT_RESULT × MongePatch α B
  | [], s => ([], s)
  | MongeCall.addLocalNeighbor w localQ attributes :: cs, s =>
      MongePatch.run ops solve cs (MongePatch.addLocalNeighbor ops w localQ attributes s).2
  | MongeCall.finalize :: cs, s =>
      let r := MongePatch.finalize ops solve s
      let rest := MongePatch.run ops solve cs r.2
      (r.1 :: rest.1, rest.2)

/-- A base layer over `ℚ` whose state is the sum of the weights: it admits a neighbor when the
weight is not zero and is `STABLE` once a weight was summed. Its frame is the world frame. -/
def exampleMongeBase : MongeBase ℚ (VectorType ℚ 3) ℚ where
  init := fun _ _ => 0
  addLocalNeighbor := fun w _ _ b => if w = 0 then (false, b) else (true, b + w)
  finalize := fun b => if b = 0 then (FIT_RESULT.UNSTABLE, b) else (FIT_RESULT.STABLE, b)
  setCurrentState := fun _ b => b
  worldToLocalFrame := fun _ q => q
  pos := fun p => p

/-- A Monge patch over `exampleMongeBase` in its second pass, nothing accumulated. -/
def exampleMongePatch : MongePatch ℚ ℚ where
  base := 1
  m_A := 0
  m_b := 0
  m_x := 0
  m_planeIsReady := true

end MongePatch

end Ponca

namespace Ponca

/-! ## Curvatures of the Monge patch and of the parabolic cylinder

`kMean`, `GaussianCurvature`, `kmin` and `kmax` read the patch through the accessors `dh_u`,
`dh_v`, `dh_uu`, `dh_vv`, `dh_uv`; `std::pow` and `std::sqrt` are arguments. -/

/-- The values of the accessors `dh_u()`, `dh_v()`, `dh_uu()`, `dh_vv()`, `dh_uv()`. -/
structure PatchDerivatives (α : Type) where
  dh_u : α
  dh_v : α
  dh_uu : α
  dh_vv : α
  dh_uv : α

section Curvature

variable {α : Type} [LinearOrderedField α]

/-- The call `sqrt(x)` of the C++ library on the scalar `x`: not a number (`none`) when `x` is
negative, `sqrt x` otherwise. -/
def stdSqrt (sqrt : α → α) (x : α) : Option α :=
  if x < 0 then none else some (sqrt x)

/-- `MongePatch::kMean`. -/
def MongePatch.kMean (pow : α → α → α) (d : PatchDerivatives α) : α :=
  let one : α := 1
  let two : α := 2
  let threeOverTwo : α := 3 / 2
  (d.dh_uu * (one + pow d.dh_v two) + d.dh_vv * (one + pow d.dh_u two) -
      two * d.dh_uv * d.dh_u * d.dh_v) /
    (two * pow (one + pow d.dh_u two + pow d.dh_v two) threeOverTwo)

/-- `MongePatch::GaussianCurvature`. -/
def MongePatch.GaussianCurvature (pow : α → α → α) (d : PatchDerivatives α) : α :=
  let one : α := 1
  let two : α := 2
  (d.dh_uu * d.dh_vv - pow d.dh_uv two) / pow (pow d.dh_u two + pow d.dh_v two + one) two

/-- `MongePatch::kmin`: `mean - sqrt(mean*mean - gauss)`; `none` is not-a-number. -/
def MongePatch.kmin (pow : α → α → α) (sqrt : α → α) (d : PatchDerivatives α) : Option α :=
  let mean := MongePatch.kMean pow d
  let gauss := MongePatch.GaussianCurvature pow d
  (stdSqrt sqrt (mean * mean - gauss)).map fun r => mean - r

/-- `MongePatch::kmax`: `mean + sqrt(mean*mean - gauss)`; `none` is not-a-number. -/
def MongePatch.kmax (pow : α → α → α) (sqrt : α → α) (d : PatchDerivatives α) : Option α :=
  let mean := MongePatch.kMean pow d
  let gauss := MongePatch.GaussianCurvature pow d
  (stdSqrt sqrt (mean * mean - gauss)).map fun r => mean + r

/-- `ParabolicCylinder::kMean`. -/
def ParabolicCylinder.kMean (pow : α → α → α) (d : PatchDerivatives α) : α :=
  let one : α := 1
  let two : α := 2
  let threeOverTwo : α := 3 / 2
  (d.dh_uu * (one + pow d.dh_v two) + d.dh_vv * (one + pow d.dh_u two) -
      two * d.dh_uv * d.dh_u * d.dh_v) /
    (two * pow (one + pow d.dh_u two + pow d.dh_v two) threeOverTwo)

/-- `ParabolicCylinder::GaussianCurvature`. -/
def ParabolicCylinder.GaussianCurvature (pow : α → α → α) (d : PatchDerivatives α) : α :=
  let one : α := 1
  let two : α := 2
  (d.dh_uu * d.dh_vv - pow d.dh_uv two) / pow (pow d.dh_u two + pow d.dh_v two + one) two

/-- `ParabolicCylinder::kmin`: `mean - sqrt(mean*mean - gauss)`; `none` is not-a-number. -/
def ParabolicCylinder.kmin (pow : α → α → α) (sqrt : α → α) (d : PatchDerivatives α) :
    Option α :=
  let mean := ParabolicCylinder.kMean pow d
  let gauss := ParabolicCylinder.GaussianCurvature pow d
  (stdSqrt sqrt (mean * mean - gauss)).map fun r => mean - r

/-- `ParabolicCylinder::kmax`: `mean + sqrt(mean*mean - gauss)`; `none` is not-a-number. -/
def ParabolicCylinder.kmax (pow : α → α → α) (sqrt : α → α) (d : PatchDerivatives α) :
    Option α :=
  let mean := ParabolicCylinder.kMean pow d
  let gauss := ParabolicCylinder.GaussianCurvature pow d
  (stdSqrt sqrt (mean * mean - gauss)).map fun r => mean + r

/-- The function `std::pow` on doubles at the arguments of the umbilic example: exact at the
exponent `2`, and at `(2, 3/2)` the double `6369051672525773 * 2^-51` that `pow` returns, which
lies above `2^(3/2)`. -/
def examplePow (x y : ℚ) : ℚ :=
  if y = 2 then x * x else 6369051672525773 / 2251799813685248

/-- The accessor values at a point of a patch where the two principal curvatures are equal:
slope `1` along `u`, second derivatives `2` and `1`. -/
def umbilicDerivatives : PatchDerivatives ℚ := ⟨1, 0, 2, 1, 0⟩

end Curvature

end Ponca

namespace Ponca

/-! ## Parabolic cylinder (`Fitting/parabolicCylinder/parabolicCylinder.hpp`) -/

/-- The members of a `ParabolicCylinder` read by `primitiveGradient`: the linear term `m_ul`,
the scalar `m_a`, the 2x2 shape `m_uq` and the orientation factor `m_correctOrientation`. -/
structure ParabolicCylinder (α : Type) where
  m_ul : Fin 2 → α
  m_a : α
  m_uq : Matrix (Fin 2) (Fin 2) α
  m_correctOrientation : α

section ParabolicCylinder

variable {α : Type} [LinearOrderedField α]

/-- `ParabolicCylinder::primitiveGradient`. `worldToLocalFrame` is `Base::worldToLocalFrame` and
`localFrameToWorldTangent` is `Base::localFrameToWorld<true>`. -/
def ParabolicCylinder.primitiveGradient (worldToLocalFrame : VectorType α 3 → VectorType α 3)
    (localFrameToWorldTangent : VectorType α 3 → VectorType α 3) (s : ParabolicCylinder α)
    (q : VectorType α 3) : VectorType α 3 :=
  let proj := worldToLocalFrame q
  let temp : Fin 2 → α := ![proj 1, proj 2]
  let df : Fin 2 → α := fun i =>
    s.m_ul i + (2 * s.m_a * s.m_uq i 0 * temp 0 + 2 * s.m_a * s.m_uq i 1 * temp 1)
  let local_gradient : VectorType α 3 := ![1, -df 0, -df 1]
  let local_gradient : VectorType α 3 := fun i => local_gradient i * s.m_correctOrientation
  localFrameToWorldTangent local_gradient

/-- A parabolic cylinder over `ℚ`: `m_a = 1`, shape `[[1, 0], [0, 0]]`, no linear term. -/
def exampleCylinder : ParabolicCylinder ℚ where
  m_ul := ![0, 0]
  m_a := 1
  m_uq := !![1, 0; 0, 0]
  m_correctOrientation := 1

end ParabolicCylinder

end Ponca

namespace Ponca

/-! ## Corrected normal currents on a triangle (`Fitting/triangleGeneration/CNCEigen.h`)

The scalar functions `sqrt` (inside `norm()`), `acos` and the constant `M_PI` are arguments.
A result is `none` when the computation divides a vector by a norm that is zero; the model does
not follow the not-a-number components that the division produces. -/

namespace CNCEigen

section CNCEigen

variable {α : Type} [LinearOrderedField α]

/-- `CNCEigen::epsilon`, the constant `1e-8`. -/
def epsilon : α := 1 / 100000000

/-- The Euclidean norm `v.norm()`. -/
def vectorNorm (sqrt : α → α) (v : VectorType α 3) : α := sqrt (dot v v)

/-- The norm `v.lpNorm<1>()`. -/
def lpNorm1 (v : VectorType α 3) : α := |v 0| + |v 1| + |v 2|

/-- `SphericalTriangle::isDegenerate`. -/
def SphericalTriangle.isDegenerate (sqrt : α → α) (a b c : VectorType α 3) : Bool :=
  let d : Fin 3 → α :=
    ![vectorNorm sqrt (a - b), vectorNorm sqrt (a - c), vectorNorm sqrt (b - c)]
  if d 0 < epsilon ∨ d 1 < epsilon ∨ d 2 < epsilon then true
  else
    let m : Fin 3 := 0
    let m : Fin 3 := if d 1 > d m then 1 else m
    let m : Fin 3 := if d 2 > d m then 2 else m
    decide (|d m - d (m + 1) - d (m + 2)| < epsilon)

/-- `SphericalTriangle::polarTriangle`: the three output vectors `Ap`, `Bp`, `Cp`. -/
def SphericalTriangle.polarTriangle (a b c : VectorType α 3) :
    VectorType α 3 × VectorType α 3 × VectorType α 3 :=
  let Ap := cross b c
  let Bp := cross c a
  let Cp := cross a b
  let Ap := if dot Ap a < 0 then -Ap else Ap
  let Bp := if dot Bp b < 0 then -Bp else Bp
  let Cp := if dot Cp c < 0 then -Cp else Cp
  (Ap, Bp, Cp)

/-- `SphericalTriangle::interiorAngles`: the three output angles `alpha`, `beta`, `gamma`. -/
def SphericalTriangle.interiorAngles (sqrt acos : α → α) (a b c : VectorType α 3) :
    Option (α × α × α) :=
  let T := SphericalTriangle.polarTriangle a b c
  let na := vectorNorm sqrt T.1
  let nb := vectorNorm sqrt T.2.1
  let nc := vectorNorm sqrt T.2.2
  if na = 0 ∨ nb = 0 ∨ nc = 0 then none
  else
    let Ta : VectorType α 3 := fun i => T.1 i / na
    let Tb : VectorType α 3 := fun i => T.2.1 i / nb
    let Tc : VectorType α 3 := fun i => T.2.2 i / nc
    if Ta = 0 ∨ Tb = 0 ∨ Tc = 0 then some (0, 0, 0)
    else
      let ca := max (-1) (min 1 (dot Tb Tc))
      let cb := max (-1) (min 1 (dot Tc Ta))
      let cc := max (-1) (min 1 (dot Ta Tb))
      some (acos ca, acos cb, acos cc)

/-- `SphericalTriangle::area`. -/
def SphericalTriangle.area (sqrt acos : α → α) (pi : α) (a b c : VectorType α 3) : Option α :=
  if SphericalTriangle.isDegenerate sqrt a b c then some 0
  else
    (SphericalTriangle.interiorAngles sqrt acos a b c).map fun t =>
      if |t.1| < epsilon ∨ |t.2.1| < epsilon ∨ |t.2.2| < epsilon then 0
      else 2 * pi - t.1 - t.2.1 - t.2.2

/-- `SphericalTriangle::algebraicArea`. -/
def SphericalTriangle.algebraicArea (sqrt acos : α → α) (pi : α) (a b c : VectorType α 3) :
    Option α :=
  (SphericalTriangle.area sqrt acos pi a b c).map fun S =>
    let M : VectorType α 3 := a + b + c
    let X := cross (b - a) (c - a)
    if lpNorm1 M ≤ epsilon ∨ lpNorm1 X ≤ epsilon then 0
    else if dot M X < 0 then -S else S

/-- The vector `(ua + ub + uc) / 3.0` that the four measures start from. -/
def meanNormal (ua ub uc : VectorType α 3) : VectorType α 3 := fun i => (ua i + ub i + uc i) / 3

/-- `CNCEigen::mu0InterpolatedU`. -/
def mu0InterpolatedU (sqrt : α → α) (a b c ua ub uc : VectorType α 3) (unit_u : Bool) : α :=
  let uM := meanNormal ua ub uc
  let uM : VectorType α 3 :=
    if unit_u then
      let uM_norm := vectorNorm sqrt uM
      if uM_norm = 0 then uM else fun i => uM i / uM_norm
    else uM
  1 / 2 * dot (cross (b - a) (c - a)) uM

/-- The statement `if ( unit_u ) uM /= uM.norm();` of `mu1InterpolatedU` and
`muXYInterpolatedU`. -/
def unitized (sqrt : α → α) (uM : VectorType α 3) (unit_u : Bool) : Option (VectorType α 3) :=
  if unit_u then
    if vectorNorm sqrt uM = 0 then none else some fun i => uM i / vectorNorm sqrt uM
  else some uM

/-- `CNCEigen::mu1InterpolatedU`. -/
def mu1InterpolatedU (sqrt : α → α) (a b c ua ub uc : VectorType α 3) (unit_u : Bool) :
    Option α :=
  (unitized sqrt (meanNormal ua ub uc) unit_u).map fun uM =>
    1 / 4 * (dot (cross uM (uc - ub)) a + dot (cross uM (ua - uc)) b +
      dot (cross uM (ub - ua)) c)

/-- `CNCEigen::mu2InterpolatedU`. The points `a`, `b`, `c` are not read. -/
def mu2InterpolatedU (sqrt acos : α → α) (pi : α) (_a _b _c ua ub uc : VectorType α 3)
    (unit_u : Bool) : Option α :=
  if unit_u then SphericalTriangle.algebraicArea sqrt acos pi ua ub uc
  else some (1 / 2 * dot (cross ua ub) uc)

/-- `CNCEigen::muXYInterpolatedU`: entry `(i, j)` is the value `tij` of the two loops. -/
def muXYInterpolatedU (sqrt : α → α) (a b c ua ub uc : VectorType α 3) (unit_u : Bool) :
    Option (Matrix (Fin 3) (Fin 3) α) :=
  (unitized sqrt (meanNormal ua ub uc) unit_u).map fun uM =>
    let uac := uc - ua
    let uab := ub - ua
    let ab := b - a
    let ac := c - a
    fun i j =>
      let X : VectorType α 3 := fun k => if k = i then 1 else 0
      1 / 2 * dot uM (fun k => uac j * cross X ab k - uab j * cross X ac k)

end CNCEigen

end CNCEigen

end Ponca

namespace Ponca

namespace CNCEigen

/-- What `Eigen::SelfAdjointEigenSolver` holds after its construction on a 3x3 matrix:
whether `info()` is `Success`, `eigenvalues()` and `eigenvectors()`, whose column `k` is
`eigenvectors().col(k)`. -/
structure EigenSolution (α : Type) where
  success : Bool
  eigenvalues : Fin 3 → α
  eigenvectors : Matrix (Fin 3) (Fin 3) α

/-- The column `eigenvectors().col(k)`. -/
def EigenSolution.col {α : Type} (sol : EigenSolution α) (k : Fin 3) : VectorType α 3 :=
  fun i => sol.eigenvectors i k

/-- How a helper function ends: it returns a value, calls `abort()`, or fails an `assert`. -/
inductive Outcome (β : Type) where
  | returned (value : β)
  | aborted
  | assertionFailed

section Tensor

variable {α : Type} [LinearOrderedField α]

/-- `CNCEigen::curvDirFromTensor`. `eigensolver` is the construction of the
`SelfAdjointEigenSolver`; the two `assert`s are compiled in when `debug` holds. -/
def curvDirFromTensor (eigensolver : Matrix (Fin 3) (Fin 3) α → EigenSolution α) (debug : Bool)
    (tensor : Matrix (Fin 3) (Fin 3) α) (area : α) (N : VectorType α 3) :
    Outcome (VectorType α 3 × VectorType α 3) :=
  let Mt : Matrix (Fin 3) (Fin 3) α := fun j k => tensor k j
  let M : Matrix (Fin 3) (Fin 3) α := tensor
  let M : Matrix (Fin 3) (Fin 3) α := fun j k => M j k + Mt j k
  let M : Matrix (Fin 3) (Fin 3) α := fun j k => M j k * (1 / 2)
  let coef_N : α := 1000 * area
  let M : Matrix (Fin 3) (Fin 3) α := fun j k => M j k + coef_N * N j * N k
  let sol := eigensolver M
  if ! sol.success then .aborted
  else if debug && ! decide (sol.eigenvalues 0 ≤ sol.eigenvalues 1) then .assertionFailed
  else if debug && ! decide (sol.eigenvalues 1 ≤ sol.eigenvalues 2) then .assertionFailed
  else
    let v1 := sol.col 1
    let v2 := sol.col 0
    .returned (v1, v2)

/-- `CNCEigen::curvaturesFromTensor`. In the failure branch the vectors `v1`, `v2` are declared
and returned without being assigned; `uninit1` and `uninit2` are what their storage holds. -/
def curvaturesFromTensor (eigensolver : Matrix (Fin 3) (Fin 3) α → EigenSolution α)
    (debug : Bool) (uninit1 uninit2 : VectorType α 3) (tensor : Matrix (Fin 3) (Fin 3) α)
    (area : α) (N : VectorType α 3) : Outcome (α × α × VectorType α 3 × VectorType α 3) :=
  let Mt : Matrix (Fin 3) (Fin 3) α := fun j k => tensor k j
  let M : Matrix (Fin 3) (Fin 3) α := tensor
  let M : Matrix (Fin 3) (Fin 3) α := fun j k => M j k + Mt j k
  let M : Matrix (Fin 3) (Fin 3) α := fun j k => M j k * (1 / 2)
  let coef_N : α := 1000 * area
  let M : Matrix (Fin 3) (Fin 3) α := fun j k => M j k + coef_N * N j * N k
  let sol := eigensolver M
  if sol.success then
    if debug && ! decide (sol.eigenvalues 0 ≤ sol.eigenvalues 1) then .assertionFailed
    else if debug && ! decide (sol.eigenvalues 1 ≤ sol.eigenvalues 2) then .assertionFailed
    else
      let v1 := sol.col 0
      let v2 := sol.col 1
      .returned (-sol.eigenvalues 0, -sol.eigenvalues 1, v1, v2)
  else
    let v1 := uninit1
    let v2 := uninit2
    .returned (0, 0, v1, v2)

/-- The matrix `M = 1/2 (T + T^T) + 1000 area N N^T` that both functions hand to the
eigen-solver. -/
def tensorMatrix (tensor : Matrix (Fin 3) (Fin 3) α) (area : α) (N : VectorType α 3) :
    Matrix (Fin 3) (Fin 3) α :=
  fun j k => (tensor j k + tensor k j) * (1 / 2) + 1000 * area * N j * N k

/-- The product `M v` of a 3x3 matrix and a vector. -/
def matVec (M : Matrix (Fin 3) (Fin 3) α) (v : VectorType α 3) : VectorType α 3 :=
  fun i => M i 0 * v 0 + M i 1 * v 1 + M i 2 * v 2

/-- An eigen-solver that answers every matrix with the eigenvalues `1, 2, 3` and the
eigenvectors `e_x`, `e_y`, `e_z`: the decomposition of `diag(1, 2, 3)`. -/
def exampleSolver (_M : Matrix (Fin 3) (Fin 3) ℚ) : EigenSolution ℚ where
  success := true
  eigenvalues := ![1, 2, 3]
  eigenvectors := !![1, 0, 0; 0, 1, 0; 0, 0, 1]

/-- An eigen-solver that answers every matrix with the eigenvalues `1, 2, 3` and the
eigenvectors `e_z`, `e_x`, `e_y`: the decomposition of `diag(2, 3, 1)`. -/
def normalFirstSolver (_M : Matrix (Fin 3) (Fin 3) ℚ) : EigenSolution ℚ where
  success := true
  eigenvalues := ![1, 2, 3]
  eigenvectors := !![0, 1, 0; 0, 0, 1; 1, 0, 0]

/-- An eigen-solver that reports failure. -/
def failingSolver (_M : Matrix (Fin 3) (Fin 3) ℚ) : EigenSolution ℚ where
  success := false
  eigenvalues := 0
  eigenvectors := 0

end Tensor

end CNCEigen

end Ponca

namespace Ponca

section MongePatchPasses

variable {α P B : Type} [LinearOrderedField α]

/-- The calls `addLocalNeighbor(w, localQ, attributes)` made in order for the neighbors `ns`:
the state after the last call. -/
def MongePatch.addNeighbors (ops : MongeBase α P B) :
    List (α × VectorType α 3 × P) → MongePatch α B → MongePatch α B
  | [], s => s
  | n :: ns, s =>
    MongePatch.addNeighbors ops ns (MongePatch.addLocalNeighbor ops n.1 n.2.1 n.2.2 s).2

/-- The weight `w_i` and the local coordinates `worldToLocalFrame(position_i)` of each of the
neighbors `ns`, the frame being read from the base object as the base's `addLocalNeighbor` for
that neighbor leaves it; `b` is the base object before the first neighbor. -/
def localCoordinates (ops : MongeBase α P B) :
    List (α × VectorType α 3 × P) → B → List (α × VectorType α 3)
  | [], _ => []
  | n :: ns, b =>
    let b1 := (ops.addLocalNeighbor n.1 n.2.1 n.2.2 b).2
    (n.1, ops.worldToLocalFrame b1 (ops.pos n.2.2)) :: localCoordinates ops ns b1

/-- A Monge patch over `exampleMongeBase` that an earlier fit left with `7` in every entry of
`m_A`, `m_b` and `m_x`. -/
def staleMongePatch : MongePatch ℚ ℚ where
  base := 3
  m_A := fun _ _ => 7
  m_b := fun _ => 7
  m_x := fun _ => 7
  m_planeIsReady := true

end MongePatchPasses

end Ponca

namespace Ponca

section ParabolicCylinderSurface

variable {α : Type} [LinearOrderedField α]

/-- `ParabolicCylinder::potential`. `worldToLocalFrame` is `Base::worldToLocalFrame`, and
`eval_quadratic_function` is the member of the class that evaluates the height of the cylinder
at the in-plane coordinates. -/
def ParabolicCylinder.potential (worldToLocalFrame : VectorType α 3 → VectorType α 3)
    (eval_quadratic_function : α → α → α) (s : ParabolicCylinder α) (q : VectorType α 3) : α :=
  let x := worldToLocalFrame q
  s.m_correctOrientation * eval_quadratic_function (x 1) (x 2) - x 0

/-- `ParabolicCylinder::project`. `localFrameToWorld` is `Base::localFrameToWorld`. -/
def ParabolicCylinder.project (worldToLocalFrame localFrameToWorld :
      VectorType α 3 → VectorType α 3)
    (eval_quadratic_function : α → α → α) (q : VectorType α 3) : VectorType α 3 :=
  let x := worldToLocalFrame q
  let x : VectorType α 3 := Function.update x 0 (eval_quadratic_function (x 1) (x 2))
  localFrameToWorld x

/-- Modelled from the spec: `eval_quadratic_function` is declared in the class header, which is
not among the sources. The spec gives the height
`h(u, v) = 1/2 (u, v) Q (u, v)^T + l . (u, v)^T` with `Q = a * u_q`. -/
def ParabolicCylinder.eval_quadratic_function (s : ParabolicCylinder α) (u v : α) : α :=
  1 / 2 * (u * (s.m_a * s.m_uq 0 0 * u + s.m_a * s.m_uq 0 1 * v) +
      v * (s.m_a * s.m_uq 1 0 * u + s.m_a * s.m_uq 1 1 * v)) +
    (s.m_ul 0 * u + s.m_ul 1 * v)

end ParabolicCylinderSurface

end Ponca

namespace Ponca

/-- The node indices that were on top of the stack in the passes of the main loop, in order, as
recorded in the ghost trace. -/
def nodeVisits {α : Type} (tr : List (Event α)) : List Nat :=
  tr.filterMap fun e =>
    match e with
    | .node index => some index
    | _ => none

/-- The two children of every inner node are valid indices above the node's own index. -/
def ChildrenAfter {α : Type} {D : Nat} (nodes : List (KdNode α D)) : Prop :=
  ∀ i dim value child, nodes[i]? = some (.inner dim value child) →
    i < child ∧ child + 1 < nodes.length

/-- The node indices of the shape that a node array holds at index `i`, the root first. -/
def Shape.nodeIds {α : Type} {D : Nat} : Shape α D → Nat → List Nat
  | .leaf _ _, i => [i]
  | .inner _ _ child l r, i => i :: (l.nodeIds child ++ r.nodeIds (child + 1))

/-- The frames of the stack have shapes below them whose node indices, top first, are `ids`. -/
def PendingIds {α : Type} {D : Nat} (nodes : List (KdNode α D)) :
    List (IndexSquaredDistance α) → List Nat → Prop
  | [], ids => ids = []
  | f :: rest, ids =>
    ∃ (sh : Shape α D) (idsRest : List Nat), Embeds nodes f.index sh ∧
      PendingIds nodes rest idsRest ∧ ids = sh.nodeIds f.index ++ idsRest

/-- A node array in which the inner nodes `0` and `1` share the child `2`, over two points. -/
def sharedChildTree : KdTreeBase ℤ 1 where
  nodes := [.inner 0 5 1, .inner 0 5 2, .leaf 0 1, .leaf 1 1]
  points := [![0], ![10]]
  indices := [0, 1]

/-- A k-nearest query object over `ℤ` before its first use, with an empty heap. -/
def emptyKnnQuery : KdTreeQuery ℤ (List (IndexSquaredDistance ℤ)) := KdTreeQuery.fresh []

end Ponca

/-! # Theorems -/

namespace Ponca

section Geometry

variable {α : Type} [LinearOrderedCommRing α] {D : Nat}

theorem squaredNorm_eq_sum (v : VectorType α D) : squaredNorm v = ∑ i, v i * v i := by
  unfold squaredNorm
  rw [List.sum_ofFn]

theorem squaredNorm_nonneg (v : VectorType α D) : 0 ≤ squaredNorm v := by
  rw [squaredNorm_eq_sum]
  exact Finset.sum_nonneg fun i _ => mul_self_nonneg (v i)

theorem coord_sq_le_squaredNorm (v : VectorType α D) (d : Fin D) :
    v d * v d ≤ squaredNorm v := by
  rw [squaredNorm_eq_sum]
  exact Finset.single_le_sum (f := fun i => v i * v i)
    (fun i _ => mul_self_nonneg (v i)) (Finset.mem_univ d)

theorem squaredDistance_nonneg (point p : VectorType α D) : 0 ≤ squaredDistance point p :=
  squaredNorm_nonneg _

/-- A point on the other side of a splitting plane is at least as far as the plane. -/
theorem split_le_squaredDistance (point p : VectorType α D) (dim : Fin D) (value : α)
    (h : (point dim - value < 0 ∧ value ≤ p dim) ∨ (0 ≤ point dim - value ∧ p dim < value)) :
    (point dim - value) * (point dim - value) ≤ squaredDistance point p := by
  refine le_trans ?_ (coord_sq_le_squaredNorm (fun i => point i - p i) dim)
  show (point dim - value) * (point dim - value) ≤ (point dim - p dim) * (point dim - p dim)
  rcases h with ⟨h1, h2⟩ | ⟨h1, h2⟩ <;> nlinarith

end Geometry

end Ponca

namespace Ponca

theorem Shape.size_pos {α : Type} {D : Nat} (sh : Shape α D) : 0 < sh.size := by
  cases sh <;> simp [Shape.size]

section Traversal

variable {α σ : Type} [LinearOrderedCommRing α] {D : Nat}

theorem searchLoop_next {F : Functors α σ} {t : KdTreeBase α D} {point : VectorType α D}
    {st st1 : KdTreeQuery α σ} (h : searchStep F t point st = .next st1) (fuel : Nat) :
    searchLoop F t point (fuel + 1) st = searchLoop F t point fuel st1 := by
  simp [searchLoop, h]

theorem searchLoop_stop {F : Functors α σ} {t : KdTreeBase α D} {point : VectorType α D}
    {st st1 : KdTreeQuery α σ} {v : Bool} (h : searchStep F t point st = .stop v st1)
    (fuel : Nat) : searchLoop F t point (fuel + 1) st = .returned v st1 := by
  simp [searchLoop, h]

/-- The passes of the leaf loop, for a valid sample: never an out-of-range read, the stack is
left alone, and `stop` carries `false`. -/
theorem leafBody_cases (F : Functors α σ) (t : KdTreeBase α D) (point : VectorType α D)
    (i : Nat) (st : KdTreeQuery α σ) (hv : ∃ p, t.samplePos i = some p) :
    (∃ st1, leafBody F t point i st = .next st1 ∧ st1.m_stack = st.m_stack) ∨
    (∃ st1, leafBody F t point i st = .stop false st1 ∧ st1.m_stack = st.m_stack) := by
  obtain ⟨p, hp⟩ := hv
  unfold KdTreeBase.samplePos at hp
  cases hidx : t.pointFromSample i with
  | none => simp [hidx] at hp
  | some idx =>
    simp only [hidx, Option.some_bind] at hp
    unfold leafBody
    simp only [hidx, hp]
    by_cases hsk : (F.skipFunctor idx st.user).1 = true
    · simp [hsk]
    · simp only [hsk]
      by_cases hb : belowThreshold (squaredDistance point p)
          (F.descentDistanceThreshold (F.skipFunctor idx st.user).2).1 = true
      · simp only [hb, if_true]
        split_ifs <;> simp
      · simp [hb]

end Traversal

end Ponca

namespace Ponca

section Rule

variable {α σ : Type} [LinearOrderedCommRing α] {D : Nat}

variable {F : Functors α σ} {t : KdTreeBase α D} {point : VectorType α D}
  {Inv : List Nat → σ → List (Event α) → Prop} {Abort : σ → List (Event α) → Prop}

theorem leafLoop_rule (R : TraversalRule F t point Inv Abort) :
    ∀ (n i : Nat) (A : List Nat) (st : KdTreeQuery α σ), Inv A st.user st.trace →
      SamplesValid t (List.range' i n) →
      (∃ st1, leafLoop F t point n i st = .next st1 ∧ st1.m_stack = st.m_stack ∧
        Inv (A ++ List.range' i n) st1.user st1.trace) ∨
      (∃ st1, leafLoop F t point n i st = .stop false st1 ∧ Abort st1.user st1.trace) := by
  intro n
  induction n with
  | zero =>
    intro i A st hI _
    left
    exact ⟨st, rfl, rfl, by simpa using hI⟩
  | succ n ih =>
    intro i A st hI hv
    have hvi : ∃ p, t.samplePos i = some p := hv i (by simp [List.range'])
    have hv1 : SamplesValid t (List.range' (i + 1) n) := by
      intro s hs
      exact hv s (by simp only [List.range'_succ, List.mem_cons]; exact Or.inr hs)
    rcases leafBody_cases F t point i st hvi with ⟨st1, h1, hs1⟩ | ⟨st1, h1, _⟩
    · have hI1 : Inv (A ++ [i]) st1.user st1.trace :=
        R.body_next A st.m_stack st.user st.trace i st1 hI h1
      rcases ih (i + 1) (A ++ [i]) st1 hI1 hv1 with ⟨st2, h2, hs2, hI2⟩ | ⟨st2, h2, hA2⟩
      · left
        refine ⟨st2, ?_, hs2.trans hs1, ?_⟩
        · simp [leafLoop, h1, h2]
        · simpa [List.range'_succ] using hI2
      · right
        exact ⟨st2, by simp [leafLoop, h1, h2], hA2⟩
    · right
      exact ⟨st1, by simp [leafLoop, h1], R.body_stop A st.m_stack st.user st.trace i false st1 hI h1⟩

end Rule

end Ponca

namespace Ponca

section RuleLoop

variable {α σ : Type} [LinearOrderedCommRing α] {D : Nat}
  {F : Functors α σ} {t : KdTreeBase α D} {point : VectorType α D}
  {Inv : List Nat → σ → List (Event α) → Prop} {Abort : σ → List (Event α) → Prop}

theorem LowerBound.mono_samples {b : α} {S S1 : List Nat} (h : LowerBound t point b S)
    (hsub : ∀ s ∈ S1, s ∈ S) : LowerBound t point b S1 :=
  fun s hs p hp => h s (hsub s hs) p hp

theorem SamplesValid.mono_valid {S S1 : List Nat} (h : SamplesValid t S)
    (hsub : ∀ s ∈ S1, s ∈ S) : SamplesValid t S1 :=
  fun s hs => h s (hsub s hs)

/-- The frames that replace the frame of an inner node are in order again. -/
theorem FrameOk.children {f : IndexSquaredDistance α} {dim : Fin D} {value : α} {child : Nat}
    {l r : Shape α D} (h : FrameOk t point f (.inner dim value child l r)) :
    (point dim - value < 0 →
      FrameOk t point ⟨child, f.squared_distance⟩ l ∧
      FrameOk t point ⟨child + 1, (point dim - value) * (point dim - value)⟩ r) ∧
    (¬ point dim - value < 0 →
      FrameOk t point ⟨child + 1, f.squared_distance⟩ r ∧
      FrameOk t point ⟨child, (point dim - value) * (point dim - value)⟩ l) := by
  obtain ⟨hE, hO, hV, hL⟩ := h
  obtain ⟨_, hEl, hEr⟩ := hE
  obtain ⟨hOl, hOr, hOl1, hOr1⟩ := hO
  have hsl : ∀ s ∈ l.samples, s ∈ (Shape.inner dim value child l r).samples := by
    intro s hs; simp [Shape.samples, hs]
  have hsr : ∀ s ∈ r.samples, s ∈ (Shape.inner dim value child l r).samples := by
    intro s hs; simp [Shape.samples, hs]
  constructor
  · intro hneg
    refine ⟨⟨hEl, hOl1, hV.mono_valid hsl, hL.mono_samples hsl⟩, hEr, hOr1, hV.mono_valid hsr, ?_⟩
    intro s hs p hp
    exact split_le_squaredDistance point p dim value (Or.inl ⟨hneg, hOr s hs p hp⟩)
  · intro hpos
    refine ⟨⟨hEr, hOr1, hV.mono_valid hsr, hL.mono_samples hsr⟩, hEl, hOl1, hV.mono_valid hsl, ?_⟩
    intro s hs p hp
    exact split_le_squaredDistance point p dim value (Or.inr ⟨not_lt.mp hpos, hOl s hs p hp⟩)

/-- The traversal rule: from a stack whose frames are in order, with enough fuel the loop
returns; either every pending sample has been accounted for and the stack is empty, or a leaf
pass stopped the search. -/
theorem searchLoop_rule (R : TraversalRule F t point Inv Abort) :
    ∀ (n : Nat) (shapes : List (Shape α D)) (st : KdTreeQuery α σ) (A : List Nat),
      pendingSize shapes ≤ n → List.Forall₂ (FrameOk t point) st.m_stack shapes →
      Inv A st.user st.trace →
      ∃ v final, (∀ fuel, n < fuel → searchLoop F t point fuel st = .returned v final) ∧
        ((v = true ∧ final.m_stack = [] ∧
            ∃ A1, A1.Perm (A ++ pendingSamples shapes) ∧ Inv A1 final.user final.trace) ∨
          (v = false ∧ Abort final.user final.trace)) := by
  intro n
  induction n with
  | zero =>
    intro shapes st A hn hF hI
    obtain ⟨stk, u, tr⟩ := st
    cases hF with
    | nil =>
      refine ⟨true, ⟨[], u, tr⟩, ?_, Or.inl ⟨rfl, rfl, A, by simp [pendingSamples], hI⟩⟩
      intro fuel hfuel
      obtain ⟨fuel, rfl⟩ := Nat.exists_eq_succ_of_ne_zero (Nat.ne_of_gt hfuel)
      exact searchLoop_stop (by simp [searchStep]) fuel
    | cons hf hrest =>
      rename_i f sh rest shs
      have := sh.size_pos
      simp [pendingSize] at hn
      omega
  | succ n ih =>
    intro shapes st A hn hF hI
    obtain ⟨stk, u, tr⟩ := st
    cases hF with
    | nil =>
      refine ⟨true, ⟨[], u, tr⟩, ?_, Or.inl ⟨rfl, rfl, A, by simp [pendingSamples], hI⟩⟩
      intro fuel hfuel
      obtain ⟨fuel, rfl⟩ := Nat.exists_eq_succ_of_ne_zero (Nat.ne_of_gt (Nat.zero_lt_of_lt hfuel))
      exact searchLoop_stop (by simp [searchStep]) fuel
    | cons hf hrest =>
      rename_i f sh rest shs
      have hsize : pendingSize (sh :: shs) = sh.size + pendingSize shs := by
        simp [pendingSize]
      have hpend : pendingSamples (sh :: shs) = sh.samples ++ pendingSamples shs := by
        simp [pendingSamples]
      rw [hsize] at hn
      rw [hpend]
      -- every continuation goes through the induction hypothesis
      have cont : ∀ (st1 : KdTreeQuery α σ) (shapes1 : List (Shape α D)) (A0 : List Nat),
          searchStep F t point ⟨f :: rest, u, tr⟩ = .next st1 →
          pendingSize shapes1 ≤ n → List.Forall₂ (FrameOk t point) st1.m_stack shapes1 →
          Inv A0 st1.user st1.trace →
          (A0 ++ pendingSamples shapes1).Perm (A ++ (sh.samples ++ pendingSamples shs)) →
          ∃ v final, (∀ fuel, n + 1 < fuel →
              searchLoop F t point fuel ⟨f :: rest, u, tr⟩ = .returned v final) ∧
            ((v = true ∧ final.m_stack = [] ∧
                ∃ A1, A1.Perm (A ++ (sh.samples ++ pendingSamples shs)) ∧
                  Inv A1 final.user final.trace) ∨
              (v = false ∧ Abort final.user final.trace)) := by
        intro st1 shapes1 A0 hstep hn1 hF1 hI1 hperm
        obtain ⟨v, final, hrun, hpost⟩ := ih shapes1 st1 A0 hn1 hF1 hI1
        refine ⟨v, final, ?_, ?_⟩
        · intro fuel hfuel
          obtain ⟨fuel, rfl⟩ :=
            Nat.exists_eq_succ_of_ne_zero (Nat.ne_of_gt (Nat.zero_lt_of_lt hfuel))
          rw [searchLoop_next hstep]
          exact hrun fuel (by omega)
        · rcases hpost with ⟨hv, hs, A1, hA1, hI2⟩ | hab
          · exact Or.inl ⟨hv, hs, A1, hA1.trans hperm, hI2⟩
          · exact Or.inr hab
      by_cases hb : belowThreshold f.squared_distance (F.descentDistanceThreshold u).1 = true
      · cases sh with
        | leaf start size =>
          obtain ⟨hE, _, hV, _⟩ := hf
          have hnode : t.nodes[f.index]? = some (.leaf start size) := hE
          have hstep : searchStep F t point ⟨f :: rest, u, tr⟩ =
              leafLoop F t point size start
                ⟨rest, F.prepareLeafTraversal start (start + size) (F.descentDistanceThreshold u).2,
                  tr ++ [.node f.index,
                      .descentDistanceThreshold (F.descentDistanceThreshold u).1] ++
                    [.prepareLeafTraversal start (start + size)]⟩ := by
            simp [searchStep, hnode, hb]
          have hI1 := R.prepare A _ _ start (start + size) (R.pass A u tr f.index hI)
          rcases leafLoop_rule R size start A
              ⟨rest, F.prepareLeafTraversal start (start + size) (F.descentDistanceThreshold u).2,
                tr ++ [.node f.index,
                    .descentDistanceThreshold (F.descentDistanceThreshold u).1] ++
                  [.prepareLeafTraversal start (start + size)]⟩ hI1 hV
            with ⟨st1, h1, hs1, hI2⟩ | ⟨st1, h1, hA1⟩
          · refine cont st1 shs (A ++ List.range' start size) (hstep.trans h1)
              (by simp [Shape.size] at hn; omega) (by rw [hs1]; exact hrest) hI2 ?_
            simp [Shape.samples]
          · refine ⟨false, st1, ?_, Or.inr ⟨rfl, hA1⟩⟩
            intro fuel hfuel
            obtain ⟨fuel, rfl⟩ :=
              Nat.exists_eq_succ_of_ne_zero (Nat.ne_of_gt (Nat.zero_lt_of_lt hfuel))
            exact searchLoop_stop (hstep.trans h1) fuel
        | inner dim value child l r =>
          have hnode : t.nodes[f.index]? = some (.inner dim value child) := hf.1.1
          have hch := FrameOk.children hf
          have hI1 := R.pass A u tr f.index hI
          by_cases hneg : point dim - value < 0
          · obtain ⟨hl, hr⟩ := hch.1 hneg
            refine cont ⟨⟨child, f.squared_distance⟩ ::
                ⟨child + 1, (point dim - value) * (point dim - value)⟩ :: rest,
                (F.descentDistanceThreshold u).2, _⟩ (l :: r :: shs) A
              (by simp [searchStep, hnode, hb, hneg]) ?_
              (List.Forall₂.cons hl (List.Forall₂.cons hr hrest)) hI1 ?_
            · simp [pendingSize, Shape.size] at hn ⊢; omega
            · simp [pendingSamples, Shape.samples]
          · obtain ⟨hr, hl⟩ := hch.2 hneg
            refine cont ⟨⟨child + 1, f.squared_distance⟩ ::
                ⟨child, (point dim - value) * (point dim - value)⟩ :: rest,
                (F.descentDistanceThreshold u).2, _⟩ (r :: l :: shs) A
              (by simp [searchStep, hnode, hb, hneg]) ?_
              (List.Forall₂.cons hr (List.Forall₂.cons hl hrest)) hI1 ?_
            · simp [pendingSize, Shape.size] at hn ⊢; omega
            · simp only [pendingSamples, Shape.samples, List.map_cons, List.flatten_cons,
                ← List.append_assoc]
              refine List.Perm.append_right _ ?_
              rw [List.append_assoc, List.append_assoc]
              exact List.Perm.append_left _ List.perm_append_comm
      · have hb1 : belowThreshold f.squared_distance (F.descentDistanceThreshold u).1 = false := by
          simpa using hb
        obtain ⟨hE, _, hV, hL⟩ := hf
        have hnode : ∃ node, t.nodes[f.index]? = some node := by
          cases sh with
          | leaf start size => exact ⟨_, hE⟩
          | inner dim value child l r => exact ⟨_, hE.1⟩
        obtain ⟨node, hnode⟩ := hnode
        refine cont ⟨rest, (F.descentDistanceThreshold u).2, _⟩ shs (A ++ sh.samples)
          (by simp [searchStep, hnode, hb1]) ?_ hrest
          (R.prune A sh.samples u tr f.index f.squared_distance hI hb1 hV hL) ?_
        · have := sh.size_pos; omega
        · simp

end RuleLoop

end Ponca

namespace Ponca

section Generic

variable {α σ : Type} [LinearOrderedCommRing α] {D : Nat}
  (F : Functors α σ) (t : KdTreeBase α D) (point : VectorType α D)

theorem Quiet.refl (tr : List (Event α)) : Quiet tr tr :=
  ⟨[], by simp, by simp⟩

theorem Quiet.trans {a b c : List (Event α)} (h1 : Quiet a b) (h2 : Quiet b c) : Quiet a c := by
  obtain ⟨n1, rfl, h1⟩ := h1
  obtain ⟨n2, rfl, h2⟩ := h2
  refine ⟨n1 ++ n2, by simp, ?_⟩
  intro e he
  rcases List.mem_append.mp he with he | he
  · exact h1 e he
  · exact h2 e he

theorem Quiet.stopped {a b c : List (Event α)} (h1 : Quiet a b) (h2 : Stopped b c) :
    Stopped a c := by
  obtain ⟨n1, rfl, h1⟩ := h1
  obtain ⟨pre, idx, j, d, rfl, h2⟩ := h2
  refine ⟨n1 ++ pre, idx, j, d, by simp, ?_⟩
  intro e he
  rcases List.mem_append.mp he with he | he
  · exact h1 e he
  · exact h2 e he

theorem Quiet.append (tr new : List (Event α)) (h : ∀ e ∈ new, e.returnedTrue = false) :
    Quiet tr (tr ++ new) :=
  ⟨new, rfl, h⟩

/-- What a pass of the leaf loop does to the stack and to the trace. -/
theorem leafBody_effect (i : Nat) (st : KdTreeQuery α σ) :
    (∀ st1, leafBody F t point i st = .next st1 →
      st1.m_stack = st.m_stack ∧ Quiet st.trace st1.trace) ∧
    (∀ v st1, leafBody F t point i st = .stop v st1 →
      v = false ∧ st1.m_stack = st.m_stack ∧ Stopped st.trace st1.trace) := by
  unfold leafBody
  cases hidx : t.pointFromSample i with
  | none => simp
  | some idx =>
    simp only
    by_cases hsk : (F.skipFunctor idx st.user).1 = true
    · simp only [hsk, if_true]
      constructor
      · intro st1 h
        injection h with h
        subst h
        exact ⟨rfl, Quiet.append _ _ (by simp [Event.returnedTrue])⟩
      · intro v st1 h
        simp at h
    · simp only [hsk]
      cases hp : t.points[idx]? with
      | none => simp
      | some p =>
        simp only
        by_cases hb : belowThreshold (squaredDistance point p)
            (F.descentDistanceThreshold (F.skipFunctor idx st.user).2).1 = true
        · simp only [hb, if_true]
          by_cases hpr : (F.processNeighborFunctor idx i (squaredDistance point p)
              (F.descentDistanceThreshold (F.skipFunctor idx st.user).2).2).1 = true
          · simp only [hpr, if_true]
            constructor
            · intro st1 h
              simp at h
            · intro v st1 h
              injection h with h1 h2
              subst h1 h2
              refine ⟨rfl, rfl, [.skipFunctor idx false, .descentDistanceThreshold
                (F.descentDistanceThreshold (F.skipFunctor idx st.user).2).1], idx, i,
                squaredDistance point p, ?_, ?_⟩
              · simp
              · simp [Event.returnedTrue]
          · simp only [hpr]
            constructor
            · intro st1 h
              injection h with h
              subst h
              have hf : (F.processNeighborFunctor idx i (squaredDistance point p)
                  (F.descentDistanceThreshold (F.skipFunctor idx st.user).2).2).1 = false := by
                simpa using hpr
              refine ⟨rfl, _, List.append_assoc _ _ _ |>.trans (List.append_assoc _ _ _), ?_⟩
              simp [Event.returnedTrue, hf]
            · intro v st1 h
              simp at h
        · simp only [hb]
          constructor
          · intro st1 h
            injection h with h
            subst h
            exact ⟨rfl, _, List.append_assoc _ _ _, by simp [Event.returnedTrue]⟩
          · intro v st1 h
            simp at h

/-- What the leaf loop does to the stack and to the trace. -/
theorem leafLoop_effect : ∀ (n i : Nat) (st : KdTreeQuery α σ),
    (∀ st1, leafLoop F t point n i st = .next st1 →
      st1.m_stack = st.m_stack ∧ Quiet st.trace st1.trace) ∧
    (∀ v st1, leafLoop F t point n i st = .stop v st1 →
      v = false ∧ st1.m_stack = st.m_stack ∧ Stopped st.trace st1.trace) := by
  intro n
  induction n with
  | zero =>
    intro i st
    constructor
    · intro st1 h
      injection h with h
      subst h
      exact ⟨rfl, Quiet.refl _⟩
    · intro v st1 h
      simp [leafLoop] at h
  | succ n ih =>
    intro i st
    have hb := leafBody_effect F t point i st
    unfold leafLoop
    cases hbody : leafBody F t point i st with
    | next st0 =>
      obtain ⟨hs0, hq0⟩ := hb.1 st0 hbody
      simp only
      constructor
      · intro st1 h
        obtain ⟨hs1, hq1⟩ := (ih (i + 1) st0).1 st1 h
        exact ⟨hs1.trans hs0, hq0.trans hq1⟩
      · intro v st1 h
        obtain ⟨hv, hs1, hq1⟩ := (ih (i + 1) st0).2 v st1 h
        exact ⟨hv, hs1.trans hs0, hq0.stopped hq1⟩
    | stop v0 st0 =>
      obtain ⟨hv0, hs0, hq0⟩ := hb.2 v0 st0 hbody
      simp only
      constructor
      · intro st1 h
        simp at h
      · intro v st1 h
        injection h with h1 h2
        subst h1 h2
        exact ⟨hv0, hs0, hq0⟩
    | undefinedBehaviour => simp

/-- What a pass of the main loop does to the trace. -/
theorem searchStep_effect (st : KdTreeQuery α σ) :
    (∀ st1, searchStep F t point st = .next st1 → Quiet st.trace st1.trace) ∧
    (∀ v st1, searchStep F t point st = .stop v st1 →
      (v = true ∧ st1 = st ∧ st.m_stack = []) ∨ (v = false ∧ Stopped st.trace st1.trace)) := by
  obtain ⟨stk, u, tr⟩ := st
  cases stk with
  | nil => simp [searchStep]
  | cons f rest =>
    unfold searchStep
    simp only
    cases hnode : t.nodes[f.index]? with
    | none => simp
    | some node =>
      simp only
      have hq : Quiet tr (tr ++ [.node f.index,
          .descentDistanceThreshold (F.descentDistanceThreshold u).1]) :=
        Quiet.append _ _ (by simp [Event.returnedTrue])
      by_cases hb : belowThreshold f.squared_distance (F.descentDistanceThreshold u).1 = true
      · simp only [hb, if_true]
        cases node with
        | leaf start size =>
          simp only
          have hl := leafLoop_effect F t point size start
            ⟨rest, F.prepareLeafTraversal start (start + size) (F.descentDistanceThreshold u).2,
              tr ++ [.node f.index, .descentDistanceThreshold (F.descentDistanceThreshold u).1] ++
                [.prepareLeafTraversal start (start + size)]⟩
          have hq1 := hq.trans (Quiet.append _ [.prepareLeafTraversal start (start + size)]
            (by simp [Event.returnedTrue]))
          constructor
          · intro st1 h
            exact hq1.trans (hl.1 st1 h).2
          · intro v st1 h
            obtain ⟨hv, _, hs⟩ := hl.2 v st1 h
            exact Or.inr ⟨hv, hq1.stopped hs⟩
        | inner dim value child =>
          simp only
          split_ifs
          · constructor
            · intro st1 h
              injection h with h
              subst h
              exact hq
            · intro v st1 h
              simp at h
          · constructor
            · intro st1 h
              injection h with h
              subst h
              exact hq
            · intro v st1 h
              simp at h
      · simp only [hb]
        constructor
        · intro st1 h
          injection h with h
          subst h
          exact hq
        · intro v st1 h
          simp at h

/-- Partial correctness of the loop with respect to the trace. -/
theorem searchLoop_effect : ∀ (fuel : Nat) (st : KdTreeQuery α σ) (v : Bool)
    (final : KdTreeQuery α σ), searchLoop F t point fuel st = .returned v final →
    (v = true ∧ final.m_stack = [] ∧ Quiet st.trace final.trace) ∨
    (v = false ∧ Stopped st.trace final.trace) := by
  intro fuel
  induction fuel with
  | zero =>
    intro st v final h
    simp [searchLoop] at h
  | succ fuel ih =>
    intro st v final h
    have he := searchStep_effect F t point st
    unfold searchLoop at h
    cases hstep : searchStep F t point st with
    | next st1 =>
      rw [hstep] at h
      have hq := he.1 st1 hstep
      rcases ih st1 v final h with ⟨hv, hs, hq1⟩ | ⟨hv, hs⟩
      · exact Or.inl ⟨hv, hs, hq.trans hq1⟩
      · exact Or.inr ⟨hv, hq.stopped hs⟩
    | stop v0 st1 =>
      rw [hstep] at h
      injection h with h1 h2
      subst h1 h2
      rcases he.2 v0 st1 hstep with ⟨hv, hst, hs⟩ | ⟨hv, hs⟩
      · subst hst
        exact Or.inl ⟨hv, hs, Quiet.refl _⟩
      · exact Or.inr ⟨hv, hs⟩
    | undefinedBehaviour =>
      rw [hstep] at h
      simp at h

/-- The loop itself never throws. -/
theorem searchLoop_ne_threw : ∀ (fuel : Nat) (st st1 : KdTreeQuery α σ),
    searchLoop F t point fuel st ≠ .threw st1 := by
  intro fuel
  induction fuel with
  | zero => intro st st1 h; simp [searchLoop] at h
  | succ fuel ih =>
    intro st st1 h
    unfold searchLoop at h
    cases hstep : searchStep F t point st with
    | next st2 => rw [hstep] at h; exact ih st2 st1 h
    | stop v st2 => rw [hstep] at h; simp at h
    | undefinedBehaviour => rw [hstep] at h; simp at h

end Generic

end Ponca

namespace Ponca

section Example

theorem exampleTree_embeds : Embeds exampleTree.nodes 0 exampleShape := by
  simp [Embeds, exampleShape, exampleTree]

theorem exampleTree_wellFormed : WellFormed exampleTree := by
  refine ⟨by decide, exampleShape, exampleTree_embeds, by decide, ?_⟩
  simp [Shape.Ordered, exampleShape, Shape.samples, KdTreeBase.samplePos,
    KdTreeBase.pointFromSample, exampleTree, List.range']

end Example

end Ponca

namespace Ponca

section Termination

variable {α σ : Type} [LinearOrderedCommRing α] {D : Nat}

theorem WellFormed.samplesValid {t : KdTreeBase α D} (h : WellFormed t) {s : Nat}
    (hs : s < t.sample_count) : ∃ p, t.samplePos s = some p := by
  obtain ⟨hperm, _⟩ := h
  have hs1 : s < t.indices.length := hs
  have hmem : t.indices[s] ∈ List.range t.points.length :=
    hperm.subset (List.getElem_mem hs1)
  have hlt : t.indices[s] < t.points.length := List.mem_range.mp hmem
  refine ⟨t.points[t.indices[s]], ?_⟩
  simp [KdTreeBase.samplePos, KdTreeBase.pointFromSample, List.getElem?_eq_getElem hs1,
    List.getElem?_eq_getElem hlt]

theorem WellFormed.sample_count_eq {t : KdTreeBase α D} (h : WellFormed t) :
    t.sample_count = t.points.length := by
  have := h.1.length_eq
  simpa [KdTreeBase.sample_count] using this

/-- The frame pushed by `reset` is in order on a well-formed tree. -/
theorem WellFormed.rootFrame {t : KdTreeBase α D} (h : WellFormed t) (point : VectorType α D) :
    ∃ sh : Shape α D, FrameOk t point ⟨0, 0⟩ sh ∧
      sh.samples.Perm (List.range t.sample_count) := by
  obtain ⟨sh, hE, hperm, hO⟩ := h.2
  refine ⟨sh, ⟨hE, hO, ?_, ?_⟩, hperm⟩
  · intro s hs
    exact h.samplesValid (List.mem_range.mp (hperm.subset hs))
  · intro s _ p _
    exact squaredDistance_nonneg point p

theorem WellFormed.not_empty {t : KdTreeBase α D} (h : WellFormed t) (hne : t.points ≠ []) :
    (t.nodes.isEmpty || t.points.isEmpty || t.sample_count == 0) = false := by
  obtain ⟨sh, hE, _, _⟩ := h.2
  have hn : t.nodes ≠ [] := by
    intro h0
    cases sh <;> simp [Embeds, h0] at hE
  have hc : t.sample_count ≠ 0 := by
    rw [h.sample_count_eq]
    exact fun h0 => hne (List.length_eq_zero.mp h0)
  simp [List.isEmpty_iff, hn, hne, hc]

/-- On a well-formed tree the loop started from the reset stack returns, whatever the functors
do. -/
theorem searchLoop_terminates (F : Functors α σ) {t : KdTreeBase α D} (h : WellFormed t)
    (point : VectorType α D) (st : KdTreeQuery α σ) :
    ∃ n, ∀ fuel, n < fuel → ∃ v final,
      searchLoop F t point fuel st.reset = .returned v final := by
  obtain ⟨sh, hF, _⟩ := h.rootFrame point
  have R : TraversalRule F t point (fun _ _ _ => True) (fun _ _ => True) :=
    ⟨by intros; trivial, by intros; trivial, by intros; trivial, by intros; trivial,
      by intros; trivial⟩
  obtain ⟨v, final, hrun, _⟩ := searchLoop_rule R (pendingSize [sh]) [sh] st.reset []
    (le_refl _) (List.Forall₂.cons hF List.Forall₂.nil) trivial
  exact ⟨pendingSize [sh], fun fuel hfuel => ⟨v, final, hrun fuel hfuel⟩⟩

theorem Shape.depth_pos {sh : Shape α D} : 0 < sh.depth := by
  cases sh <;> simp [Shape.depth]

theorem StackDepth.length_le {nodes : List (KdNode α D)} {M : Nat} :
    ∀ {stk : List (IndexSquaredDistance α)}, StackDepth nodes M stk → stk.length ≤ M
  | [], _ => Nat.zero_le _
  | f :: rest, h => by
    obtain ⟨⟨sh, _, hd⟩, _⟩ := h
    have := @Shape.depth_pos α _ D sh
    simp only [List.length_cons]
    omega

/-- A pass through the main loop keeps the frames under the depth bound, and a pass that leaves
the loop does not grow the stack. -/
theorem searchStep_stackDepth (F : Functors α σ) (t : KdTreeBase α D) (point : VectorType α D)
    (M : Nat) (st : KdTreeQuery α σ) (h : StackDepth t.nodes M st.m_stack) :
    (∀ st1, searchStep F t point st = .next st1 → StackDepth t.nodes M st1.m_stack) ∧
    (∀ v st1, searchStep F t point st = .stop v st1 →
      st1.m_stack.length ≤ st.m_stack.length) := by
  obtain ⟨stk, u, tr⟩ := st
  cases stk with
  | nil =>
    constructor
    · intro st1 hs
      simp [searchStep] at hs
    · intro v st1 hs
      simp only [searchStep, Step.stop.injEq] at hs
      rw [← hs.2]
  | cons f rest =>
    obtain ⟨⟨sh, hE, hd⟩, hrest⟩ := h
    unfold searchStep
    simp only
    cases hnode : t.nodes[f.index]? with
    | none => simp
    | some node =>
      simp only
      by_cases hb : belowThreshold f.squared_distance (F.descentDistanceThreshold u).1 = true
      · simp only [hb, if_true]
        cases node with
        | leaf start size =>
          simp only
          have hl := leafLoop_effect F t point size start
            ⟨rest, F.prepareLeafTraversal start (start + size) (F.descentDistanceThreshold u).2,
              tr ++ [.node f.index, .descentDistanceThreshold (F.descentDistanceThreshold u).1] ++
                [.prepareLeafTraversal start (start + size)]⟩
          constructor
          · intro st1 hs
            rw [(hl.1 st1 hs).1]
            exact hrest
          · intro v st1 hs
            rw [(hl.2 v st1 hs).2.1]
            simp
        | inner dim value child =>
          have hsh : ∃ l r, sh = .inner dim value child l r := by
            cases sh with
            | leaf start size => simp [Embeds, hnode] at hE
            | inner dim1 value1 child1 l r =>
              have h1 := hE.1
              rw [hnode] at h1
              injection h1 with h1
              injection h1 with h1 h2 h3
              subst h1 h2 h3
              exact ⟨l, r, rfl⟩
          obtain ⟨l, r, rfl⟩ := hsh
          obtain ⟨_, hEl, hEr⟩ := hE
          have hdl : l.depth + 1 ≤ (Shape.inner dim value child l r).depth := by
            simp [Shape.depth]
          have hdr : r.depth + 1 ≤ (Shape.inner dim value child l r).depth := by
            simp [Shape.depth]
          simp only
          split_ifs
          · constructor
            · intro st1 hs
              injection hs with hs
              subst hs
              exact ⟨⟨l, hEl, by simp only [List.length_cons]; omega⟩,
                ⟨r, hEr, by omega⟩, hrest⟩
            · intro v st1 hs
              simp at hs
          · constructor
            · intro st1 hs
              injection hs with hs
              subst hs
              exact ⟨⟨r, hEr, by simp only [List.length_cons]; omega⟩,
                ⟨l, hEl, by omega⟩, hrest⟩
            · intro v st1 hs
              simp at hs
      · simp only [hb]
        constructor
        · intro st1 hs
          injection hs with hs
          subst hs
          exact hrest
        · intro v st1 hs
          simp at hs

theorem searchIterate_stackDepth (F : Functors α σ) (t : KdTreeBase α D) (point : VectorType α D)
    (M : Nat) : ∀ (n : Nat) (st st1 : KdTreeQuery α σ), StackDepth t.nodes M st.m_stack →
      searchIterate F t point n st = some st1 → StackDepth t.nodes M st1.m_stack := by
  intro n
  induction n with
  | zero =>
    intro st st1 h hs
    simp only [searchIterate, Option.some.injEq] at hs
    rw [← hs]
    exact h
  | succ n ih =>
    intro st st1 h hs
    unfold searchIterate at hs
    cases hstep : searchStep F t point st with
    | next st2 =>
      rw [hstep] at hs
      exact ih st2 st1 ((searchStep_stackDepth F t point M st h).1 st2 hstep) hs
    | stop v st2 => rw [hstep] at hs; simp at hs
    | undefinedBehaviour => rw [hstep] at hs; simp at hs

theorem searchLoop_stackDepth (F : Functors α σ) (t : KdTreeBase α D) (point : VectorType α D)
    (M : Nat) : ∀ (fuel : Nat) (st final : KdTreeQuery α σ) (v : Bool),
      StackDepth t.nodes M st.m_stack →
      searchLoop F t point fuel st = .returned v final → final.m_stack.length ≤ M := by
  intro fuel
  induction fuel with
  | zero =>
    intro st final v h hs
    simp [searchLoop] at hs
  | succ fuel ih =>
    intro st final v h hs
    unfold searchLoop at hs
    cases hstep : searchStep F t point st with
    | next st2 =>
      rw [hstep] at hs
      exact ih st2 final v ((searchStep_stackDepth F t point M st h).1 st2 hstep) hs
    | stop v2 st2 =>
      rw [hstep] at hs
      injection hs with h1 h2
      subst h1 h2
      exact le_trans ((searchStep_stackDepth F t point M st h).2 v2 st2 hstep) h.length_le
    | undefinedBehaviour => rw [hstep] at hs; simp at hs

end Termination

section Claims

variable {α σ : Type} [LinearOrderedCommRing α] {D : Nat}

/-- C4: `search_internal` throws exactly when the node array is empty, or the point container is
empty, or `sample_count()` is 0; when it throws, the query state is the one it was called with:
the stack is unchanged and the trace has no new entry (no node was read, no functor called). -/
theorem search_internal_throws (F : Functors α σ) (t : KdTreeBase α D) (point : VectorType α D)
    (fuel : Nat) (st : KdTreeQuery α σ) :
    ((∃ st1, search_internal F t point fuel st = .threw st1) ↔
      (t.nodes = [] ∨ t.points = [] ∨ t.sample_count = 0)) ∧
    (∀ st1, search_internal F t point fuel st = .threw st1 → st1 = st) := by
  unfold search_internal
  by_cases hc : (t.nodes.isEmpty || t.points.isEmpty || t.sample_count == 0) = true
  · simp only [hc, if_true]
    refine ⟨⟨fun _ => ?_, fun _ => ⟨st, rfl⟩⟩, ?_⟩
    · simpa [List.isEmpty_iff, or_assoc] using hc
    · intro st1 h
      injection h with h
      exact h.symm
  · simp only [hc]
    refine ⟨⟨fun ⟨st1, h⟩ => absurd h (searchLoop_ne_threw F t point fuel st st1), fun h => ?_⟩,
      fun st1 h => absurd h (searchLoop_ne_threw F t point fuel st st1)⟩
    exact absurd (by simpa [List.isEmpty_iff, or_assoc] using h) hc

/-- C5: whenever `search_internal` returns, it returns `false` exactly when some call of
`processNeighborFunctor` made during the search returned `true`; that call is then the last entry
of the trace (nothing is examined after it) and the first call that returned `true`; and when it
returns `true` the stack is empty. On a well-formed, non-empty tree the search started from the
reset stack does return, given enough fuel. -/
theorem search_internal_cancellation (F : Functors α σ) (t : KdTreeBase α D)
    (point : VectorType α D) (st : KdTreeQuery α σ) :
    (∀ fuel v final, search_internal F t point fuel st = .returned v final →
      ∃ new, final.trace = st.trace ++ new ∧
        (v = false ↔ ∃ e ∈ new, e.returnedTrue = true) ∧
        (v = false → ∃ pre idx j d, new = pre ++ [.processNeighborFunctor idx j d true] ∧
          ∀ e ∈ pre, e.returnedTrue = false) ∧
        (v = true → final.m_stack = [])) ∧
    (WellFormed t → t.points ≠ [] → ∃ n, ∀ fuel, n < fuel → ∃ v final,
      search_internal F t point fuel st.reset = .returned v final) := by
  constructor
  · intro fuel v final h
    unfold search_internal at h
    split_ifs at h
    rcases searchLoop_effect F t point fuel st v final h with
      ⟨hv, hs, new, hnew, hq⟩ | ⟨hv, pre, idx, j, d, hnew, hq⟩
    · subst hv
      refine ⟨new, hnew, ?_, by simp, fun _ => hs⟩
      simp only [Bool.true_eq_false, false_iff, not_exists, not_and]
      intro e he
      simp [hq e he]
    · subst hv
      refine ⟨pre ++ [.processNeighborFunctor idx j d true], by simpa using hnew, ?_,
        fun _ => ⟨pre, idx, j, d, rfl, hq⟩, by simp⟩
      simp only [true_iff]
      exact ⟨.processNeighborFunctor idx j d true, by simp, rfl⟩
  · intro hwf hne
    obtain ⟨n, hn⟩ := searchLoop_terminates F hwf point st
    refine ⟨n, fun fuel hfuel => ?_⟩
    obtain ⟨v, final, hrun⟩ := hn fuel hfuel
    exact ⟨v, final, by simp [search_internal, hwf.not_empty hne, hrun]⟩

/-- C6: when the node array unfolds from the root to a shape of depth at most `MAX_DEPTH`, the
stack of a search started from the reset state holds at most `2 * MAX_DEPTH` frames after every
number of passes through the loop and when the search returns. -/
theorem search_internal_stack_bound (F : Functors α σ) (t : KdTreeBase α D)
    (point : VectorType α D) (MAX_DEPTH : Nat) (sh : Shape α D) (hE : Embeds t.nodes 0 sh)
    (hd : sh.depth ≤ MAX_DEPTH) (st : KdTreeQuery α σ) :
    (∀ n st1, searchIterate F t point n st.reset = some st1 →
      st1.m_stack.length ≤ 2 * MAX_DEPTH) ∧
    (∀ fuel v final, search_internal F t point fuel st.reset = .returned v final →
      final.m_stack.length ≤ 2 * MAX_DEPTH) := by
  have h0 : StackDepth t.nodes MAX_DEPTH (st.reset).m_stack :=
    ⟨⟨sh, hE, by simpa using hd⟩, trivial⟩
  constructor
  · intro n st1 hs
    have := (searchIterate_stackDepth F t point MAX_DEPTH n st.reset st1 h0 hs).length_le
    omega
  · intro fuel v final hs
    unfold search_internal at hs
    split_ifs at hs
    have := searchLoop_stackDepth F t point MAX_DEPTH fuel st.reset final v h0 hs
    omega

/-- C6 at `exampleTree`, whose shape has depth 3, for the k-nearest functors. -/
theorem search_internal_stack_bound_witness :
    Embeds exampleTree.nodes 0 exampleShape ∧ exampleShape.depth ≤ 3 ∧
    (∀ n st1, searchIterate (knnFunctors 2 fun _ => false) exampleTree ![1, 1] n
        (KdTreeQuery.fresh []).reset = some st1 → st1.m_stack.length ≤ 2 * 3) ∧
    (∀ fuel v final, search_internal (knnFunctors 2 fun _ => false) exampleTree ![1, 1] fuel
        (KdTreeQuery.fresh []).reset = .returned v final → final.m_stack.length ≤ 2 * 3) :=
  ⟨exampleTree_embeds, by decide,
    search_internal_stack_bound (knnFunctors 2 fun _ => false) exampleTree ![1, 1] 3
      exampleShape exampleTree_embeds (by decide) (KdTreeQuery.fresh [])⟩

end Claims

end Ponca

namespace Ponca

section Heap

variable {α : Type} [LinearOrderedCommRing α]

theorem insertSorted_perm (x : IndexSquaredDistance α) :
    ∀ q : List (IndexSquaredDistance α), (insertSorted x q).Perm (x :: q)
  | [] => List.Perm.refl _
  | y :: ys => by
    unfold insertSorted
    split_ifs
    · exact List.Perm.refl _
    · exact ((insertSorted_perm x ys).cons y).trans (List.Perm.swap x y ys)

theorem insertSorted_ascending (x : IndexSquaredDistance α) :
    ∀ q : List (IndexSquaredDistance α), Ascending q → Ascending (insertSorted x q)
  | [], _ => by simp [insertSorted, Ascending]
  | y :: ys, h => by
    unfold Ascending at h
    rw [List.pairwise_cons] at h
    unfold insertSorted
    split_ifs with hlt
    · refine List.Pairwise.cons ?_ (List.Pairwise.cons h.1 h.2)
      intro z hz
      rcases List.mem_cons.mp hz with rfl | hz
      · exact le_of_lt hlt
      · exact le_trans (le_of_lt hlt) (h.1 z hz)
    · refine List.Pairwise.cons ?_ (insertSorted_ascending x ys h.2)
      intro z hz
      rcases List.mem_cons.mp ((insertSorted_perm x ys).subset hz) with rfl | hz
      · exact not_lt.mp hlt
      · exact h.1 z hz

theorem Ascending.getLast_max {q : List (IndexSquaredDistance α)} (h : Ascending q)
    {w : IndexSquaredDistance α} (hw : q.getLast? = some w) :
    ∀ x ∈ q, x.squared_distance ≤ w.squared_distance := by
  intro x hx
  obtain ⟨init, rfl⟩ : ∃ init, q = init ++ [w] := by
    rcases List.eq_nil_or_concat q with rfl | ⟨init, b, rfl⟩
    · simp at hw
    · simp at hw
      subst hw
      exact ⟨init, by simp⟩
  unfold Ascending at h
  rw [List.pairwise_append] at h
  rcases List.mem_append.mp hx with hx | hx
  · exact h.2.2 x hx w (by simp)
  · simp only [List.mem_singleton] at hx
    rw [hx]

/-- What a threshold that is not above `b` says of a heap. -/
theorem knnThreshold_not_below {k : Nat} {q : List (IndexSquaredDistance α)} {b : α}
    (h : belowThreshold b (knnThreshold k q) = false) (hq : Ascending q) :
    k ≤ q.length ∧ ∀ x ∈ q, x.squared_distance ≤ b := by
  unfold knnThreshold at h
  split_ifs at h with hlen
  · simp [belowThreshold] at h
  · refine ⟨not_lt.mp hlen, ?_⟩
    cases hw : q.getLast? with
    | none => simp [hw, belowThreshold] at h
    | some w =>
      simp only [hw, Option.map_some', belowThreshold, decide_eq_false_iff_not, not_lt] at h
      intro x hx
      exact le_trans (hq.getLast_max hw x hx) h

/-- A candidate that is not below the threshold stays out: the heap is the best of more. -/
theorem BestOf.reject {k : Nat} {C q S : List (IndexSquaredDistance α)} {b : α}
    (h : BestOf k C q) (hb : belowThreshold b (knnThreshold k q) = false)
    (hS : ∀ y ∈ S, b ≤ y.squared_distance) : BestOf k (C ++ S) q := by
  obtain ⟨rest, hperm, hasc, hle, hlen, hfull⟩ := h
  obtain ⟨hk, hmax⟩ := knnThreshold_not_below hb hasc
  refine ⟨rest ++ S, ?_, hasc, ?_, hlen, fun hlt => absurd hk (not_le.mpr hlt)⟩
  · rw [← List.append_assoc]
    exact hperm.append_right S
  · intro x hx y hy
    rcases List.mem_append.mp hy with hy | hy
    · exact hle x hx y hy
    · exact le_trans (hmax x hx) (hS y hy)

/-- A candidate below the threshold is pushed: the heap is again the best of all. -/
theorem BestOf.push {k : Nat} {C q : List (IndexSquaredDistance α)}
    {c : IndexSquaredDistance α} (h : BestOf k C q)
    (hb : belowThreshold c.squared_distance (knnThreshold k q) = true) :
    BestOf k (C ++ [c]) (limitedPush k c q) := by
  obtain ⟨rest, hperm, hasc, hle, hlen, hfull⟩ := h
  have hins := insertSorted_perm c q
  have hsorted : Ascending (insertSorted c q) := insertSorted_ascending c q hasc
  have hsplit : insertSorted c q = (insertSorted c q).take k ++ (insertSorted c q).drop k :=
    (List.take_append_drop k _).symm
  have hlenins : (insertSorted c q).length = q.length + 1 := by
    simpa using hins.length_eq
  -- the pushed entry is not farther than the remainder
  have hc : 0 < k → ∀ y ∈ rest, c.squared_distance ≤ y.squared_distance := by
    intro hk y hy
    have hnotlt : ¬ q.length < k := fun hlt => by simp [hfull hlt] at hy
    unfold knnThreshold at hb
    simp only [hnotlt, if_false] at hb
    cases hw : q.getLast? with
    | none =>
      have hnil : q = [] := List.getLast?_eq_none_iff.mp hw
      rw [hnil] at hnotlt
      exact absurd hk hnotlt
    | some w =>
      simp only [hw, Option.map_some', belowThreshold, decide_eq_true_eq] at hb
      exact le_trans (le_of_lt hb) (hle w (List.mem_of_getLast?_eq_some hw) y hy)
  unfold limitedPush
  refine ⟨(insertSorted c q).drop k ++ rest, ?_, ?_, ?_, ?_, ?_⟩
  · rw [← List.append_assoc, ← hsplit]
    calc (C ++ [c]).Perm (c :: C) := List.perm_append_singleton c C
      _ |>.Perm (c :: (q ++ rest)) := hperm.cons c
      _ |>.Perm (insertSorted c q ++ rest) := (hins.append_right rest).symm
  · unfold Ascending at hsorted ⊢
    exact hsorted.sublist (List.take_sublist k _)
  · intro x hx y hy
    rcases List.mem_append.mp hy with hyd | hyr
    · unfold Ascending at hsorted
      rw [hsplit, List.pairwise_append] at hsorted
      exact hsorted.2.2 x hx y hyd
    · have hk : 0 < k := by
        rcases Nat.eq_zero_or_pos k with hk0 | hk
        · rw [hk0] at hx
          simp at hx
        · exact hk
      rcases List.mem_cons.mp (hins.subset (List.mem_of_mem_take hx)) with hxc | hxq
      · rw [hxc]
        exact hc hk y hyr
      · exact hle x hxq y hyr
  · simp
  · intro hlt
    have h1 : q.length + 1 < k := by
      rw [List.length_take, hlenins] at hlt
      omega
    rw [hfull (by omega)]
    simp [hlenins]
    omega

end Heap

end Ponca

namespace Ponca

section KnnRule

variable {α : Type} [LinearOrderedCommRing α] {D : Nat}

theorem candidate_lowerBound {t : KdTreeBase α D} {point : VectorType α D} {skip : Nat → Bool}
    {b : α} {S : List Nat} (hL : LowerBound t point b S) :
    ∀ y ∈ candidates t point skip S, b ≤ y.squared_distance := by
  intro y hy
  obtain ⟨s, hs, hc⟩ := List.mem_filterMap.mp hy
  unfold candidate at hc
  cases hidx : t.pointFromSample s with
  | none => simp [hidx] at hc
  | some idx =>
    simp only [hidx, Option.some_bind] at hc
    split_ifs at hc
    cases hp : t.points[idx]? with
    | none => simp [hp] at hc
    | some p =>
      simp only [hp, Option.map_some', Option.some.injEq] at hc
      rw [← hc]
      exact hL s hs p (by simp [KdTreeBase.samplePos, hidx, hp])

/-- The k-nearest functors keep the heap the best `k` of the candidates visited so far, and
never stop the search. -/
theorem knn_rule (t : KdTreeBase α D) (point : VectorType α D) (k : Nat) (skip : Nat → Bool) :
    TraversalRule (knnFunctors k skip) t point
      (fun A queue _ => BestOf k (candidates t point skip A) queue) (fun _ _ => False) where
  pass := by
    intro A u tr idx h
    exact h
  prune := by
    intro A S u tr idx b h hb _ hL
    show BestOf k (candidates t point skip (A ++ S)) u
    have hb1 : belowThreshold b (knnThreshold k u) = false := hb
    simpa [candidates] using h.reject hb1 (candidate_lowerBound hL)
  prepare := by
    intro A u tr a b h
    exact h
  body_next := by
    intro A stk u tr i st1 h hbody
    unfold leafBody at hbody
    cases hidx : t.pointFromSample i with
    | none => simp [hidx] at hbody
    | some idx =>
      simp only [hidx, knnFunctors] at hbody
      by_cases hsk : skip idx = true
      · simp only [hsk, if_true, Step.next.injEq] at hbody
        subst hbody
        simpa [candidates, List.filterMap_append, candidate, hidx, hsk] using h
      · cases hp : t.points[idx]? with
        | none => simp [hsk, hp] at hbody
        | some p =>
          have hcand : candidates t point skip (A ++ [i]) =
              candidates t point skip A ++ [⟨idx, squaredDistance point p⟩] := by
            simp [candidates, List.filterMap_append, candidate, hidx, hsk, hp]
          rw [hcand]
          simp only [hsk, hp, Bool.false_eq_true, if_false] at hbody
          by_cases hb : belowThreshold (squaredDistance point p) (knnThreshold k u) = true
          · simp only [hb, if_true, Step.next.injEq] at hbody
            subst hbody
            exact h.push hb
          · simp only [hb, Bool.false_eq_true, if_false, Step.next.injEq] at hbody
            subst hbody
            have hb1 : belowThreshold (squaredDistance point p) (knnThreshold k u) = false := by
              simpa using hb
            refine h.reject hb1 ?_
            intro y hy
            simp only [List.mem_singleton] at hy
            rw [hy]
  body_stop := by
    intro A stk u tr i v st1 h hbody
    unfold leafBody at hbody
    cases hidx : t.pointFromSample i with
    | none => simp [hidx] at hbody
    | some idx =>
      simp only [hidx, knnFunctors] at hbody
      by_cases hsk : skip idx = true
      · simp [hsk] at hbody
      · cases hp : t.points[idx]? with
        | none => simp [hsk, hp] at hbody
        | some p =>
          simp only [hsk, hp, Bool.false_eq_true, if_false] at hbody
          split_ifs at hbody

end KnnRule

end Ponca

namespace Ponca

section BruteForce

variable {α : Type} [LinearOrderedCommRing α] {D : Nat}

/-- Reading a list through its positions is reading the list. -/
theorem filterMap_range_getElem? {β γ : Type} (g : β → Option γ) :
    ∀ l : List β, (List.range l.length).filterMap (fun s => (l[s]?).bind g) = l.filterMap g
  | [] => rfl
  | a :: l => by
    have ih := filterMap_range_getElem? g l
    simp only [List.length_cons, List.range_succ_eq_map, List.filterMap_cons,
      List.filterMap_map, List.getElem?_cons_zero, Option.some_bind]
    have hfun : ((fun s => ((a :: l)[s]?).bind g) ∘ Nat.succ) = fun s => (l[s]?).bind g := by
      funext s
      simp
    rw [hfun, ih]

/-- The candidates offered by all samples of a well-formed tree are the brute-force
candidates. -/
theorem candidates_perm_bruteForce {t : KdTreeBase α D} (h : WellFormed t)
    (point : VectorType α D) (skip : Nat → Bool) {A : List Nat}
    (hA : A.Perm (List.range t.sample_count)) :
    (candidates t point skip A).Perm (bruteForce t point skip) := by
  have h1 := hA.filterMap (candidate t point skip)
  have h2 : (List.range t.sample_count).filterMap (candidate t point skip) =
      t.indices.filterMap fun idx =>
        if skip idx then none
        else (t.points[idx]?).map fun p => (⟨idx, squaredDistance point p⟩ :
          IndexSquaredDistance α) :=
    filterMap_range_getElem? _ t.indices
  unfold candidates bruteForce
  rw [h2] at h1
  exact h1.trans (h.1.filterMap _)

theorem bruteForce_map_index (t : KdTreeBase α D) (point : VectorType α D)
    (skip : Nat → Bool) :
    (bruteForce t point skip).map (fun e => e.index) =
      (List.range t.points.length).filter fun idx => !skip idx := by
  unfold bruteForce
  have key : ∀ L : List Nat, (∀ idx ∈ L, idx < t.points.length) →
      (L.filterMap fun idx =>
        if skip idx then none
        else (t.points[idx]?).map fun p => (⟨idx, squaredDistance point p⟩ :
          IndexSquaredDistance α)).map (fun e => e.index) =
      L.filter fun idx => !skip idx := by
    intro L
    induction L with
    | nil => intro _; rfl
    | cons a L ih =>
      intro hL
      have ha : a < t.points.length := hL a (by simp)
      have ih1 := ih fun idx hidx => hL idx (by simp [hidx])
      by_cases hsk : skip a = true
      · simp only [List.filterMap_cons, hsk, if_true, List.filter_cons, Bool.not_true,
          Bool.false_eq_true, if_false]
        exact ih1
      · simp only [List.filterMap_cons, hsk, Bool.false_eq_true, if_false,
          List.getElem?_eq_getElem ha, Option.map_some', List.map_cons, List.filter_cons,
          Bool.not_eq_true, Bool.not_false, if_true]
        simp only [Bool.not_eq_true] at hsk
        simp only [hsk, Bool.not_false, if_true, List.cons.injEq, true_and]
        exact ih1
  exact key _ fun idx hidx => List.mem_range.mp hidx

theorem mem_bruteForce {t : KdTreeBase α D} {point : VectorType α D} {skip : Nat → Bool}
    {e : IndexSquaredDistance α} (he : e ∈ bruteForce t point skip) :
    skip e.index = false ∧
      ∃ p, t.points[e.index]? = some p ∧ e.squared_distance = squaredDistance point p := by
  obtain ⟨idx, _, hc⟩ := List.mem_filterMap.mp he
  by_cases hsk : skip idx = true
  · simp [hsk] at hc
  · cases hp : t.points[idx]? with
    | none => simp [hsk, hp] at hc
    | some p =>
      simp only [hsk, hp, Bool.false_eq_true, if_false, Option.map_some',
        Option.some.injEq] at hc
      subst hc
      exact ⟨by simpa using hsk, p, hp, rfl⟩

theorem bruteForce_all (t : KdTreeBase α D) (point : VectorType α D) :
    (bruteForce t point fun _ => false).map (fun e => e.squared_distance) =
      t.points.map (squaredDistance point) := by
  unfold bruteForce
  rw [List.map_filterMap]
  have h := filterMap_range_getElem? (some ∘ squaredDistance point) t.points
  rw [List.filterMap_eq_map] at h
  rw [← h]
  refine List.filterMap_congr fun idx _ => ?_
  cases t.points[idx]? <;> simp

end BruteForce

end Ponca

namespace Ponca

section KnnCorrect

variable {α : Type} [LinearOrderedCommRing α] {D : Nat}

theorem BestOf.of_perm {k : Nat} {C C1 q : List (IndexSquaredDistance α)} (h : BestOf k C q)
    (hC : C.Perm C1) : BestOf k C1 q := by
  obtain ⟨rest, hperm, hrest⟩ := h
  exact ⟨rest, hC.symm.trans hperm, hrest⟩

theorem BestOf.ascending {k : Nat} {C q : List (IndexSquaredDistance α)} (h : BestOf k C q) :
    Ascending q := by
  obtain ⟨_, _, hasc, _⟩ := h
  exact hasc

theorem BestOf.mem {k : Nat} {C q : List (IndexSquaredDistance α)} (h : BestOf k C q) :
    ∀ e ∈ q, e ∈ C := by
  obtain ⟨rest, hperm, _⟩ := h
  intro e he
  exact hperm.symm.subset (List.mem_append_left rest he)

theorem BestOf.length_eq {k : Nat} {C q : List (IndexSquaredDistance α)} (h : BestOf k C q) :
    q.length = min k C.length := by
  obtain ⟨rest, hperm, _, _, hlen, hfull⟩ := h
  have hl : C.length = q.length + rest.length := by
    simpa using hperm.length_eq
  rcases Nat.lt_or_ge q.length k with hlt | hge
  · have := hfull hlt
    subst this
    simp at hl
    omega
  · omega

theorem BestOf.nodup_index {k : Nat} {C q : List (IndexSquaredDistance α)} (h : BestOf k C q)
    (hC : (C.map fun e => e.index).Nodup) : (q.map fun e => e.index).Nodup := by
  obtain ⟨rest, hperm, _⟩ := h
  have h1 : ((q ++ rest).map fun e => e.index).Nodup := (hperm.map _).nodup_iff.mp hC
  rw [List.map_append] at h1
  exact (List.nodup_append.mp h1).1

/-- The distances in the heap are the `k` smallest distances of the candidates, in ascending
order. -/
theorem BestOf.distances {k : Nat} {C q : List (IndexSquaredDistance α)} (h : BestOf k C q) :
    q.map (fun e => e.squared_distance) =
      ((C.map fun e => e.squared_distance).insertionSort (· ≤ ·)).take k := by
  obtain ⟨rest, hperm, hasc, hle, hlen, hfull⟩ := h
  have hsort : (C.map fun e => e.squared_distance).insertionSort (· ≤ ·) =
      q.map (fun e => e.squared_distance) ++
        (rest.map fun e => e.squared_distance).insertionSort (· ≤ ·) := by
    refine List.eq_of_perm_of_sorted (r := (· ≤ ·)) ?_ (List.sorted_insertionSort _ _) ?_
    · refine (List.perm_insertionSort _ _).trans ?_
      refine (hperm.map _).trans ?_
      rw [List.map_append]
      exact List.Perm.append_left _ (List.perm_insertionSort _ _).symm
    · unfold List.Sorted
      rw [List.pairwise_append]
      refine ⟨?_, List.sorted_insertionSort _ _, ?_⟩
      · exact List.pairwise_map.mpr hasc
      · intro a ha b hb
        obtain ⟨x, hx, rfl⟩ := List.mem_map.mp ha
        obtain ⟨y, hy, rfl⟩ := List.mem_map.mp ((List.perm_insertionSort _ _).subset hb)
        exact hle x hx y hy
  rw [hsort]
  rcases Nat.lt_or_ge q.length k with hlt | hge
  · rw [hfull hlt]
    simp only [List.map_nil, List.insertionSort, List.append_nil]
    exact (List.take_of_length_le (by simp; omega)).symm
  · exact (List.take_left' (by simp; omega)).symm

/-- The k-nearest query on a well-formed, non-empty tree returns `true` with the heap holding
the best `k` of the brute-force candidates. -/
theorem knnBegin_bestOf {t : KdTreeBase α D} (hwf : WellFormed t) (hne : t.points ≠ [])
    (k : Nat) (skip : Nat → Bool) (point : VectorType α D)
    (st : KdTreeQuery α (List (IndexSquaredDistance α))) :
    ∃ n final, (∀ fuel, n < fuel → knnBegin t k skip point fuel st = .returned true final) ∧
      BestOf k (bruteForce t point skip) final.user := by
  obtain ⟨sh, hF, hperm⟩ := hwf.rootFrame point
  have h0 : BestOf k (candidates t point skip []) ([] : List (IndexSquaredDistance α)) :=
    ⟨[], by simp [candidates], by simp [Ascending], by simp, by simp, by simp⟩
  obtain ⟨v, final, hrun, hpost⟩ := searchLoop_rule (knn_rule t point k skip)
    (pendingSize [sh]) [sh] { st.reset with user := [] } [] (le_refl _)
    (List.Forall₂.cons hF List.Forall₂.nil) h0
  rcases hpost with ⟨hv, _, A1, hA1, hI⟩ | ⟨_, hfalse⟩
  · subst hv
    refine ⟨pendingSize [sh], final, ?_, ?_⟩
    · intro fuel hfuel
      simp [knnBegin, search_internal, hwf.not_empty hne, hrun fuel hfuel]
    · refine hI.of_perm (candidates_perm_bruteForce hwf point skip ?_)
      refine hA1.trans ?_
      simpa [pendingSamples] using hperm
  · exact absurd hfalse id

end KnnCorrect

end Ponca



namespace Ponca

section KnnClaims

variable {α : Type} [LinearOrderedCommRing α] {D : Nat}

/-- Skipping one position of a list read through its positions erases that position. -/
theorem filterMap_range_skip {β γ : Type} (g : β → Option γ) :
    ∀ (l : List β) (i : Nat),
      (List.range l.length).filterMap
          (fun idx => if decide (idx = i) = true then none else (l[idx]?).bind g) =
        (l.eraseIdx i).filterMap g
  | [], _ => rfl
  | a :: l, 0 => by
    have h := filterMap_range_getElem? g l
    simp only [List.length_cons, List.range_succ_eq_map, List.filterMap_cons,
      List.filterMap_map, decide_True, if_true, List.eraseIdx_cons_zero]
    rw [← h]
    refine List.filterMap_congr fun s _ => ?_
    simp
  | a :: l, j + 1 => by
    have h := filterMap_range_skip g l j
    simp only [List.length_cons, List.range_succ_eq_map, List.filterMap_cons,
      List.filterMap_map, List.eraseIdx_cons_succ, List.getElem?_cons_zero, Option.some_bind]
    have h0 : decide (0 = j + 1) = false := by simp
    simp only [h0, Bool.false_eq_true, if_false]
    have hfun : (List.range l.length).filterMap
          ((fun idx => if decide (idx = j + 1) = true then none else ((a :: l)[idx]?).bind g) ∘
            Nat.succ) =
        (List.range l.length).filterMap
          (fun idx => if decide (idx = j) = true then none else (l[idx]?).bind g) := by
      refine List.filterMap_congr fun s _ => ?_
      simp
    rw [hfun, h]

theorem bruteForce_others (t : KdTreeBase α D) (point : VectorType α D) (i : Nat) :
    (bruteForce t point fun idx => decide (idx = i)).map (fun e => e.squared_distance) =
      (t.points.eraseIdx i).map (squaredDistance point) := by
  unfold bruteForce
  rw [List.map_filterMap]
  have h := filterMap_range_skip (some ∘ squaredDistance point) t.points i
  rw [List.filterMap_eq_map] at h
  rw [← h]
  refine List.filterMap_congr fun idx _ => ?_
  by_cases hi : idx = i
  · simp [hi]
  · cases t.points[idx]? <;> simp [hi]

theorem bruteForce_nodup (t : KdTreeBase α D) (point : VectorType α D) (skip : Nat → Bool) :
    ((bruteForce t point skip).map fun e => e.index).Nodup := by
  rw [bruteForce_map_index]
  exact (List.nodup_range _).filter _

/-- C1: on a well-formed tree over `N >= 1` points, for every query position and every `k`, the
k-nearest-by-point query returns `true`, given enough fuel, and its heap then holds `min k N`
entries with pairwise distinct point indices, each with the squared distance of its point to the
query position, in ascending order; their distances are the first `k` entries of the sorted list
of the squared distances of all points. -/
theorem kNearestPoint_correct (t : KdTreeBase α D) (hwf : WellFormed t)
    (hN : 1 ≤ t.points.length) (point : VectorType α D) (k : Nat) :
    ∃ n final, (∀ fuel, n < fuel → kNearestPoint t k point fuel = .returned true final) ∧
      final.user.length = min k t.points.length ∧
      (final.user.map fun e => e.index).Nodup ∧
      (∀ e ∈ final.user, ∃ p, t.points[e.index]? = some p ∧
        e.squared_distance = squaredDistance point p) ∧
      Ascending final.user ∧
      final.user.map (fun e => e.squared_distance) =
        ((t.points.map (squaredDistance point)).insertionSort (· ≤ ·)).take k := by
  have hne : t.points ≠ [] := by
    intro h0
    rw [h0] at hN
    simp at hN
  obtain ⟨n, final, hrun, hbest⟩ :=
    knnBegin_bestOf hwf hne k (fun _ => false) point (KdTreeQuery.fresh [])
  refine ⟨n, final, hrun, ?_, hbest.nodup_index (bruteForce_nodup t point _), ?_, hbest.ascending, ?_⟩
  · rw [hbest.length_eq, ← List.length_map (bruteForce t point fun _ => false)
      (fun e => e.squared_distance), bruteForce_all, List.length_map]
  · intro e he
    exact (mem_bruteForce (hbest.mem e he)).2
  · rw [hbest.distances, bruteForce_all]

/-- C1 at `exampleTree`, query position `(1, 1)`, `k = 2`. -/
theorem kNearestPoint_correct_witness :
    WellFormed exampleTree ∧ 1 ≤ exampleTree.points.length ∧
    ∃ n final, (∀ fuel, n < fuel →
        kNearestPoint exampleTree 2 ![1, 1] fuel = .returned true final) ∧
      final.user.length = min 2 exampleTree.points.length ∧
      (final.user.map fun e => e.index).Nodup ∧
      (∀ e ∈ final.user, ∃ p, exampleTree.points[e.index]? = some p ∧
        e.squared_distance = squaredDistance ![1, 1] p) ∧
      Ascending final.user ∧
      final.user.map (fun e => e.squared_distance) =
        ((exampleTree.points.map (squaredDistance ![1, 1])).insertionSort (· ≤ ·)).take 2 :=
  ⟨exampleTree_wellFormed, by decide,
    kNearestPoint_correct exampleTree exampleTree_wellFormed (by decide) ![1, 1] 2⟩

/-- C2: on a well-formed tree over `N` points, for every index `i < N` and every `k`, the
k-nearest-by-index query returns `true`, given enough fuel; its heap then does not hold `i`,
holds `min k (N - 1)` entries with pairwise distinct point indices, each with the squared distance
of its point to point `i`, in ascending order; their distances are the first `k` entries of the
sorted list of the squared distances of the points other than `i`. -/
theorem kNearestIndex_correct (t : KdTreeBase α D) (hwf : WellFormed t) (i : Nat)
    (hi : i < t.points.length) (k : Nat) :
    ∃ n final, (∀ fuel, n < fuel → kNearestIndex t k i fuel = .returned true final) ∧
      i ∉ final.user.map (fun e => e.index) ∧
      final.user.length = min k (t.points.length - 1) ∧
      (final.user.map fun e => e.index).Nodup ∧
      (∀ e ∈ final.user, ∃ p, t.points[e.index]? = some p ∧
        e.squared_distance = squaredDistance t.points[i] p) ∧
      Ascending final.user ∧
      final.user.map (fun e => e.squared_distance) =
        (((t.points.eraseIdx i).map (squaredDistance t.points[i])).insertionSort
          (· ≤ ·)).take k := by
  have hne : t.points ≠ [] := by
    intro h0
    rw [h0] at hi
    simp at hi
  obtain ⟨n, final, hrun, hbest⟩ :=
    knnBegin_bestOf hwf hne k (fun idx => decide (idx = i)) t.points[i] (KdTreeQuery.fresh [])
  refine ⟨n, final, ?_, ?_, ?_, hbest.nodup_index (bruteForce_nodup t _ _), ?_, hbest.ascending, ?_⟩
  · intro fuel hfuel
    simp [kNearestIndex, List.getElem?_eq_getElem hi, hrun fuel hfuel]
  · intro hmem
    obtain ⟨e, he, hei⟩ := List.mem_map.mp hmem
    have := (mem_bruteForce (hbest.mem e he)).1
    simp [hei] at this
  · rw [hbest.length_eq, ← List.length_map (bruteForce t _ fun idx => decide (idx = i))
      (fun e => e.squared_distance), bruteForce_others, List.length_map, List.length_eraseIdx]
    simp [hi]
  · intro e he
    exact (mem_bruteForce (hbest.mem e he)).2
  · rw [hbest.distances, bruteForce_others]

/-- C2 at `exampleTree`, index 2, `k = 3`. -/
theorem kNearestIndex_correct_witness :
    WellFormed exampleTree ∧ ∃ hi : 2 < exampleTree.points.length,
    ∃ n final, (∀ fuel, n < fuel → kNearestIndex exampleTree 3 2 fuel = .returned true final) ∧
      2 ∉ final.user.map (fun e => e.index) ∧
      final.user.length = min 3 (exampleTree.points.length - 1) ∧
      (final.user.map fun e => e.index).Nodup ∧
      (∀ e ∈ final.user, ∃ p, exampleTree.points[e.index]? = some p ∧
        e.squared_distance = squaredDistance exampleTree.points[2] p) ∧
      Ascending final.user ∧
      final.user.map (fun e => e.squared_distance) =
        (((exampleTree.points.eraseIdx 2).map
          (squaredDistance exampleTree.points[2])).insertionSort (· ≤ ·)).take 3 :=
  ⟨exampleTree_wellFormed, by decide,
    kNearestIndex_correct exampleTree exampleTree_wellFormed 2 (by decide) 3⟩

/-- The two nearest points of `exampleTree` to `(1, 1)` are point 3 at squared distance 1 and
point 1 at squared distance 2. -/
theorem kNearestPoint_example :
    ∃ final, kNearestPoint exampleTree 2 ![1, 1] 10 = .returned true final ∧
      final.user = [⟨3, 1⟩, ⟨1, 2⟩] ∧ final.m_stack = [] :=
  ⟨_, rfl, rfl, rfl⟩

/-- The three nearest points of `exampleTree` to its point 2, other than point 2. -/
theorem kNearestIndex_example :
    ∃ final, kNearestIndex exampleTree 3 2 10 = .returned true final ∧
      final.user = [⟨3, 10⟩, ⟨0, 13⟩, ⟨1, 17⟩] :=
  ⟨_, rfl, rfl⟩

/-- Asking for more neighbours than there are other points returns the other points. -/
theorem kNearestIndex_example_all :
    ∃ final, kNearestIndex exampleTree 9 2 10 = .returned true final ∧
      final.user = [⟨3, 10⟩, ⟨0, 13⟩, ⟨1, 17⟩, ⟨4, 20⟩] :=
  ⟨_, rfl, rfl⟩

end KnnClaims

end Ponca

namespace Ponca

section RangeClaims

variable {α σ : Type} [LinearOrderedCommRing α] {D : Nat}

theorem processed_append (tr tr1 : List (Event α)) :
    processed (tr ++ tr1) = processed tr ++ processed tr1 := by
  induction tr with
  | nil => rfl
  | cons e tr ih => cases e <;> simp [processed, ih]

/-- Functors with a constant threshold `r2`, a pure skip predicate and a `processNeighbor` that
always returns `false` keep the recorded calls equal, up to order, to the visited candidates
below `r2`. -/
theorem range_rule (F : Functors α σ) (t : KdTreeBase α D) (point : VectorType α D) (r2 : α)
    (skip : Nat → Bool) (hthr : ∀ u, (F.descentDistanceThreshold u).1 = some r2)
    (hskip : ∀ idx u, (F.skipFunctor idx u).1 = skip idx)
    (hproc : ∀ idx i d u, (F.processNeighborFunctor idx i d u).1 = false) :
    TraversalRule F t point
      (fun A _ tr => (processed tr).Perm
        ((candidates t point skip A).filter fun e => decide (e.squared_distance < r2)))
      (fun _ _ => False) where
  pass := by
    intro A u tr idx h
    simpa [processed_append, processed] using h
  prune := by
    intro A S u tr idx b h hb _ hL
    rw [hthr] at hb
    have hb1 : r2 ≤ b := by simpa [belowThreshold] using hb
    have hS : (candidates t point skip S).filter (fun e => decide (e.squared_distance < r2)) =
        [] := by
      rw [List.filter_eq_nil_iff]
      intro y hy
      have := candidate_lowerBound hL y hy
      simpa using le_trans hb1 this
    have hsplit : (candidates t point skip (A ++ S)).filter
          (fun e => decide (e.squared_distance < r2)) =
        (candidates t point skip A).filter (fun e => decide (e.squared_distance < r2)) := by
      unfold candidates at hS ⊢
      rw [List.filterMap_append, List.filter_append, hS, List.append_nil]
    rw [hsplit]
    simpa [processed_append, processed] using h
  prepare := by
    intro A u tr a b h
    simpa [processed_append, processed] using h
  body_next := by
    intro A stk u tr i st1 h hbody
    unfold leafBody at hbody
    cases hidx : t.pointFromSample i with
    | none => simp [hidx] at hbody
    | some idx =>
      simp only [hidx, hskip, hthr, hproc] at hbody
      by_cases hsk : skip idx = true
      · simp only [hsk, if_true, Step.next.injEq] at hbody
        subst hbody
        simpa [candidates, List.filterMap_append, candidate, hidx, hsk, processed_append,
          processed] using h
      · cases hp : t.points[idx]? with
        | none => simp [hsk, hp] at hbody
        | some p =>
          have hcand : candidates t point skip (A ++ [i]) =
              candidates t point skip A ++ [⟨idx, squaredDistance point p⟩] := by
            simp [candidates, List.filterMap_append, candidate, hidx, hsk, hp]
          rw [hcand, List.filter_append]
          simp only [hsk, hp, Bool.false_eq_true, if_false] at hbody
          by_cases hb : squaredDistance point p < r2
          · simp only [belowThreshold, hb, decide_True, if_true, Step.next.injEq] at hbody
            subst hbody
            simpa [processed_append, processed, hb] using h.append_right _
          · simp only [belowThreshold, hb, decide_False, Bool.false_eq_true, if_false,
              Step.next.injEq] at hbody
            subst hbody
            simpa [processed_append, processed, hb] using h
  body_stop := by
    intro A stk u tr i v st1 h hbody
    unfold leafBody at hbody
    cases hidx : t.pointFromSample i with
    | none => simp [hidx] at hbody
    | some idx =>
      simp only [hidx, hskip, hthr, hproc] at hbody
      by_cases hsk : skip idx = true
      · simp [hsk] at hbody
      · cases hp : t.points[idx]? with
        | none => simp [hsk, hp] at hbody
        | some p =>
          simp only [hsk, hp, Bool.false_eq_true, if_false] at hbody
          split_ifs at hbody

/-- C3: on a well-formed tree, with a threshold that constantly returns `r2`, a skip predicate
`skip` and a `processNeighborFunctor` that always returns `false`, the search started from the
reset stack returns `true`, given enough fuel (on a tree without points it throws, having called
nothing). The calls of `processNeighborFunctor` it made are, up to order, exactly the brute-force
candidates below `r2`: one call for each point index that is not skipped and whose squared
distance to the query position is below `r2`, with that distance as argument, and no other call.
With `r2 <= 0` there is no call; with `r2` above every squared distance every candidate is
reported. -/
theorem range_search_reports (F : Functors α σ) (t : KdTreeBase α D) (hwf : WellFormed t)
    (point : VectorType α D) (skip : Nat → Bool) (r2 : α)
    (hthr : ∀ u, (F.descentDistanceThreshold u).1 = some r2)
    (hskip : ∀ idx u, (F.skipFunctor idx u).1 = skip idx)
    (hproc : ∀ idx i d u, (F.processNeighborFunctor idx i d u).1 = false) (u : σ) :
    ∃ n final,
      (∀ fuel, n < fuel → search_internal F t point fuel (KdTreeQuery.fresh u).reset =
        if t.points.isEmpty then .threw final else .returned true final) ∧
      (processed final.trace).Perm
        ((bruteForce t point skip).filter fun e => decide (e.squared_distance < r2)) ∧
      ((processed final.trace).map fun e => e.index).Nodup ∧
      (r2 ≤ 0 → processed final.trace = []) ∧
      ((∀ p ∈ t.points, squaredDistance point p < r2) →
        (processed final.trace).Perm (bruteForce t point skip)) := by
  have key : ∃ n final,
      (∀ fuel, n < fuel → search_internal F t point fuel (KdTreeQuery.fresh u).reset =
        if t.points.isEmpty then .threw final else .returned true final) ∧
      (processed final.trace).Perm
        ((bruteForce t point skip).filter fun e => decide (e.squared_distance < r2)) := by
    by_cases hne : t.points = []
    · refine ⟨0, (KdTreeQuery.fresh u).reset, ?_, ?_⟩
      · intro fuel _
        simp [search_internal, hne]
      · simp [bruteForce, hne, KdTreeQuery.fresh, KdTreeQuery.reset, processed]
    · obtain ⟨sh, hF, hperm⟩ := hwf.rootFrame point
      obtain ⟨v, final, hrun, hpost⟩ :=
        searchLoop_rule (range_rule F t point r2 skip hthr hskip hproc)
          (pendingSize [sh]) [sh] (KdTreeQuery.fresh u).reset [] (le_refl _)
          (List.Forall₂.cons hF List.Forall₂.nil)
          (by simp [candidates, KdTreeQuery.fresh, KdTreeQuery.reset, processed])
      rcases hpost with ⟨hv, _, A1, hA1, hI⟩ | ⟨_, hfalse⟩
      · subst hv
        refine ⟨pendingSize [sh], final, ?_, ?_⟩
        · intro fuel hfuel
          have hemp : t.points.isEmpty = false := by simpa [List.isEmpty_iff] using hne
          unfold search_internal
          rw [hwf.not_empty hne, hemp]
          simp [hrun fuel hfuel]
        · refine hI.trans (List.Perm.filter _ (candidates_perm_bruteForce hwf point skip ?_))
          refine hA1.trans ?_
          simpa [pendingSamples] using hperm
      · exact absurd hfalse id
  obtain ⟨n, final, hrun, hperm⟩ := key
  refine ⟨n, final, hrun, hperm, ?_, ?_, ?_⟩
  · refine (hperm.map _).nodup_iff.mpr ?_
    exact ((bruteForce_nodup t point skip).sublist ((List.filter_sublist _).map _))
  · intro hr
    have hnil : (bruteForce t point skip).filter
        (fun e => decide (e.squared_distance < r2)) = [] := by
      rw [List.filter_eq_nil_iff]
      intro e he
      obtain ⟨_, p, _, hd⟩ := mem_bruteForce he
      have := squaredDistance_nonneg point p
      simp only [decide_eq_true_eq, not_lt]
      rw [hd]
      exact le_trans hr this
    rw [hnil] at hperm
    exact List.Perm.eq_nil hperm
  · intro hall
    have hfull : (bruteForce t point skip).filter
        (fun e => decide (e.squared_distance < r2)) = bruteForce t point skip := by
      rw [List.filter_eq_self]
      intro e he
      obtain ⟨_, p, hp, hd⟩ := mem_bruteForce he
      simp only [decide_eq_true_eq]
      rw [hd]
      exact hall p (List.getElem?_mem hp)
    rw [hfull] at hperm
    exact hperm

/-- C3 at `exampleTree`, query position `(1, 1)`, squared radius 5, nothing skipped. -/
theorem range_search_reports_witness :
    WellFormed exampleTree ∧
    (∀ u, ((rangeFunctors (5 : ℤ) fun _ => false).descentDistanceThreshold u).1 = some 5) ∧
    ∃ n final,
      (∀ fuel, n < fuel →
        search_internal (rangeFunctors (5 : ℤ) fun _ => false) exampleTree ![1, 1] fuel
          (KdTreeQuery.fresh []).reset =
        if exampleTree.points.isEmpty then .threw final else .returned true final) ∧
      (processed final.trace).Perm
        ((bruteForce exampleTree ![1, 1] fun _ => false).filter
          fun e => decide (e.squared_distance < 5)) ∧
      ((processed final.trace).map fun e => e.index).Nodup ∧
      ((5 : ℤ) ≤ 0 → processed final.trace = []) ∧
      ((∀ p ∈ exampleTree.points, squaredDistance ![1, 1] p < 5) →
        (processed final.trace).Perm (bruteForce exampleTree ![1, 1] fun _ => false)) :=
  ⟨exampleTree_wellFormed, fun _ => rfl,
    range_search_reports (rangeFunctors (5 : ℤ) fun _ => false) exampleTree
      exampleTree_wellFormed ![1, 1] (fun _ => false) 5 (fun _ => rfl) (fun _ _ => rfl)
      (fun _ _ _ _ => rfl) []⟩

/-- The range query at `exampleTree` around `(1, 1)` with squared radius 5 reports the points 1
and 3, and prunes the subtree with the points 0 and 4. -/
theorem range_search_example :
    ∃ final, search_internal (rangeFunctors (5 : ℤ) fun _ => false) exampleTree ![1, 1] 10
        (KdTreeQuery.fresh []).reset = .returned true final ∧
      final.user = [1, 3] ∧ processed final.trace = [⟨1, 2⟩, ⟨3, 1⟩] :=
  ⟨_, rfl, rfl, rfl⟩

/-- A `processNeighborFunctor` that returns `true` stops the search at its first call:
`search_internal` returns `false` and the stack still holds the farther child of the root. -/
theorem search_internal_cancel_example :
    ∃ final, search_internal
        { rangeFunctors (5 : ℤ) (fun _ => false) with
          processNeighborFunctor := fun idx _ _ out => (true, out ++ [idx]) }
        exampleTree ![1, 1] 10 (KdTreeQuery.fresh []).reset = .returned false final ∧
      final.user = [1] ∧ processed final.trace = [⟨1, 2⟩] ∧
      final.m_stack = [⟨2, 1⟩] :=
  ⟨_, rfl, rfl, rfl, rfl⟩

end RangeClaims

end Ponca

namespace Ponca

section KnnGraphProofs

variable {α : Type} [LinearOrderedCommRing α] {D : Nat}

/-- The neighbour loop of `advance`: it pushes, and adds to the visited set, the neighbours
within the radius that were not visited yet. -/
theorem neighborLoop_spec (g : KnnGraphBase α D) (point : VectorType α D) (r2 : α) :
    ∀ (nbrs : List Nat) (q : KnnGraphRangeQuery),
      (∀ j ∈ nbrs, j < g.m_kdTreePoints.length) →
      ∃ q1 pushed, neighborLoop g point r2 nbrs q = .ok q1 ∧
        q1.m_stack = pushed ++ q.m_stack ∧ pushed.Nodup ∧
        (∀ j ∈ pushed, j ∉ q.m_flag ∧ j ∈ nbrs ∧ Within g point r2 j) ∧
        (∀ j, j ∈ q1.m_flag ↔ j ∈ q.m_flag ∨ j ∈ pushed) ∧
        (∀ j ∈ nbrs, Within g point r2 j → j ∈ q1.m_flag) ∧
        q1.m_flag.card = q.m_flag.card + pushed.length := by
  intro nbrs
  induction nbrs with
  | nil =>
    intro q _
    exact ⟨q, [], rfl, by simp, by simp, by simp, by simp, by simp, by simp⟩
  | cons a nbrs ih =>
    intro q hval
    have ha : a < g.m_kdTreePoints.length := hval a (by simp)
    have hval1 : ∀ j ∈ nbrs, j < g.m_kdTreePoints.length :=
      fun j hj => hval j (by simp [hj])
    have hpa : g.m_kdTreePoints[a]? = some g.m_kdTreePoints[a] := List.getElem?_eq_getElem ha
    unfold neighborLoop
    simp only [hpa]
    by_cases hd : squaredDistance point g.m_kdTreePoints[a] < r2
    · simp only [hd, if_true]
      by_cases hf : a ∈ q.m_flag
      · simp only [hf, if_true]
        obtain ⟨q1, pushed, hrun, hstack, hnd, hpushed, hflag, hall, hcard⟩ := ih q hval1
        refine ⟨q1, pushed, hrun, hstack, hnd, ?_, hflag, ?_, hcard⟩
        · intro j hj
          obtain ⟨h1, h2, h3⟩ := hpushed j hj
          exact ⟨h1, by simp [h2], h3⟩
        · intro j hj hw
          rcases List.mem_cons.mp hj with rfl | hj
          · exact (hflag _).mpr (Or.inl hf)
          · exact hall j hj hw
      · simp only [hf, if_false]
        obtain ⟨q1, pushed, hrun, hstack, hnd, hpushed, hflag, hall, hcard⟩ :=
          ih { m_flag := insert a q.m_flag, m_stack := a :: q.m_stack } hval1
        simp only [Finset.mem_insert] at hpushed hflag
        refine ⟨q1, pushed ++ [a], hrun, by simp [hstack], ?_, ?_, ?_, ?_, ?_⟩
        · rw [List.nodup_append]
          refine ⟨hnd, by simp, ?_⟩
          intro j hj hja
          simp only [List.mem_singleton] at hja
          exact (hpushed j hj).1 (Or.inl hja)
        · intro j hj
          rcases List.mem_append.mp hj with hj | hj
          · obtain ⟨h1, h2, h3⟩ := hpushed j hj
            exact ⟨fun h => h1 (Or.inr h), by simp [h2], h3⟩
          · simp only [List.mem_singleton] at hj
            subst hj
            exact ⟨hf, by simp, g.m_kdTreePoints[j], hpa, hd⟩
        · intro j
          rw [hflag j, List.mem_append, List.mem_singleton]
          tauto
        · intro j hj hw
          rcases List.mem_cons.mp hj with rfl | hj
          · exact (hflag _).mpr (Or.inl (Or.inl rfl))
          · exact hall j hj hw
        · rw [hcard, Finset.card_insert_of_not_mem hf, List.length_append]
          simp only [List.length_singleton]
          omega
    · simp only [hd, if_false]
      obtain ⟨q1, pushed, hrun, hstack, hnd, hpushed, hflag, hall, hcard⟩ := ih q hval1
      refine ⟨q1, pushed, hrun, hstack, hnd, ?_, hflag, ?_, hcard⟩
      · intro j hj
        obtain ⟨h1, h2, h3⟩ := hpushed j hj
        exact ⟨h1, by simp [h2], h3⟩
      · intro j hj hw
        rcases List.mem_cons.mp hj with rfl | hj
        · obtain ⟨p, hp, hlt⟩ := hw
          rw [hpa] at hp
          injection hp with hp
          subst hp
          exact absurd hlt hd
        · exact hall j hj hw

theorem KnnGraphBase.Valid.neighbors_lt {g : KnnGraphBase α D} (hg : g.Valid) {v : Nat}
    {nbrs : List Nat} (h : g.k_nearest_neighbors v = some nbrs) :
    ∀ j ∈ nbrs, j < g.m_kdTreePoints.length := by
  intro j hj
  rw [hg.1]
  exact hg.2 nbrs (List.getElem?_mem h) j hj

theorem GraphInv.flag_card_le {g : KnnGraphBase α D} {point : VectorType α D} {r2 : α}
    {s : Nat} {q : KnnGraphRangeQuery} {P : List Nat} (h : GraphInv g point r2 s q P) :
    q.m_flag.card ≤ g.size := by
  have hsub : q.m_flag ⊆ Finset.range g.size := by
    intro j hj
    exact Finset.mem_range.mpr (h.reach j hj).2
  simpa using Finset.card_le_card hsub

/-- Popping the top of the frontier and running the neighbour loop keeps the invariant and
takes one off the measure. -/
theorem pop_spec {g : KnnGraphBase α D} (hg : g.Valid) {point : VectorType α D} {r2 : α}
    {s : Nat} {q : KnnGraphRangeQuery} {P : List Nat} (h : GraphInv g point r2 s q P)
    {v : Nat} {rest : List Nat} (hstack : q.m_stack = v :: rest) :
    ∃ nbrs q1, g.k_nearest_neighbors v = some nbrs ∧
      neighborLoop g point r2 nbrs { q with m_stack := rest } = .ok q1 ∧
      GraphInv g point r2 s q1 (P ++ [v]) ∧ graphMeasure g q1 + 1 = graphMeasure g q := by
  have hvstack : v ∈ q.m_stack := by simp [hstack]
  have hvflag : v ∈ q.m_flag := (h.flag_iff v).mpr (Or.inr hvstack)
  have hvlt : v < g.size := (h.reach v hvflag).2
  have hnb : g.k_nearest_neighbors v = some g.m_neighbors[v] := List.getElem?_eq_getElem hvlt
  have hnd := h.stack_nodup
  rw [hstack, List.nodup_cons] at hnd
  obtain ⟨q1, pushed, hrun, hst1, hpnd, hpushed, hflag, hall, hcard⟩ :=
    neighborLoop_spec g point r2 g.m_neighbors[v] { q with m_stack := rest }
      (hg.neighbors_lt hnb)
  simp only at hst1 hpushed hflag hcard
  have hedge : ∀ j ∈ pushed, Edge g point r2 v j :=
    fun j hj => ⟨_, hnb, (hpushed j hj).2.1, (hpushed j hj).2.2⟩
  have hinv : GraphInv g point r2 s q1 (P ++ [v]) := by
    refine ⟨(hflag s).mpr (Or.inl h.seed_flag), ?_, ?_, ?_, ?_, ?_, ?_, ?_⟩
    · rw [List.nodup_append]
      refine ⟨h.pop_nodup, by simp, ?_⟩
      intro j hj hjv
      simp only [List.mem_singleton] at hjv
      subst hjv
      exact h.disjoint j hj hvstack
    · rw [hst1, List.nodup_append]
      refine ⟨hpnd, hnd.2, ?_⟩
      intro j hj hjr
      exact (hpushed j hj).1 ((h.flag_iff j).mpr (Or.inr (by simp [hstack, hjr])))
    · intro j hj
      rw [hst1, List.mem_append, not_or]
      rcases List.mem_append.mp hj with hj | hj
      · refine ⟨fun hp => (hpushed j hp).1 ((h.flag_iff j).mpr (Or.inl hj)), fun hr => ?_⟩
        exact h.disjoint j hj (by simp [hstack, hr])
      · simp only [List.mem_singleton] at hj
        subst hj
        exact ⟨fun hp => (hpushed j hp).1 hvflag, hnd.1⟩
    · intro j
      rw [hflag j, h.flag_iff j, hst1, hstack]
      simp only [List.mem_append, List.mem_cons, List.mem_singleton]
      tauto
    · intro j hj
      rcases (hflag j).mp hj with hj | hj
      · exact h.reach j hj
      · have he := hedge j hj
        refine ⟨(h.reach v hvflag).1.tail he, ?_⟩
        obtain ⟨p, hp, _⟩ := (hpushed j hj).2.2
        obtain ⟨hlt, _⟩ := List.getElem?_eq_some_iff.mp hp
        rw [← hg.1]
        exact hlt
    · intro w hw j he
      rcases List.mem_append.mp hw with hw | hw
      · exact (hflag j).mpr (Or.inl (h.closed w hw j he))
      · simp only [List.mem_singleton] at hw
        subst hw
        obtain ⟨nbrs, hn, hj, hwithin⟩ := he
        rw [hnb] at hn
        injection hn with hn
        subst hn
        exact hall j hj hwithin
    · intro j hj hjs
      rw [hst1] at hj
      rcases List.mem_append.mp hj with hj | hj
      · exact (hpushed j hj).2.2
      · exact h.stack_within j (by simp [hstack, hj]) hjs
  refine ⟨_, q1, hnb, hrun, hinv, ?_⟩
  have hle := hinv.flag_card_le
  unfold graphMeasure
  rw [hst1, hcard, hstack] at *
  simp only [List.length_append, List.length_cons]
  omega

/-- A pass of `advance` once the seed has been popped: with an empty frontier the iterator
becomes `end()`; otherwise the top of the frontier is popped and becomes the iterator's index. -/
theorem advance_spec {g : KnnGraphBase α D} (hg : g.Valid) {point : VectorType α D}
    {radius : α} {s : Nat} {q : KnnGraphRangeQuery} {P : List Nat}
    (h : GraphInv g point (radius * radius) s q P) (hsP : s ∈ P)
    (hp : g.m_kdTreePoints[s]? = some point) (debug : Bool) :
    (q.m_stack = [] ∧ ∀ (fuel : Nat) (m_index : Int), m_index ≠ g.size →
      advance g debug radius s (fuel + 1) (q, m_index) = .ok (q, (g.size : Int))) ∨
    (∃ (v : Nat) (q1 : KnnGraphRangeQuery),
      (∀ (fuel : Nat) (m_index : Int), m_index ≠ g.size →
        advance g debug radius s (fuel + 1) (q, m_index) = .ok (q1, (v : Int))) ∧
      GraphInv g point (radius * radius) s q1 (P ++ [v]) ∧
      graphMeasure g q1 + 1 = graphMeasure g q ∧ v < g.size) := by
  cases hstack : q.m_stack with
  | nil =>
    left
    exact ⟨rfl, fun fuel m_index hm => by simp [advance, hp, hm, hstack]⟩
  | cons v rest =>
    right
    have hvstack : v ∈ q.m_stack := by simp [hstack]
    have hvs : v ≠ s := fun hvs => h.disjoint s hsP (hvs ▸ hvstack)
    obtain ⟨pc, hpc, hlt⟩ := h.stack_within v hvstack hvs
    obtain ⟨nbrs, q1, hnb, hrun, hinv, hmeas⟩ := pop_spec hg h hstack
    have hvlt : v < g.size := (h.reach v ((h.flag_iff v).mpr (Or.inr hvstack))).2
    refine ⟨v, q1, ?_, hinv, hmeas, hvlt⟩
    intro fuel m_index hm
    cases debug with
    | false => simp [advance, assertWithinRadius, hp, hm, hstack, hnb, hrun, hvs]
    | true => simp [advance, assertWithinRadius, hp, hm, hstack, hpc, hlt, hnb, hrun, hvs]

theorem natCast_ne_size {g : KnnGraphBase α D} {c : Nat} (hc : c < g.size) :
    (c : Int) ≠ g.size := by
  intro hcs
  have : c = g.size := by exact_mod_cast hcs
  omega

/-- The caller's loop from an iterator that points at a popped index: it reads that index and
then the indices popped until the frontier is empty. -/
theorem enumerateLoop_spec {g : KnnGraphBase α D} (hg : g.Valid) {point : VectorType α D}
    {radius : α} {s : Nat} (hp : g.m_kdTreePoints[s]? = some point) (debug : Bool) :
    ∀ (m : Nat) (q : KnnGraphRangeQuery) (P : List Nat) (c : Nat),
      GraphInv g point (radius * radius) s q P → s ∈ P → c < g.size →
      graphMeasure g q ≤ m →
      ∃ out q1, (∀ fuel n, m + 1 < n →
          enumerateLoop g debug radius s (fuel + 1) n (q, (c : Int)) =
            .ok ((c : Int) :: out.map Int.ofNat, q1)) ∧
        GraphInv g point (radius * radius) s q1 (P ++ out) ∧ q1.m_stack = [] := by
  intro m
  induction m with
  | zero =>
    intro q P c h hsP hc hm
    have hcne := natCast_ne_size hc
    rcases advance_spec hg h hsP hp debug with
      ⟨hempty, hadv⟩ | ⟨v, q1, hadv, hinv, hmeas, hvlt⟩
    · refine ⟨[], q, ?_, by simpa using h, hempty⟩
      intro fuel n hn
      obtain ⟨k, rfl⟩ : ∃ k, n = k + 2 := ⟨n - 2, by omega⟩
      simp [enumerateLoop, hcne, hadv fuel _ hcne]
    · omega
  | succ m ih =>
    intro q P c h hsP hc hm
    have hcne := natCast_ne_size hc
    rcases advance_spec hg h hsP hp debug with
      ⟨hempty, hadv⟩ | ⟨v, q1, hadv, hinv, hmeas, hvlt⟩
    · refine ⟨[], q, ?_, by simpa using h, hempty⟩
      intro fuel n hn
      obtain ⟨k, rfl⟩ : ∃ k, n = k + 2 := ⟨n - 2, by omega⟩
      simp [enumerateLoop, hcne, hadv fuel _ hcne]
    · obtain ⟨out, q2, hrun, hinv2, hst2⟩ :=
        ih q1 (P ++ [v]) v hinv (by simp [hsP]) hvlt (by omega)
      refine ⟨v :: out, q2, ?_, by simpa using hinv2, hst2⟩
      intro fuel n hn
      obtain ⟨k, rfl⟩ : ∃ k, n = k + 1 := ⟨n - 1, by omega⟩
      simp [enumerateLoop, hcne, hadv fuel _ hcne, hrun fuel k (by omega)]

theorem squaredDistance_self (p : VectorType α D) : squaredDistance p p = 0 := by
  unfold squaredDistance
  rw [squaredNorm_eq_sum]
  simp

/-- The state that the member function `initialize` leaves satisfies the invariant. -/
theorem graphInv_init {g : KnnGraphBase α D} (point : VectorType α D) (r2 : α) {s : Nat}
    (hs : s < g.size) : GraphInv g point r2 s ⟨{s}, [s]⟩ [] where
  seed_flag := by simp
  pop_nodup := by simp
  stack_nodup := by simp
  disjoint := by simp
  flag_iff := by simp
  reach := by
    intro j hj
    simp only [Finset.mem_singleton] at hj
    subst hj
    exact ⟨Relation.ReflTransGen.refl, hs⟩
  closed := by simp
  stack_within := by
    intro j hj hjs
    simp only [List.mem_singleton] at hj
    exact absurd hj hjs

/-- A complete enumeration started with an empty frontier, in a build without debug assertions
or with a radius other than 0: it returns the indices popped after the seed, and leaves the
invariant with an empty frontier. -/
theorem enumerate_spec {g : KnnGraphBase α D} (hg : g.Valid) {point : VectorType α D} {s : Nat}
    (hs : s < g.size) (hp : g.m_kdTreePoints[s]? = some point) (debug : Bool) (radius : α)
    (hdr : debug = false ∨ radius ≠ 0) (q0 : KnnGraphRangeQuery) (hq0 : q0.m_stack = []) :
    ∃ out q1, (∀ fuel, g.size + 2 ≤ fuel →
        enumerate g debug radius s fuel q0 = .ok (out.map Int.ofNat, q1)) ∧
      GraphInv g point (radius * radius) s q1 (s :: out) ∧ q1.m_stack = [] := by
  have hinit : initializeIterator debug s q0 = .ok (⟨{s}, [s]⟩, -1) := by
    simp [initializeIterator, hq0]
  have h0 := graphInv_init point (radius * radius) hs
  obtain ⟨nbrs, q1, hnb, hrun, hinv, hmeas⟩ :=
    pop_spec hg h0 (show (⟨{s}, [s]⟩ : KnnGraphRangeQuery).m_stack = s :: [] from rfl)
  simp only [List.nil_append] at hinv
  have hm0 : graphMeasure g (⟨{s}, [s]⟩ : KnnGraphRangeQuery) = g.size := by
    simp [graphMeasure]
    omega
  have hneg : (-1 : Int) ≠ g.size := by omega
  have hsne := natCast_ne_size hs
  -- the first pass of `advance` pops the seed and calls itself
  have hfirst : ∀ fuel, advance g debug radius s (fuel + 1) (⟨{s}, [s]⟩, -1) =
      advance g debug radius s fuel (q1, (s : Int)) := by
    intro fuel
    rcases hdr with hd | hr
    · subst hd
      simp [advance, assertWithinRadius, hp, hneg, hnb, hrun]
    · have hpos : squaredDistance point point < radius * radius := by
        rw [squaredDistance_self]
        exact mul_self_pos.mpr hr
      cases debug <;> simp [advance, assertWithinRadius, hp, hneg, hnb, hrun, hpos]
  rcases advance_spec hg hinv (by simp) hp debug with
    ⟨hempty, hadv⟩ | ⟨v, q2, hadv, hinv2, hmeas2, hvlt⟩
  · refine ⟨[], q1, ?_, hinv, hempty⟩
    intro fuel hfuel
    obtain ⟨k, rfl⟩ : ∃ k, fuel = k + 2 := ⟨fuel - 2, by omega⟩
    simp [enumerate, KnnGraphRangeQuery.begin, hinit, hfirst, hadv k _ hsne, enumerateLoop]
  · obtain ⟨out, q3, hloop, hinv3, hst3⟩ :=
      enumerateLoop_spec hg hp debug (g.size - 2) q2 [s, v] v hinv2 (by simp) hvlt (by omega)
    refine ⟨v :: out, q3, ?_, by simpa using hinv3, hst3⟩
    intro fuel hfuel
    obtain ⟨k, rfl⟩ : ∃ k, fuel = k + 2 := ⟨fuel - 2, by omega⟩
    have := hloop (k + 1) (k + 2) (by omega)
    simp [enumerate, KnnGraphRangeQuery.begin, hinit, hfirst, hadv k _ hsne, this]

/-- What the invariant with an empty frontier says of the indices popped after the seed. -/
theorem GraphInv.emitted {g : KnnGraphBase α D} {point : VectorType α D} {r2 : α} {s : Nat}
    {q : KnnGraphRangeQuery} {out : List Nat} (h : GraphInv g point r2 s q (s :: out))
    (hstack : q.m_stack = []) :
    out.Nodup ∧ s ∉ out ∧
      ∀ j, j ∈ out ↔ j ≠ s ∧ Relation.ReflTransGen (Edge g point r2) s j := by
  have hnd := h.pop_nodup
  rw [List.nodup_cons] at hnd
  have hflag : ∀ j, j ∈ q.m_flag ↔ j = s ∨ j ∈ out := by
    intro j
    rw [h.flag_iff j, hstack]
    simp
  refine ⟨hnd.2, hnd.1, fun j => ⟨fun hj => ⟨?_, ?_⟩, fun ⟨hjs, hr⟩ => ?_⟩⟩
  · intro hjs
    exact hnd.1 (hjs ▸ hj)
  · exact (h.reach j ((hflag j).mpr (Or.inr hj))).1
  · have hall : ∀ w, Relation.ReflTransGen (Edge g point r2) s w → w ∈ q.m_flag := by
      intro w hw
      induction hw with
      | refl => exact h.seed_flag
      | tail _ he ih =>
        refine h.closed _ ?_ _ he
        simpa using (hflag _).mp ih
    rcases (hflag j).mp (hall j hr) with hj | hj
    · exact absurd hj hjs
    · exact hj

end KnnGraphProofs

end Ponca

namespace Ponca

section KnnGraphClaims

variable {α : Type} [LinearOrderedCommRing α] {D : Nat}

theorem lineGraph_valid : lineGraph.Valid :=
  ⟨rfl, by decide⟩

/-- With squared radius 0 nothing is within the radius, so the seed reaches only itself. -/
theorem reach_radius_zero {g : KnnGraphBase α D} {point : VectorType α D} {s j : Nat}
    (h : Relation.ReflTransGen (Edge g point 0) s j) : j = s := by
  induction h with
  | refl => rfl
  | tail _ he _ =>
    obtain ⟨_, _, _, p, _, hlt⟩ := he
    exact absurd hlt (not_lt.mpr (squaredDistance_nonneg point p))

/-- With debug assertions and radius 0 the first pass of `advance` fails the assertion on the
seed. -/
theorem enumerate_debug_radius_zero {g : KnnGraphBase α D} {point : VectorType α D} {s : Nat}
    (hp : g.m_kdTreePoints[s]? = some point) (fuel : Nat) :
    enumerate g true 0 s (fuel + 1) KnnGraphRangeQuery.fresh = .assertionFailed := by
  have hneg : (-1 : Int) ≠ g.size := by omega
  simp [enumerate, KnnGraphRangeQuery.begin, initializeIterator, KnnGraphRangeQuery.fresh,
    advance, assertWithinRadius, hp, hneg, squaredDistance_self]

/-- What a complete enumeration returns on every k-NN graph. In a build without debug assertions
or with a radius other than 0, a complete enumeration from a fresh query object returns, given
enough fuel, a list of indices without repetition that does not hold the seed `s` and holds
exactly the `j ≠ s` for which there is a path `s = v0, v1, ..., vn = j` along neighbour lists
whose vertices after `v0` are all at squared distance below `radius * radius` of the seed; with
radius 0 the list is empty. In a build with debug assertions and radius 0 the enumeration stops
at the assertion in `advance` before any index is returned and never reaches `end()`. -/
theorem knnGraph_range_enumeration (g : KnnGraphBase α D) (hg : g.Valid) (s : Nat)
    (hs : s < g.size) (point : VectorType α D) (hp : g.m_kdTreePoints[s]? = some point)
    (radius : α) (debug : Bool) :
    (debug = false ∨ radius ≠ 0 →
      ∃ (out : List Nat) (q1 : KnnGraphRangeQuery),
        (∀ fuel, g.size + 2 ≤ fuel →
          enumerate g debug radius s fuel KnnGraphRangeQuery.fresh =
            .ok (out.map Int.ofNat, q1)) ∧
        out.Nodup ∧ s ∉ out ∧
        (∀ j, j ∈ out ↔ j ≠ s ∧ ∃ l, List.Chain (Edge g point (radius * radius)) s l ∧
          (s :: l).getLast (List.cons_ne_nil s l) = j) ∧
        (radius = 0 → out = [])) ∧
    (debug = true → radius = 0 → ∀ fuel, 0 < fuel →
      enumerate g debug radius s fuel KnnGraphRangeQuery.fresh = .assertionFailed) := by
  constructor
  · intro hdr
    obtain ⟨out, q1, hrun, hinv, hstack⟩ :=
      enumerate_spec hg hs hp debug radius hdr KnnGraphRangeQuery.fresh rfl
    obtain ⟨hnd, hsout, hmem⟩ := hinv.emitted hstack
    refine ⟨out, q1, hrun, hnd, hsout, ?_, ?_⟩
    · intro j
      rw [hmem j]
      constructor
      · rintro ⟨hjs, hr⟩
        exact ⟨hjs, List.exists_chain_of_relationReflTransGen hr⟩
      · rintro ⟨hjs, l, hl, hlast⟩
        exact ⟨hjs, List.relationReflTransGen_of_exists_chain l hl hlast⟩
    · intro hr0
      subst hr0
      rw [List.eq_nil_iff_forall_not_mem]
      intro j hj
      obtain ⟨hjs, hr⟩ := (hmem j).mp hj
      rw [mul_zero] at hr
      exact hjs (reach_radius_zero hr)
  · intro hd hr fuel hfuel
    subst hd hr
    obtain ⟨k, rfl⟩ : ∃ k, fuel = k + 1 := ⟨fuel - 1, by omega⟩
    exact enumerate_debug_radius_zero hp k

/-- The enumeration at `lineGraph`, seed 0, radius 100. -/
theorem knnGraph_range_enumeration_witness :
    lineGraph.Valid ∧ 0 < lineGraph.size ∧ lineGraph.m_kdTreePoints[0]? = some ![0] ∧
    (false = false ∨ (100 : ℤ) ≠ 0 →
      ∃ (out : List Nat) (q1 : KnnGraphRangeQuery),
        (∀ fuel, lineGraph.size + 2 ≤ fuel →
          enumerate lineGraph false 100 0 fuel KnnGraphRangeQuery.fresh =
            .ok (out.map Int.ofNat, q1)) ∧
        out.Nodup ∧ 0 ∉ out ∧
        (∀ j, j ∈ out ↔ j ≠ 0 ∧ ∃ l, List.Chain (Edge lineGraph ![0] (100 * 100)) 0 l ∧
          (0 :: l).getLast (List.cons_ne_nil 0 l) = j) ∧
        ((100 : ℤ) = 0 → out = [])) ∧
    (false = true → (100 : ℤ) = 0 → ∀ fuel, 0 < fuel →
      enumerate lineGraph false 100 0 fuel KnnGraphRangeQuery.fresh = .assertionFailed) :=
  ⟨lineGraph_valid, by decide, rfl,
    knnGraph_range_enumeration lineGraph lineGraph_valid 0 (by decide) ![0] rfl 100 false⟩

/-- C7 fails in a build with debug assertions at radius 0: on `lineGraph` with seed 0, `begin()`
pushes the seed and `advance` pops it and asserts that its squared distance to itself, `0`, is
below the squared radius `0`. The assertion fails, so the enumeration never reaches `end()`
and does not yield the empty sequence. In a build without debug assertions the same enumeration
returns the empty list, and with debug assertions and radius 2 it returns index 1. -/
theorem knnGraph_range_radius_zero_assertion :
    lineGraph.Valid ∧ lineGraph.m_kdTreePoints[0]? = some ![0] ∧
    squaredDistance (![0] : VectorType ℤ 1) ![0] = 0 ∧
    assertWithinRadius lineGraph true ![0] (0 * 0) 0 = .assertionFailed ∧
    (∀ fuel, 0 < fuel →
      enumerate lineGraph true 0 0 fuel KnnGraphRangeQuery.fresh = .assertionFailed) ∧
    (∃ q1 : KnnGraphRangeQuery,
      enumerate lineGraph false 0 0 10 KnnGraphRangeQuery.fresh = .ok ([], q1)) ∧
    (∃ q1 : KnnGraphRangeQuery,
      enumerate lineGraph true 2 0 10 KnnGraphRangeQuery.fresh = .ok ([1], q1)) := by
  refine ⟨lineGraph_valid, rfl, by decide, rfl, ?_, ⟨_, rfl⟩, ⟨_, rfl⟩⟩
  intro fuel hfuel
  obtain ⟨k, rfl⟩ : ∃ k, fuel = k + 1 := ⟨fuel - 1, by omega⟩
  exact enumerate_debug_radius_zero (show lineGraph.m_kdTreePoints[0]? = some ![0] from rfl) k

/-- C8 fails as stated: `lineGraph` is the 1-nearest-neighbour graph built over four points on a
line, the radius 100 exceeds every distance between them, and the range query from seed 0
returns index 1 only, not 2 and 3. -/
theorem knnGraph_large_radius_counterexample :
    (buildKnnGraph lineTree 1 10).map (fun g => g.m_neighbors) = some lineGraph.m_neighbors ∧
    (∀ p ∈ lineGraph.m_kdTreePoints, ∀ p1 ∈ lineGraph.m_kdTreePoints,
      squaredDistance p p1 < 100 * 100) ∧
    ∃ q, enumerate lineGraph false 100 0 10 KnnGraphRangeQuery.fresh = .ok ([1], q) :=
  ⟨by decide, by decide, _, rfl⟩

/-- C8 as amended: on a k-NN graph, with a radius whose square exceeds the squared distance of
every point to the seed, a complete enumeration from a fresh query object returns, without
repetition, exactly the indices other than the seed that can be reached from it along neighbour
lists. -/
theorem knnGraph_large_radius (g : KnnGraphBase α D) (hg : g.Valid) (s : Nat) (hs : s < g.size)
    (point : VectorType α D) (hp : g.m_kdTreePoints[s]? = some point) (radius : α)
    (debug : Bool)
    (hbig : ∀ p ∈ g.m_kdTreePoints, squaredDistance point p < radius * radius) :
    ∃ (out : List Nat) (q1 : KnnGraphRangeQuery),
      (∀ fuel, g.size + 2 ≤ fuel →
        enumerate g debug radius s fuel KnnGraphRangeQuery.fresh =
          .ok (out.map Int.ofNat, q1)) ∧
      out.Nodup ∧
      ∀ j, j ∈ out ↔ j ≠ s ∧ Relation.ReflTransGen (Neighbor g) s j := by
  have hr : radius ≠ 0 := by
    have := hbig point (List.getElem?_mem hp)
    rw [squaredDistance_self] at this
    exact mul_self_pos.mp this
  obtain ⟨out, q1, hrun, hinv, hstack⟩ :=
    enumerate_spec hg hs hp debug radius (Or.inr hr) KnnGraphRangeQuery.fresh rfl
  obtain ⟨hnd, _, hmem⟩ := hinv.emitted hstack
  refine ⟨out, q1, hrun, hnd, fun j => ?_⟩
  rw [hmem j]
  have hiff : ∀ v w, Edge g point (radius * radius) v w ↔ Neighbor g v w := by
    intro v w
    constructor
    · rintro ⟨nbrs, hn, hw, _⟩
      exact ⟨nbrs, hn, hw⟩
    · rintro ⟨nbrs, hn, hw⟩
      have hlt := hg.neighbors_lt hn w hw
      exact ⟨nbrs, hn, hw, g.m_kdTreePoints[w], List.getElem?_eq_getElem hlt,
        hbig _ (List.getElem_mem hlt)⟩
  constructor
  · rintro ⟨hjs, h⟩
    exact ⟨hjs, h.mono fun v w => (hiff v w).mp⟩
  · rintro ⟨hjs, h⟩
    exact ⟨hjs, h.mono fun v w => (hiff v w).mpr⟩

/-- C8 as amended, at `lineGraph`, seed 0, radius 100. -/
theorem knnGraph_large_radius_witness :
    lineGraph.Valid ∧ 0 < lineGraph.size ∧ lineGraph.m_kdTreePoints[0]? = some ![0] ∧
    (∀ p ∈ lineGraph.m_kdTreePoints, squaredDistance ![0] p < (100 : ℤ) * 100) ∧
    ∃ (out : List Nat) (q1 : KnnGraphRangeQuery),
      (∀ fuel, lineGraph.size + 2 ≤ fuel →
        enumerate lineGraph false 100 0 fuel KnnGraphRangeQuery.fresh =
          .ok (out.map Int.ofNat, q1)) ∧
      out.Nodup ∧
      ∀ j, j ∈ out ↔ j ≠ 0 ∧ Relation.ReflTransGen (Neighbor lineGraph) 0 j :=
  ⟨lineGraph_valid, by decide, rfl, by decide,
    knnGraph_large_radius lineGraph lineGraph_valid 0 (by decide) ![0] rfl 100 false
      (by decide)⟩

/-- C9 fails as stated: on `triangleGraph` with seed 0 and radius 10 a fresh query enumerates
2, 1; after `begin()` alone the frontier still holds index 1, and a second `begin()` on that
query object enumerates 2, 1, 1 in a build without debug assertions and fails the assertion of
the member function `initialize` in a build with them. -/
theorem knnGraph_restart_counterexample :
    ∃ (q q1 q2 : KnnGraphRangeQuery),
      KnnGraphRangeQuery.begin triangleGraph false 10 0 10 KnnGraphRangeQuery.fresh =
        .ok (q, 2) ∧
      enumerate triangleGraph false 10 0 10 KnnGraphRangeQuery.fresh = .ok ([2, 1], q2) ∧
      enumerate triangleGraph false 10 0 10 q = .ok ([2, 1, 1], q1) ∧
      enumerate triangleGraph true 10 0 10 q = .assertionFailed :=
  ⟨_, _, _, rfl, rfl, rfl, rfl⟩

/-- C9 as amended: `begin()` on a query object whose frontier `m_stack` is empty enumerates what
the first `begin()` on a fresh query object enumerates; and on a k-NN graph (in a build without
debug assertions or with a radius other than 0) the query object that a complete enumeration
leaves behind has an empty frontier, so `begin()` on it restarts the enumeration. -/
theorem knnGraph_restart (g : KnnGraphBase α D) (hg : g.Valid) (s : Nat) (hs : s < g.size)
    (point : VectorType α D) (hp : g.m_kdTreePoints[s]? = some point) (radius : α)
    (debug : Bool) (hdr : debug = false ∨ radius ≠ 0) :
    (∀ (q : KnnGraphRangeQuery) (fuel : Nat), q.m_stack = [] →
      enumerate g debug radius s fuel q =
        enumerate g debug radius s fuel KnnGraphRangeQuery.fresh) ∧
    ∃ (out : List Nat) (q1 : KnnGraphRangeQuery),
      (∀ fuel, g.size + 2 ≤ fuel →
        enumerate g debug radius s fuel KnnGraphRangeQuery.fresh =
          .ok (out.map Int.ofNat, q1)) ∧
      q1.m_stack = [] ∧
      ∀ fuel, g.size + 2 ≤ fuel →
        enumerate g debug radius s fuel q1 = .ok (out.map Int.ofNat, q1) := by
  have hrestart : ∀ (q : KnnGraphRangeQuery) (fuel : Nat), q.m_stack = [] →
      enumerate g debug radius s fuel q =
        enumerate g debug radius s fuel KnnGraphRangeQuery.fresh := by
    intro q fuel hq
    simp [enumerate, KnnGraphRangeQuery.begin, initializeIterator, hq,
      KnnGraphRangeQuery.fresh]
  refine ⟨hrestart, ?_⟩
  obtain ⟨out, q1, hrun, _, hstack⟩ :=
    enumerate_spec hg hs hp debug radius hdr KnnGraphRangeQuery.fresh rfl
  refine ⟨out, q1, hrun, hstack, fun fuel hfuel => ?_⟩
  rw [hrestart q1 fuel hstack]
  exact hrun fuel hfuel

/-- C9 as amended, at `triangleGraph`, seed 0, radius 10, without debug assertions. -/
theorem knnGraph_restart_witness :
    triangleGraph.Valid ∧ 0 < triangleGraph.size ∧
    triangleGraph.m_kdTreePoints[0]? = some ![0] ∧ (false = false ∨ (10 : ℤ) ≠ 0) ∧
    (∀ (q : KnnGraphRangeQuery) (fuel : Nat), q.m_stack = [] →
      enumerate triangleGraph false 10 0 fuel q =
        enumerate triangleGraph false 10 0 fuel KnnGraphRangeQuery.fresh) ∧
    ∃ (out : List Nat) (q1 : KnnGraphRangeQuery),
      (∀ fuel, triangleGraph.size + 2 ≤ fuel →
        enumerate triangleGraph false 10 0 fuel KnnGraphRangeQuery.fresh =
          .ok (out.map Int.ofNat, q1)) ∧
      q1.m_stack = [] ∧
      ∀ fuel, triangleGraph.size + 2 ≤ fuel →
        enumerate triangleGraph false 10 0 fuel q1 = .ok (out.map Int.ofNat, q1) :=
  ⟨⟨rfl, by decide⟩, by decide, rfl, Or.inl rfl,
    knnGraph_restart triangleGraph ⟨rfl, by decide⟩ 0 (by decide) ![0] rfl 10 false
      (Or.inl rfl)⟩

end KnnGraphClaims

end Ponca

namespace Ponca

section MeanPlaneClaims

variable {α : Type} [LinearOrderedField α]

/-- C10: when the base layers' `finalize` returns `STABLE`, leaves `STABLE` as the current state
(every layer returns the state it stores) and no plane is set, `MeanPlaneFitImpl::finalize`
returns `STABLE`; the plane it sets has the normal `n = normalize (sum_wn / sum_w)` and passes
through the barycenter; and the frame is `u = normalize (n x a)`, `v = normalize (n x u)` with
`a = normalize (-n.y, n.x, 0)` when `|n.x| > |n.z|` and `a = normalize (0, -n.z, n.y)`
otherwise. The sums and the barycenter are those the base `finalize` leaves. -/
theorem meanPlaneFit_finalize_stable (normalize : VectorType α 3 → VectorType α 3)
    (baseFinalize : MeanPlaneFit α → FIT_RESULT × MeanPlaneFit α) (s : MeanPlaneFit α)
    (hbase : (baseFinalize s).1 = FIT_RESULT.STABLE)
    (hstate : (baseFinalize s).2.m_eCurrentState = FIT_RESULT.STABLE)
    (hplane : (baseFinalize s).2.isValid = false) :
    let base := (baseFinalize s).2
    let out := MeanPlaneFitImpl.finalize normalize baseFinalize s
    let n := normalize fun i => base.m_sumN i / base.m_sumW
    let a := normalize (if |n 0| > |n 2| then ![-n 1, n 0, 0] else ![0, -n 2, n 1])
    out.1 = FIT_RESULT.STABLE ∧ out.2.m_eCurrentState = FIT_RESULT.STABLE ∧
      out.2.planeNormal = n ∧
      dot out.2.planeNormal base.barycenter + out.2.planeOffset = 0 ∧
      out.2.m_u = normalize (cross n a) ∧
      out.2.m_v = normalize (cross n (normalize (cross n a))) ∧
      out.2.m_sumW = base.m_sumW ∧ out.2.m_sumP = base.m_sumP ∧ out.2.m_sumN = base.m_sumN := by
  intro base out n a
  have hout : out = MeanPlaneFitImpl.finalize normalize baseFinalize s := rfl
  unfold MeanPlaneFitImpl.finalize at hout
  simp only [hbase, if_true, hplane, Bool.false_eq_true, if_false] at hout
  rw [hout]
  refine ⟨hstate, hstate, rfl, ?_, rfl, rfl, rfl, rfl, rfl⟩
  show dot n base.barycenter + -dot n base.barycenter = 0
  exact add_neg_cancel _

/-- C10 at `exampleFit`, with the square root of `ℚ` and `exampleBaseFinalize`. -/
theorem meanPlaneFit_finalize_stable_witness :
    (exampleBaseFinalize exampleFit).1 = FIT_RESULT.STABLE ∧
    (exampleBaseFinalize exampleFit).2.m_eCurrentState = FIT_RESULT.STABLE ∧
    (exampleBaseFinalize exampleFit).2.isValid = false ∧
    (let base := (exampleBaseFinalize exampleFit).2
     let out := MeanPlaneFitImpl.finalize (normalizedWith Rat.sqrt) exampleBaseFinalize
       exampleFit
     let n := normalizedWith Rat.sqrt fun i => base.m_sumN i / base.m_sumW
     let a := normalizedWith Rat.sqrt
       (if |n 0| > |n 2| then ![-n 1, n 0, 0] else ![0, -n 2, n 1])
     out.1 = FIT_RESULT.STABLE ∧ out.2.m_eCurrentState = FIT_RESULT.STABLE ∧
      out.2.planeNormal = n ∧
      dot out.2.planeNormal base.barycenter + out.2.planeOffset = 0 ∧
      out.2.m_u = normalizedWith Rat.sqrt (cross n a) ∧
      out.2.m_v = normalizedWith Rat.sqrt (cross n (normalizedWith Rat.sqrt (cross n a))) ∧
      out.2.m_sumW = base.m_sumW ∧ out.2.m_sumP = base.m_sumP ∧
      out.2.m_sumN = base.m_sumN) :=
  ⟨by simp [exampleBaseFinalize, exampleFit], by simp [exampleBaseFinalize, exampleFit],
    by simp [exampleBaseFinalize, exampleFit, MeanPlaneFit.isValid],
    meanPlaneFit_finalize_stable (normalizedWith Rat.sqrt) exampleBaseFinalize exampleFit
      (by simp [exampleBaseFinalize, exampleFit]) (by simp [exampleBaseFinalize, exampleFit])
      (by simp [exampleBaseFinalize, exampleFit, MeanPlaneFit.isValid])⟩

end MeanPlaneClaims

end Ponca

namespace Ponca

section VectorAlgebra

variable {α : Type} [LinearOrderedField α]

theorem dot_comm (a b : VectorType α 3) : dot a b = dot b a := by
  simp only [dot]; ring

theorem dot_cross_left (n a : VectorType α 3) : dot (cross n a) n = 0 := by
  simp [dot, cross]; ring

theorem dot_cross_right (n a : VectorType α 3) : dot (cross n a) a = 0 := by
  simp [dot, cross]; ring

/-- Lagrange's identity. -/
theorem dot_cross_cross (n a : VectorType α 3) :
    dot (cross n a) (cross n a) = dot n n * dot a a - dot n a * dot n a := by
  simp [dot, cross]; ring

theorem dot_div_left (w x : VectorType α 3) (r : α) :
    dot (fun i => w i / r) x = dot w x / r := by
  simp only [dot]; ring

theorem dot_div_div (w : VectorType α 3) (r : α) :
    dot (fun i => w i / r) (fun i => w i / r) = dot w w / (r * r) := by
  simp only [dot]
  by_cases hr : r = 0
  · simp [hr]
  · field_simp

theorem dot_self_nonneg (w : VectorType α 3) : 0 ≤ dot w w := by
  simp only [dot]
  have h0 := mul_self_nonneg (w 0)
  have h1 := mul_self_nonneg (w 1)
  have h2 := mul_self_nonneg (w 2)
  linarith

theorem dot_self_pos {w : VectorType α 3} (h : w ≠ 0) : 0 < dot w w := by
  rcases lt_or_eq_of_le (dot_self_nonneg w) with hlt | heq
  · exact hlt
  · exfalso
    apply h
    simp only [dot] at heq
    have h0 := mul_self_nonneg (w 0)
    have h1 := mul_self_nonneg (w 1)
    have h2 := mul_self_nonneg (w 2)
    have e0 : w 0 * w 0 = 0 := by linarith
    have e1 : w 1 * w 1 = 0 := by linarith
    have e2 : w 2 * w 2 = 0 := by linarith
    funext i
    fin_cases i
    · simpa using mul_self_eq_zero.mp e0
    · simpa using mul_self_eq_zero.mp e1
    · simpa using mul_self_eq_zero.mp e2

end VectorAlgebra

end Ponca

namespace Ponca

section MeanPlaneFrame

/-- A normalization that divides a vector other than zero by its norm makes it a unit vector
and keeps what it is orthogonal to. -/
theorem normalize_unit (normalize : VectorType ℝ 3 → VectorType ℝ 3)
    (hnorm : ∀ v, v ≠ 0 → normalize v = fun i => v i / Real.sqrt (dot v v))
    {w : VectorType ℝ 3} (hw : w ≠ 0) :
    dot (normalize w) (normalize w) = 1 ∧
      ∀ x, dot w x = 0 → dot (normalize w) x = 0 := by
  have hpos := dot_self_pos hw
  have hr : Real.sqrt (dot w w) * Real.sqrt (dot w w) = dot w w :=
    Real.mul_self_sqrt (le_of_lt hpos)
  rw [hnorm w hw]
  constructor
  · rw [dot_div_div, hr]
    exact div_self (ne_of_gt hpos)
  · intro x hx
    rw [dot_div_left, hx, zero_div]

theorem ne_zero_of_dot_self {w : VectorType ℝ 3} (h : dot w w = 1) : w ≠ 0 := by
  intro h0
  rw [h0] at h
  simp [dot] at h

/-- The auxiliary vector of a unit normal is orthogonal to it and is not zero. -/
theorem auxiliary_spec {n : VectorType ℝ 3} (hn : dot n n = 1) :
    auxiliary n ≠ 0 ∧ dot (auxiliary n) n = 0 := by
  unfold auxiliary
  by_cases hc : |n 0| > |n 2|
  · simp only [hc, if_true]
    constructor
    · intro h0
      have h1 : n 0 = 0 := by simpa using congrFun h0 1
      rw [h1, abs_zero] at hc
      exact absurd hc (not_lt.mpr (abs_nonneg _))
    · simp [dot]; ring
  · simp only [hc, if_false]
    constructor
    · intro h0
      have h1 : n 2 = 0 := by simpa using congrFun h0 1
      have h2 : n 1 = 0 := by simpa using congrFun h0 2
      have h3 : n 0 = 0 := by
        rw [h1, abs_zero, gt_iff_lt, not_lt] at hc
        exact abs_eq_zero.mp (le_antisymm hc (abs_nonneg _))
      simp [dot, h1, h2, h3] at hn
    · simp [dot]; ring

/-- C11: when the base layers' `finalize` returns `STABLE` with a sum of weights and a sum of
weighted normals other than zero, then over the reals, with a normalization that divides a
vector other than zero by its norm, the frame that `MeanPlaneFitImpl::finalize` computes
satisfies `|u| = |v| = 1`, `u . v = 0`, `u . n = 0` and `v . n = 0` for the plane normal `n`,
which is a unit vector; and the auxiliary vector chosen by the `|n.x| > |n.z|` rule is not the
zero vector. -/
theorem meanPlaneFit_frame_orthonormal (normalize : VectorType ℝ 3 → VectorType ℝ 3)
    (hnorm : ∀ v, v ≠ 0 → normalize v = fun i => v i / Real.sqrt (dot v v))
    (baseFinalize : MeanPlaneFit ℝ → FIT_RESULT × MeanPlaneFit ℝ) (s : MeanPlaneFit ℝ)
    (hbase : (baseFinalize s).1 = FIT_RESULT.STABLE)
    (hW : (baseFinalize s).2.m_sumW ≠ 0) (hN : (baseFinalize s).2.m_sumN ≠ 0) :
    let out := (MeanPlaneFitImpl.finalize normalize baseFinalize s).2
    let n := out.planeNormal
    dot n n = 1 ∧ auxiliary n ≠ 0 ∧
      dot out.m_u out.m_u = 1 ∧ dot out.m_v out.m_v = 1 ∧ dot out.m_u out.m_v = 0 ∧
      dot out.m_u n = 0 ∧ dot out.m_v n = 0 := by
  intro out n
  -- the mean normal is not zero
  have hm : (fun i => (baseFinalize s).2.m_sumN i / (baseFinalize s).2.m_sumW) ≠ 0 := by
    intro h0
    apply hN
    funext i
    have := congrFun h0 i
    simpa [hW] using this
  -- the fields that `finalize` writes
  have hplane : n = normalize
      (fun i => (baseFinalize s).2.m_sumN i / (baseFinalize s).2.m_sumW) := by
    show (MeanPlaneFitImpl.finalize normalize baseFinalize s).2.planeNormal = _
    unfold MeanPlaneFitImpl.finalize
    simp only [hbase, if_true, MeanPlaneFit.setPlane]
    split_ifs <;> rfl
  have hu : out.m_u = normalize (cross n (normalize (auxiliary n))) := by
    show (MeanPlaneFitImpl.finalize normalize baseFinalize s).2.m_u =
      normalize (cross (MeanPlaneFitImpl.finalize normalize baseFinalize s).2.planeNormal
        (normalize (auxiliary
          (MeanPlaneFitImpl.finalize normalize baseFinalize s).2.planeNormal)))
    unfold MeanPlaneFitImpl.finalize
    simp only [hbase, if_true]
  have hv : out.m_v = normalize (cross n out.m_u) := by
    show (MeanPlaneFitImpl.finalize normalize baseFinalize s).2.m_v =
      normalize (cross (MeanPlaneFitImpl.finalize normalize baseFinalize s).2.planeNormal
        (MeanPlaneFitImpl.finalize normalize baseFinalize s).2.m_u)
    unfold MeanPlaneFitImpl.finalize
    simp only [hbase, if_true]
  have hn : dot n n = 1 := by
    rw [hplane]
    exact (normalize_unit normalize hnorm hm).1
  obtain ⟨ha0, han⟩ := auxiliary_spec hn
  obtain ⟨ha1, haorth⟩ := normalize_unit normalize hnorm ha0
  have han1 : dot (normalize (auxiliary n)) n = 0 := haorth n han
  -- `n x a` is a unit vector orthogonal to `n`
  have hna : dot n (normalize (auxiliary n)) = 0 := by rw [dot_comm]; exact han1
  have hu0 : dot (cross n (normalize (auxiliary n))) (cross n (normalize (auxiliary n))) = 1 := by
    rw [dot_cross_cross, hn, ha1, hna]
    norm_num
  obtain ⟨hu1, huorth⟩ := normalize_unit normalize hnorm (ne_zero_of_dot_self hu0)
  have hun : dot out.m_u n = 0 := by
    rw [hu]
    exact huorth n (dot_cross_left _ _)
  have huu : dot out.m_u out.m_u = 1 := by
    rw [hu]
    exact hu1
  -- `n x u` is a unit vector orthogonal to `n` and to `u`
  have hnu : dot n out.m_u = 0 := by rw [dot_comm]; exact hun
  have hv0 : dot (cross n out.m_u) (cross n out.m_u) = 1 := by
    rw [dot_cross_cross, hn, huu, hnu]
    norm_num
  obtain ⟨hv1, hvorth⟩ := normalize_unit normalize hnorm (ne_zero_of_dot_self hv0)
  refine ⟨hn, ha0, huu, ?_, ?_, hun, ?_⟩
  · rw [hv]
    exact hv1
  · rw [dot_comm, hv]
    exact hvorth _ (dot_cross_right _ _)
  · rw [hv]
    exact hvorth n (dot_cross_left _ _)

theorem normalizedWith_sqrt (v : VectorType ℝ 3) (hv : v ≠ 0) :
    normalizedWith Real.sqrt v = fun i => v i / Real.sqrt (dot v v) := by
  simp [normalizedWith, dot_self_pos hv]

/-- C11 at `exampleFitIn ℝ`, with the square root of `ℝ` and `exampleBaseFinalize`. -/
theorem meanPlaneFit_frame_orthonormal_witness :
    (exampleBaseFinalize (exampleFitIn ℝ)).1 = FIT_RESULT.STABLE ∧
    (exampleBaseFinalize (exampleFitIn ℝ)).2.m_sumW ≠ 0 ∧
    (exampleBaseFinalize (exampleFitIn ℝ)).2.m_sumN ≠ 0 ∧
    (let out := (MeanPlaneFitImpl.finalize (normalizedWith Real.sqrt) exampleBaseFinalize
        (exampleFitIn ℝ)).2
     let n := out.planeNormal
     dot n n = 1 ∧ auxiliary n ≠ 0 ∧
      dot out.m_u out.m_u = 1 ∧ dot out.m_v out.m_v = 1 ∧ dot out.m_u out.m_v = 0 ∧
      dot out.m_u n = 0 ∧ dot out.m_v n = 0) :=
  have h1 : (exampleBaseFinalize (exampleFitIn ℝ)).1 = FIT_RESULT.STABLE := by
    simp [exampleBaseFinalize, exampleFitIn]
  have h2 : (exampleBaseFinalize (exampleFitIn ℝ)).2.m_sumW ≠ 0 := by
    simp [exampleBaseFinalize, exampleFitIn]
  have h3 : (exampleBaseFinalize (exampleFitIn ℝ)).2.m_sumN ≠ 0 := by
    intro h0
    have := congrFun h0 2
    simp [exampleBaseFinalize, exampleFitIn] at this
  ⟨h1, h2, h3, meanPlaneFit_frame_orthonormal (normalizedWith Real.sqrt) normalizedWith_sqrt
    exampleBaseFinalize (exampleFitIn ℝ) h1 h2 h3⟩

/-- C12: when the base layers' `finalize` returns `STABLE` and a plane is already set,
`MeanPlaneFitImpl::finalize` returns `CONFLICT_ERROR_FOUND` and still overwrites the plane, with
the normal `normalize (sum_wn / sum_w)` through the barycenter, and the frame `u`, `v` computed
from that normal. When the base `finalize` returns another state (and, as every layer does,
returns the state it stores), `finalize` returns that state and the fit is as the base
`finalize` left it: plane, `u` and `v` are not touched. -/
theorem meanPlaneFit_finalize_conflict {α : Type} [LinearOrderedField α]
    (normalize : VectorType α 3 → VectorType α 3)
    (baseFinalize : MeanPlaneFit α → FIT_RESULT × MeanPlaneFit α) (s : MeanPlaneFit α) :
    let base := (baseFinalize s).2
    let out := MeanPlaneFitImpl.finalize normalize baseFinalize s
    let n := normalize fun i => base.m_sumN i / base.m_sumW
    let a := normalize (if |n 0| > |n 2| then ![-n 1, n 0, 0] else ![0, -n 2, n 1])
    ((baseFinalize s).1 = FIT_RESULT.STABLE → base.isValid = true →
      out.1 = FIT_RESULT.CONFLICT_ERROR_FOUND ∧
      out.2.m_eCurrentState = FIT_RESULT.CONFLICT_ERROR_FOUND ∧
      out.2.planeNormal = n ∧
      dot out.2.planeNormal base.barycenter + out.2.planeOffset = 0 ∧
      out.2.m_u = normalize (cross n a) ∧
      out.2.m_v = normalize (cross n (normalize (cross n a)))) ∧
    ((baseFinalize s).1 ≠ FIT_RESULT.STABLE →
      base.m_eCurrentState = (baseFinalize s).1 →
      out.1 = (baseFinalize s).1 ∧ out.2 = base) := by
  intro base out n a
  constructor
  · intro hbase hvalid
    have hout : out = MeanPlaneFitImpl.finalize normalize baseFinalize s := rfl
    unfold MeanPlaneFitImpl.finalize at hout
    simp only [hbase, if_true] at hout
    have hv : (baseFinalize s).2.isValid = true := hvalid
    simp only [hv, if_true] at hout
    rw [hout]
    refine ⟨rfl, rfl, rfl, ?_, rfl, rfl⟩
    show dot n base.barycenter + -dot n base.barycenter = 0
    exact add_neg_cancel _
  · intro hbase hstored
    have hout : out = MeanPlaneFitImpl.finalize normalize baseFinalize s := rfl
    unfold MeanPlaneFitImpl.finalize at hout
    simp only [hbase, if_false] at hout
    rw [hout]
    exact ⟨hstored, rfl⟩

/-- The conflict at a fit over `ℚ` that already holds the plane `z = 3`: `finalize` returns
`CONFLICT_ERROR_FOUND`, and the plane and the frame are overwritten. -/
theorem meanPlaneFit_finalize_conflict_example :
    ({ exampleFit with planeNormal := ![0, 0, 1], planeOffset := -3 } :
      MeanPlaneFit ℚ).isValid = true ∧
    (exampleBaseFinalize { exampleFit with planeNormal := ![0, 0, 1], planeOffset := -3 }).1 =
      FIT_RESULT.STABLE ∧
    (MeanPlaneFitImpl.finalize id exampleBaseFinalize
      { exampleFit with planeNormal := ![0, 0, 1], planeOffset := -3 }).1 =
      FIT_RESULT.CONFLICT_ERROR_FOUND ∧
    (MeanPlaneFitImpl.finalize id exampleBaseFinalize
      { exampleFit with planeNormal := ![0, 0, 1], planeOffset := -3 }).2.planeOffset = -3 ∧
    (MeanPlaneFitImpl.finalize id exampleBaseFinalize
      { exampleFit with planeNormal := ![0, 0, 1], planeOffset := -5 }).2.planeOffset = -3 ∧
    (MeanPlaneFitImpl.finalize id exampleBaseFinalize
      { exampleFit with planeNormal := ![0, 0, 1], planeOffset := -5 }).2.m_u = ![1, 0, 0] := by
  refine ⟨?_, ?_, ?_, ?_, ?_, ?_⟩ <;>
    simp [MeanPlaneFitImpl.finalize, exampleBaseFinalize, exampleFit, MeanPlaneFit.isValid,
      MeanPlaneFit.setPlane, MeanPlaneFit.barycenter, auxiliary, cross, dot]
  all_goals norm_num

end MeanPlaneFrame

end Ponca

namespace Ponca

section MongePatchTheorems

variable {α P B : Type} [LinearOrderedField α]

theorem addLocalNeighbor_planeIsReady (ops : MongeBase α P B) (w : α) (localQ : VectorType α 3)
    (attributes : P) (s : MongePatch α B) :
    (MongePatch.addLocalNeighbor ops w localQ attributes s).2.m_planeIsReady =
      s.m_planeIsReady := by
  unfold MongePatch.addLocalNeighbor
  cases h : s.m_planeIsReady <;> simp [h]

theorem finalize_second_pass (ops : MongeBase α P B)
    (solve : Matrix (Fin 6) (Fin 6) α → (Fin 6 → α) → Fin 6 → α) (s : MongePatch α B)
    (h : s.m_planeIsReady = true) :
    MongePatch.finalize ops solve s =
      (FIT_RESULT.STABLE,
        { s with m_x := solve s.m_A s.m_b,
                 base := ops.setCurrentState FIT_RESULT.STABLE s.base }) := by
  unfold MongePatch.finalize
  simp [h]

theorem finalize_first_pass_stable (ops : MongeBase α P B)
    (solve : Matrix (Fin 6) (Fin 6) α → (Fin 6 → α) → Fin 6 → α) (s : MongePatch α B)
    (h : s.m_planeIsReady = false) (hb : (ops.finalize s.base).1 = FIT_RESULT.STABLE) :
    MongePatch.finalize ops solve s =
      (FIT_RESULT.NEED_OTHER_PASS,
        { s with m_planeIsReady := true, m_A := 0, m_b := 0,
                 base := ops.setCurrentState FIT_RESULT.NEED_OTHER_PASS
                   (ops.finalize s.base).2 }) := by
  unfold MongePatch.finalize
  simp [h, hb]

theorem finalize_first_pass_other (ops : MongeBase α P B)
    (solve : Matrix (Fin 6) (Fin 6) α → (Fin 6 → α) → Fin 6 → α) (s : MongePatch α B)
    (h : s.m_planeIsReady = false) (hb : (ops.finalize s.base).1 ≠ FIT_RESULT.STABLE) :
    MongePatch.finalize ops solve s =
      ((ops.finalize s.base).1, { s with base := (ops.finalize s.base).2 }) := by
  unfold MongePatch.finalize
  simp [h, hb]

/-- In the second pass every `finalize` returns `STABLE`. -/
theorem run_second_pass (ops : MongeBase α P B)
    (solve : Matrix (Fin 6) (Fin 6) α → (Fin 6 → α) → Fin 6 → α) (cs : List (MongeCall α P)) :
    ∀ s : MongePatch α B, s.m_planeIsReady = true →
      ∃ k, (MongePatch.run ops solve cs s).1 = List.replicate k FIT_RESULT.STABLE := by
  induction cs with
  | nil => intro s _; exact ⟨0, rfl⟩
  | cons c cs ih =>
    intro s h
    cases c with
    | addLocalNeighbor w localQ attributes =>
      exact ih _ ((addLocalNeighbor_planeIsReady ops w localQ attributes s).trans h)
    | finalize =>
      have hf := finalize_second_pass ops solve s h
      obtain ⟨k, hk⟩ := ih (MongePatch.finalize ops solve s).2 (by rw [hf]; exact h)
      refine ⟨k + 1, ?_⟩
      show (MongePatch.finalize ops solve s).1 ::
        (MongePatch.run ops solve cs (MongePatch.finalize ops solve s).2).1 = _
      rw [hk, hf, List.replicate_succ]

/-- From the first pass, the values returned by `finalize` are values of the base `finalize`
other than `STABLE`, then at most once `NEED_OTHER_PASS`, then `STABLE` only. -/
theorem run_first_pass (ops : MongeBase α P B)
    (solve : Matrix (Fin 6) (Fin 6) α → (Fin 6 → α) → Fin 6 → α) (cs : List (MongeCall α P)) :
    ∀ s : MongePatch α B, s.m_planeIsReady = false →
      ∃ pre k,
        ((MongePatch.run ops solve cs s).1 = pre ∨
          (MongePatch.run ops solve cs s).1 =
            pre ++ FIT_RESULT.NEED_OTHER_PASS :: List.replicate k FIT_RESULT.STABLE) ∧
        ∀ r ∈ pre, r ≠ FIT_RESULT.STABLE ∧ ∃ b, (ops.finalize b).1 = r := by
  induction cs with
  | nil => intro s _; exact ⟨[], 0, Or.inl rfl, by simp⟩
  | cons c cs ih =>
    intro s h
    cases c with
    | addLocalNeighbor w localQ attributes =>
      exact ih _ ((addLocalNeighbor_planeIsReady ops w localQ attributes s).trans h)
    | finalize =>
      have hrun : (MongePatch.run ops solve (MongeCall.finalize :: cs) s).1 =
          (MongePatch.finalize ops solve s).1 ::
            (MongePatch.run ops solve cs (MongePatch.finalize ops solve s).2).1 := rfl
      rw [hrun]
      by_cases hb : (ops.finalize s.base).1 = FIT_RESULT.STABLE
      · have hf := finalize_first_pass_stable ops solve s h hb
        obtain ⟨k, hk⟩ := run_second_pass ops solve cs (MongePatch.finalize ops solve s).2
          (by rw [hf])
        refine ⟨[], k, Or.inr ?_, by simp⟩
        rw [hk, hf]
        rfl
      · have hf := finalize_first_pass_other ops solve s h hb
        obtain ⟨pre, k, hrs, hpre⟩ := ih (MongePatch.finalize ops solve s).2
          (by rw [hf]; exact h)
        refine ⟨(ops.finalize s.base).1 :: pre, k, ?_, ?_⟩
        · rcases hrs with hrs | hrs
          · left; rw [hrs, hf]
          · right; rw [hrs, hf]; rfl
        · intro r hr
          rcases List.mem_cons.1 hr with rfl | hr
          · exact ⟨hb, s.base, rfl⟩
          · exact hpre r hr

/-- C13: after `MongePatch::init` the plane is not ready. A `finalize` call made while the plane
is not ready and for which the base `finalize` returns `STABLE` marks the plane ready, sets `m_A`
and `m_b` to zero and returns `NEED_OTHER_PASS`. A `finalize` call made while the plane is ready
returns `STABLE` whatever the base `finalize` is: it is not consulted. Hence for every sequence of
`addLocalNeighbor` and `finalize` calls after `init`, the values `finalize` returns are values
of the base `finalize` other than `STABLE`, then `NEED_OTHER_PASS` at most once, then `STABLE`
only; and when the base `finalize` never returns `NEED_OTHER_PASS`, `finalize` returns
`NEED_OTHER_PASS` at most once. -/
theorem mongePatch_two_passes (ops : MongeBase α P B)
    (solve : Matrix (Fin 6) (Fin 6) α → (Fin 6 → α) → Fin 6 → α) (evalPos : VectorType α 3)
    (s0 : MongePatch α B) :
    (MongePatch.init ops evalPos s0).m_planeIsReady = false ∧
    (∀ s : MongePatch α B, s.m_planeIsReady = false →
      (ops.finalize s.base).1 = FIT_RESULT.STABLE →
      (MongePatch.finalize ops solve s).1 = FIT_RESULT.NEED_OTHER_PASS ∧
      (MongePatch.finalize ops solve s).2.m_planeIsReady = true ∧
      (MongePatch.finalize ops solve s).2.m_A = 0 ∧
      (MongePatch.finalize ops solve s).2.m_b = 0) ∧
    (∀ s : MongePatch α B, s.m_planeIsReady = true → ∀ f : B → FIT_RESULT × B,
      MongePatch.finalize { ops with finalize := f } solve s =
        (FIT_RESULT.STABLE,
          { s with m_x := solve s.m_A s.m_b,
                   base := ops.setCurrentState FIT_RESULT.STABLE s.base })) ∧
    (∀ cs : List (MongeCall α P),
      ∃ pre k,
        ((MongePatch.run ops solve cs (MongePatch.init ops evalPos s0)).1 = pre ∨
          (MongePatch.run ops solve cs (MongePatch.init ops evalPos s0)).1 =
            pre ++ FIT_RESULT.NEED_OTHER_PASS :: List.replicate k FIT_RESULT.STABLE) ∧
        ∀ r ∈ pre, r ≠ FIT_RESULT.STABLE ∧ ∃ b, (ops.finalize b).1 = r) ∧
    ((∀ b, (ops.finalize b).1 ≠ FIT_RESULT.NEED_OTHER_PASS) →
      ∀ cs : List (MongeCall α P),
        ((MongePatch.run ops solve cs (MongePatch.init ops evalPos s0)).1.count
          FIT_RESULT.NEED_OTHER_PASS) ≤ 1) := by
  refine ⟨rfl, ?_, ?_, ?_, ?_⟩
  · intro s h hb
    rw [finalize_first_pass_stable ops solve s h hb]
    exact ⟨rfl, rfl, rfl, rfl⟩
  · intro s h f
    exact finalize_second_pass { ops with finalize := f } solve s h
  · intro cs
    exact run_first_pass ops solve cs _ rfl
  · intro hbase cs
    obtain ⟨pre, k, hrs, hpre⟩ := run_first_pass ops solve cs (MongePatch.init ops evalPos s0) rfl
    have hcount : pre.count FIT_RESULT.NEED_OTHER_PASS = 0 := by
      rw [List.count_eq_zero]
      intro hmem
      obtain ⟨_, b, hb⟩ := hpre _ hmem
      exact hbase b hb
    rcases hrs with hrs | hrs
    · rw [hrs, hcount]
      exact Nat.zero_le 1
    · rw [hrs, List.count_append, hcount, List.count_cons_self, List.count_replicate]
      simp

/-- Two passes over `exampleMongeBase`: a `finalize` before any neighbor is `UNSTABLE`, the one
after a neighbor asks for the other pass, and the two after it are `STABLE`. -/
theorem mongePatch_two_passes_example :
    (MongePatch.run exampleMongeBase (fun _ b => b)
      [MongeCall.finalize, MongeCall.addLocalNeighbor 1 0 ![1, 2, 3], MongeCall.finalize,
       MongeCall.addLocalNeighbor 1 0 ![1, 2, 3], MongeCall.finalize, MongeCall.finalize]
      (MongePatch.init exampleMongeBase 0 exampleMongePatch)).1 =
      [FIT_RESULT.UNSTABLE, FIT_RESULT.NEED_OTHER_PASS, FIT_RESULT.STABLE, FIT_RESULT.STABLE] := by
  simp [MongePatch.run, MongePatch.finalize, MongePatch.addLocalNeighbor, MongePatch.init,
    exampleMongeBase, exampleMongePatch]

/-- In the first pass `MongePatch::addLocalNeighbor` returns the boolean of the base layer and
changes the base object only; in the second pass it returns `true` whatever the base layer
returned, and adds the neighbor to `m_A` and `m_b`. -/
theorem mongePatch_addLocalNeighbor_result (ops : MongeBase α P B) (w : α)
    (localQ : VectorType α 3) (attributes : P) (s : MongePatch α B) :
    (s.m_planeIsReady = false →
      MongePatch.addLocalNeighbor ops w localQ attributes s =
        ((ops.addLocalNeighbor w localQ attributes s.base).1,
          { s with base := (ops.addLocalNeighbor w localQ attributes s.base).2 })) ∧
    (s.m_planeIsReady = true →
      (MongePatch.addLocalNeighbor ops w localQ attributes s).1 = true) := by
  constructor
  · intro h
    unfold MongePatch.addLocalNeighbor
    simp [h]
  · intro h
    unfold MongePatch.addLocalNeighbor
    simp [h]

/-- C14 fails in the second pass: over `exampleMongeBase` a neighbor of weight `0` at
`(1, 2, 3)` is rejected by the base layer, and `MongePatch::addLocalNeighbor` returns `true`. -/
theorem mongePatch_addLocalNeighbor_second_pass :
    (exampleMongeBase.addLocalNeighbor 0 0 ![1, 2, 3] exampleMongePatch.base).1 = false ∧
    (MongePatch.addLocalNeighbor exampleMongeBase 0 0 ![1, 2, 3] exampleMongePatch).1 = true ∧
    (MongePatch.addLocalNeighbor exampleMongeBase 1 0 ![1, 2, 3] exampleMongePatch).2.m_b =
      ![4, 9, 6, 2, 3, 1] := by
  refine ⟨?_, ?_, ?_⟩
  · simp [exampleMongeBase]
  · simp [MongePatch.addLocalNeighbor, exampleMongePatch]
  · funext i
    fin_cases i <;>
      simp [MongePatch.addLocalNeighbor, exampleMongePatch, exampleMongeBase, mongeBasis] <;>
      norm_num

end MongePatchTheorems

end Ponca

namespace Ponca

section CurvatureTheorems

theorem stdSqrt_of_nonneg {α : Type} [LinearOrderedField α] (sqrt : α → α) {x : α}
    (h : 0 ≤ x) : stdSqrt sqrt x = some (sqrt x) := by
  unfold stdSqrt
  rw [if_neg (not_lt.2 h)]

theorem stdSqrt_of_neg {α : Type} [LinearOrderedField α] (sqrt : α → α) {x : α}
    (h : x < 0) : stdSqrt sqrt x = none := by
  unfold stdSqrt
  rw [if_pos h]

/-- C15, as the code has it: with `H = kMean()` and `K = GaussianCurvature()`, `kmin()` returns
`H - sqrt(H*H - K)` and `kmax()` returns `H + sqrt(H*H - K)` when `H*H - K` is not negative,
and both are not-a-number when `H*H < K`: nothing is clamped. The same holds for
`MongePatch` and for `ParabolicCylinder`. -/
theorem principal_curvatures_unclamped {α : Type} [LinearOrderedField α] (pow : α → α → α)
    (sqrt : α → α) (d : PatchDerivatives α) :
    (let H := MongePatch.kMean pow d
     let K := MongePatch.GaussianCurvature pow d
     (0 ≤ H * H - K →
        MongePatch.kmin pow sqrt d = some (H - sqrt (H * H - K)) ∧
        MongePatch.kmax pow sqrt d = some (H + sqrt (H * H - K))) ∧
     (H * H < K → MongePatch.kmin pow sqrt d = none ∧ MongePatch.kmax pow sqrt d = none)) ∧
    (let H := ParabolicCylinder.kMean pow d
     let K := ParabolicCylinder.GaussianCurvature pow d
     (0 ≤ H * H - K →
        ParabolicCylinder.kmin pow sqrt d = some (H - sqrt (H * H - K)) ∧
        ParabolicCylinder.kmax pow sqrt d = some (H + sqrt (H * H - K))) ∧
     (H * H < K →
        ParabolicCylinder.kmin pow sqrt d = none ∧ ParabolicCylinder.kmax pow sqrt d = none)) := by
  refine ⟨⟨?_, ?_⟩, ⟨?_, ?_⟩⟩
  · intro h
    unfold MongePatch.kmin MongePatch.kmax
    simp only [stdSqrt_of_nonneg sqrt h, Option.map_some']
    exact ⟨trivial, trivial⟩
  · intro h
    unfold MongePatch.kmin MongePatch.kmax
    simp only [stdSqrt_of_neg sqrt (sub_neg.2 h), Option.map_none']
    exact ⟨trivial, trivial⟩
  · intro h
    unfold ParabolicCylinder.kmin ParabolicCylinder.kmax
    simp only [stdSqrt_of_nonneg sqrt h, Option.map_some']
    exact ⟨trivial, trivial⟩
  · intro h
    unfold ParabolicCylinder.kmin ParabolicCylinder.kmax
    simp only [stdSqrt_of_neg sqrt (sub_neg.2 h), Option.map_none']
    exact ⟨trivial, trivial⟩

/-- C15 fails as stated: at the accessor values `dh_u = 1`, `dh_v = 0`, `dh_uu = 2`,
`dh_vv = 1`, `dh_uv = 0`, where `H*H = K` over the reals, the rounding of `pow` makes the
computed `H*H` less than `K = 1/2`, and `kmin()` and `kmax()` are not-a-number, not `H`. -/
theorem principal_curvatures_unclamped_counterexample :
    MongePatch.kMean examplePow umbilicDerivatives *
        MongePatch.kMean examplePow umbilicDerivatives <
      MongePatch.GaussianCurvature examplePow umbilicDerivatives ∧
    MongePatch.GaussianCurvature examplePow umbilicDerivatives = 1 / 2 ∧
    MongePatch.kmin examplePow id umbilicDerivatives ≠
      some (MongePatch.kMean examplePow umbilicDerivatives) ∧
    MongePatch.kmax examplePow id umbilicDerivatives ≠
      some (MongePatch.kMean examplePow umbilicDerivatives) ∧
    MongePatch.kmin examplePow id umbilicDerivatives = none ∧
    ParabolicCylinder.kmin examplePow id umbilicDerivatives = none ∧
    ParabolicCylinder.kmax examplePow id umbilicDerivatives = none := by
  have hH : MongePatch.kMean examplePow umbilicDerivatives =
      2251799813685248 / 6369051672525773 * 2 := by
    simp only [MongePatch.kMean, examplePow, umbilicDerivatives]
    norm_num
  have hK : MongePatch.GaussianCurvature examplePow umbilicDerivatives = 1 / 2 := by
    simp only [MongePatch.GaussianCurvature, examplePow, umbilicDerivatives]
    norm_num
  have hlt : MongePatch.kMean examplePow umbilicDerivatives *
        MongePatch.kMean examplePow umbilicDerivatives <
      MongePatch.GaussianCurvature examplePow umbilicDerivatives := by
    rw [hH, hK]
    norm_num
  have hmin : MongePatch.kmin examplePow id umbilicDerivatives = none := by
    unfold MongePatch.kmin
    simp only [stdSqrt_of_neg id (sub_neg.2 hlt), Option.map_none']
  have hmax : MongePatch.kmax examplePow id umbilicDerivatives = none := by
    unfold MongePatch.kmax
    simp only [stdSqrt_of_neg id (sub_neg.2 hlt), Option.map_none']
  refine ⟨hlt, hK, ?_, ?_, hmin, hmin, hmax⟩
  · rw [hmin]; exact fun h => Option.noConfusion h
  · rw [hmax]; exact fun h => Option.noConfusion h

end CurvatureTheorems

end Ponca

namespace Ponca

section CurvatureFormulas

/-- C16: with `std::pow` the real power, for all values of the accessors `kMean()` is
`(d_uu (1 + d_v^2) + d_vv (1 + d_u^2) - 2 d_uv d_u d_v) / (2 (1 + d_u^2 + d_v^2)^(3/2))` and
`GaussianCurvature()` is `(d_uu d_vv - d_uv^2) / (1 + d_u^2 + d_v^2)^2`, for `MongePatch`; and
the two functions of `ParabolicCylinder` are the same functions of its accessors, whatever
`pow` is. -/
theorem curvature_formulas (d : PatchDerivatives ℝ) :
    MongePatch.kMean (fun x y => x ^ y) d =
      (d.dh_uu * (1 + d.dh_v ^ 2) + d.dh_vv * (1 + d.dh_u ^ 2) -
          2 * d.dh_uv * d.dh_u * d.dh_v) /
        (2 * (1 + d.dh_u ^ 2 + d.dh_v ^ 2) ^ ((3 : ℝ) / 2)) ∧
    MongePatch.GaussianCurvature (fun x y => x ^ y) d =
      (d.dh_uu * d.dh_vv - d.dh_uv ^ 2) / (1 + d.dh_u ^ 2 + d.dh_v ^ 2) ^ 2 ∧
    (∀ pow : ℝ → ℝ → ℝ, ParabolicCylinder.kMean pow d = MongePatch.kMean pow d) ∧
    (∀ pow : ℝ → ℝ → ℝ,
      ParabolicCylinder.GaussianCurvature pow d = MongePatch.GaussianCurvature pow d) := by
  refine ⟨?_, ?_, fun _ => rfl, fun _ => rfl⟩
  · unfold MongePatch.kMean
    simp only [Real.rpow_two]
  · unfold MongePatch.GaussianCurvature
    simp only [Real.rpow_two]
    rw [add_comm (d.dh_u ^ 2 + d.dh_v ^ 2) 1, ← add_assoc]

/-- The mean curvature at accessor values over `ℚ`, with a `pow` that is exact at the exponent
`2` and at `(9, 3/2)`: `dh_u = 2`, `dh_v = 2`, second derivatives `1, 1, 0` give `5 / 27`
and the Gaussian curvature `1 / 81`. -/
theorem curvature_formulas_example :
    MongePatch.kMean (fun x y : ℚ => if y = 2 then x * x else 27) ⟨2, 2, 1, 1, 0⟩ = 5 / 27 ∧
    MongePatch.GaussianCurvature (fun x y : ℚ => if y = 2 then x * x else 27) ⟨2, 2, 1, 1, 0⟩ =
      1 / 81 := by
  constructor
  · simp only [MongePatch.kMean]
    norm_num
  · simp only [MongePatch.GaussianCurvature]
    norm_num

theorem sub_abs_eq_min (x : ℝ) : x - |x| = min 0 (2 * x) := by
  rcases le_total 0 x with h | h
  · rw [abs_of_nonneg h, min_eq_left (by linarith)]
    ring
  · rw [abs_of_nonpos h, min_eq_right (by linarith)]
    ring

theorem add_abs_eq_max (x : ℝ) : x + |x| = max 0 (2 * x) := by
  rcases le_total 0 x with h | h
  · rw [abs_of_nonneg h, max_eq_right (by linarith)]
    ring
  · rw [abs_of_nonpos h, max_eq_left (by linarith)]
    ring

/-- C17: for a parabolic cylinder whose second derivatives satisfy
`dh_uu * dh_vv = dh_uv^2`, over the reals `GaussianCurvature()` is `0`, `kmin()` is
`min(0, 2 kMean())` and `kmax()` is `max(0, 2 kMean())`. -/
theorem parabolicCylinder_principal_curvatures (d : PatchDerivatives ℝ)
    (hrank : d.dh_uu * d.dh_vv = d.dh_uv ^ 2) :
    ParabolicCylinder.GaussianCurvature (fun x y => x ^ y) d = 0 ∧
    ParabolicCylinder.kmin (fun x y => x ^ y) Real.sqrt d =
      some (min 0 (2 * ParabolicCylinder.kMean (fun x y => x ^ y) d)) ∧
    ParabolicCylinder.kmax (fun x y => x ^ y) Real.sqrt d =
      some (max 0 (2 * ParabolicCylinder.kMean (fun x y => x ^ y) d)) := by
  have hK : ParabolicCylinder.GaussianCurvature (fun x y => x ^ y) d = 0 := by
    unfold ParabolicCylinder.GaussianCurvature
    simp only [Real.rpow_two]
    rw [hrank, sub_self, zero_div]
  have hsq : ∀ H : ℝ, stdSqrt Real.sqrt (H * H - 0) = some |H| := by
    intro H
    rw [stdSqrt_of_nonneg Real.sqrt (by rw [sub_zero]; exact mul_self_nonneg H), sub_zero,
      Real.sqrt_mul_self_eq_abs]
  refine ⟨hK, ?_, ?_⟩
  · unfold ParabolicCylinder.kmin
    simp only [hK, hsq, Option.map_some', sub_abs_eq_min]
  · unfold ParabolicCylinder.kmax
    simp only [hK, hsq, Option.map_some', add_abs_eq_max]

/-- C17 at the origin of the fit of `z = x^2 / 2`: `dh_u = dh_v = 0`, `dh_uu = 1`,
`dh_vv = dh_uv = 0` give `kmax() = 1` and `kmin() = 0`. -/
theorem parabolicCylinder_principal_curvatures_witness :
    (⟨0, 0, 1, 0, 0⟩ : PatchDerivatives ℝ).dh_uu * (⟨0, 0, 1, 0, 0⟩ : PatchDerivatives ℝ).dh_vv =
      (⟨0, 0, 1, 0, 0⟩ : PatchDerivatives ℝ).dh_uv ^ 2 ∧
    ParabolicCylinder.GaussianCurvature (fun x y => x ^ y) (⟨0, 0, 1, 0, 0⟩ : PatchDerivatives ℝ)
      = 0 ∧
    ParabolicCylinder.kmin (fun x y => x ^ y) Real.sqrt (⟨0, 0, 1, 0, 0⟩ : PatchDerivatives ℝ)
      = some 0 ∧
    ParabolicCylinder.kmax (fun x y => x ^ y) Real.sqrt (⟨0, 0, 1, 0, 0⟩ : PatchDerivatives ℝ)
      = some 1 := by
  have h := parabolicCylinder_principal_curvatures (⟨0, 0, 1, 0, 0⟩ : PatchDerivatives ℝ)
    (by norm_num)
  have hH : ParabolicCylinder.kMean (fun x y => x ^ y) (⟨0, 0, 1, 0, 0⟩ : PatchDerivatives ℝ) =
      1 / 2 := by
    unfold ParabolicCylinder.kMean
    simp only [Real.rpow_two]
    norm_num
  rw [hH] at h
  refine ⟨by norm_num, h.1, ?_, ?_⟩
  · rw [h.2.1]; norm_num
  · rw [h.2.2]; norm_num

end CurvatureFormulas

end Ponca

namespace Ponca

section ParabolicCylinderTheorems

variable {α : Type} [LinearOrderedField α]

/-- C18, as the code has it: the in-plane derivative computed by
`ParabolicCylinder::primitiveGradient` at the local coordinates `(u, v)` is
`df = l + 2 Q (u,v)^T` with `Q = a * u_q`, and the returned vector is `localFrameToWorld`
(tangent mode) of `correctOrientation * (1, -df_u, -df_v)`. For a symmetric `u_q` this `df` is
the gradient of `h(u,v) = (u,v) Q (u,v)^T + l.(u,v)^T`, without the factor `1/2`:
`h(x + t) = h(x) + df(x).t + t Q t^T` for every `x` and `t`. -/
theorem parabolicCylinder_primitiveGradient
    (worldToLocalFrame localFrameToWorldTangent : VectorType α 3 → VectorType α 3)
    (s : ParabolicCylinder α) (q : VectorType α 3) :
    let Q : Matrix (Fin 2) (Fin 2) α := fun i j => s.m_a * s.m_uq i j
    let df : (Fin 2 → α) → Fin 2 → α := fun x i => s.m_ul i + 2 * (Q i 0 * x 0 + Q i 1 * x 1)
    let h : (Fin 2 → α) → α := fun x =>
      (x 0 * (Q 0 0 * x 0 + Q 0 1 * x 1) + x 1 * (Q 1 0 * x 0 + Q 1 1 * x 1)) +
        (s.m_ul 0 * x 0 + s.m_ul 1 * x 1)
    let x : Fin 2 → α := ![worldToLocalFrame q 1, worldToLocalFrame q 2]
    ParabolicCylinder.primitiveGradient worldToLocalFrame localFrameToWorldTangent s q =
        localFrameToWorldTangent
          (fun i => s.m_correctOrientation * (![1, -df x 0, -df x 1] : VectorType α 3) i) ∧
      (s.m_uq 0 1 = s.m_uq 1 0 → ∀ y t : Fin 2 → α,
        h (fun i => y i + t i) =
          h y + (df y 0 * t 0 + df y 1 * t 1) +
            (t 0 * (Q 0 0 * t 0 + Q 0 1 * t 1) + t 1 * (Q 1 0 * t 0 + Q 1 1 * t 1))) := by
  intro Q df h x
  constructor
  · unfold ParabolicCylinder.primitiveGradient
    refine congrArg localFrameToWorldTangent ?_
    funext i
    fin_cases i
    · simp [mul_comm]
    · simp only [df, Q, x]
      simp
      ring
    · simp only [df, Q, x]
      simp
      ring
  · intro hsym y t
    simp only [h, df, Q, hsym]
    ring

/-- C18 fails as stated: for `m_a = 1`, `u_q = [[1, 0], [0, 0]]`, `l = 0`, orientation `1` and
the world frame as local frame, at `q = (0, 1, 0)` the local coordinates are `(u, v) = (1, 0)`
and `Q (u,v)^T + l = (1, 0)`, but the function returns `(1, -2, 0)`, not `(1, -1, 0)`. -/
theorem parabolicCylinder_primitiveGradient_counterexample :
    ParabolicCylinder.primitiveGradient id id exampleCylinder ![0, 1, 0] = ![1, -2, 0] ∧
    ParabolicCylinder.primitiveGradient id id exampleCylinder ![0, 1, 0] ≠
      (fun i => exampleCylinder.m_correctOrientation *
        (![1,
          -(exampleCylinder.m_ul 0 +
            (exampleCylinder.m_a * exampleCylinder.m_uq 0 0 * 1 +
              exampleCylinder.m_a * exampleCylinder.m_uq 0 1 * 0)),
          -(exampleCylinder.m_ul 1 +
            (exampleCylinder.m_a * exampleCylinder.m_uq 1 0 * 1 +
              exampleCylinder.m_a * exampleCylinder.m_uq 1 1 * 0))] : VectorType ℚ 3) i) := by
  have hval : ParabolicCylinder.primitiveGradient id id exampleCylinder ![0, 1, 0] =
      ![1, -2, 0] := by
    funext i
    fin_cases i <;> simp [ParabolicCylinder.primitiveGradient, exampleCylinder]
  refine ⟨hval, ?_⟩
  rw [hval]
  intro heq
  have h1 := congrFun heq 1
  simp [exampleCylinder] at h1

end ParabolicCylinderTheorems

end Ponca

namespace Ponca

section CNCEigenTheorems

variable {α : Type} [LinearOrderedField α]

open CNCEigen

/-- C19: with `unit_u = false`, for all points `a`, `b`, `c` and normals `ua`, `ub`, `uc`, with
`um = (ua + ub + uc) / 3`: `mu0InterpolatedU` is `1/2 ((b-a) x (c-a)) . um`, which is half the
determinant of the rows `um`, `b-a`, `c-a`; `mu1InterpolatedU` is
`1/4 ((um x (uc-ub)).a + (um x (ua-uc)).b + (um x (ub-ua)).c)`; and entry `(i, j)` of
`muXYInterpolatedU` is `1/2 um . ((uc-ua)[j] (e_i x (b-a)) - (ub-ua)[j] (e_i x (c-a)))`. -/
theorem cnc_measures_formulas (sqrt : α → α) (a b c ua ub uc : VectorType α 3) :
    let um : VectorType α 3 := fun i => (ua i + ub i + uc i) / 3
    let e : Fin 3 → VectorType α 3 := fun i => Pi.single i 1
    mu0InterpolatedU sqrt a b c ua ub uc false = 1 / 2 * dot (cross (b - a) (c - a)) um ∧
    mu0InterpolatedU sqrt a b c ua ub uc false =
      1 / 2 * Matrix.det (Matrix.of ![um, b - a, c - a]) ∧
    mu1InterpolatedU sqrt a b c ua ub uc false =
      some (1 / 4 * (dot (cross um (uc - ub)) a + dot (cross um (ua - uc)) b +
        dot (cross um (ub - ua)) c)) ∧
    ∃ T : Matrix (Fin 3) (Fin 3) α,
      muXYInterpolatedU sqrt a b c ua ub uc false = some T ∧
      ∀ i j, T i j =
        1 / 2 * dot um
          (fun k => (uc - ua) j * cross (e i) (b - a) k - (ub - ua) j * cross (e i) (c - a) k) := by
  intro um e
  refine ⟨rfl, ?_, rfl, ?_⟩
  · show 1 / 2 * dot (cross (b - a) (c - a)) um = _
    rw [Matrix.det_fin_three]
    simp [dot, cross]
    ring
  · refine ⟨_, rfl, ?_⟩
    intro i j
    have he : (fun k => if k = i then (1 : α) else 0) = e i := by
      funext k
      simp [e, Pi.single_apply]
    show 1 / 2 * dot (meanNormal ua ub uc) (fun k =>
        (uc - ua) j * cross (fun k => if k = i then (1 : α) else 0) (b - a) k -
          (ub - ua) j * cross (fun k => if k = i then (1 : α) else 0) (c - a) k) = _
    rw [he]
    rfl

/-- The measures of the triangle `(0,0,0)`, `(2,0,0)`, `(0,2,0)` with the normals `(0,0,3)`,
`(3,0,3)`, `(0,3,3)`, not made unitary: `um = (1, 1, 3)`. -/
theorem cnc_measures_formulas_example :
    mu0InterpolatedU (fun x : ℚ => x) ![0, 0, 0] ![2, 0, 0] ![0, 2, 0] ![0, 0, 3] ![3, 0, 3]
      ![0, 3, 3] false = 6 ∧
    mu1InterpolatedU (fun x : ℚ => x) ![0, 0, 0] ![2, 0, 0] ![0, 2, 0] ![0, 0, 3] ![3, 0, 3]
      ![0, 3, 3] false = some 9 ∧
    mu2InterpolatedU (fun x : ℚ => x) (fun x => x) 3 ![0, 0, 0] ![2, 0, 0] ![0, 2, 0] ![0, 0, 3]
      ![3, 0, 3] ![0, 3, 3] false = some (27 / 2) := by
  refine ⟨?_, ?_, ?_⟩
  · simp [mu0InterpolatedU, meanNormal, dot, cross]
    norm_num
  · simp [mu1InterpolatedU, unitized, meanNormal, dot, cross]
    norm_num
  · simp [mu2InterpolatedU, dot, cross]
    norm_num

theorem cross_self (u : VectorType α 3) : cross u u = 0 := by
  funext i
  fin_cases i <;> simp [cross, mul_comm]

theorem cross_zero_right (u : VectorType α 3) : cross u 0 = 0 := by
  funext i
  fin_cases i <;> simp [cross]

theorem cross_zero_left (u : VectorType α 3) : cross 0 u = 0 := by
  funext i
  fin_cases i <;> simp [cross]

theorem dot_zero_left (u : VectorType α 3) : dot 0 u = 0 := by
  simp [dot]

theorem dot_zero_right (u : VectorType α 3) : dot u 0 = 0 := by
  simp [dot]

theorem meanNormal_self (u : VectorType α 3) : meanNormal u u u = u := by
  funext i
  simp only [meanNormal]
  field_simp
  ring

theorem epsilon_pos : (0 : α) < epsilon := by
  unfold epsilon
  positivity

theorem unitized_unit (sqrt : α → α) (hs1 : sqrt 1 = 1) (u : VectorType α 3)
    (hu : dot u u = 1) (unit_u : Bool) : unitized sqrt u unit_u = some u := by
  unfold unitized vectorNorm
  rw [hu, hs1]
  cases unit_u <;> simp

/-- C20: for every triangle `(a, b, c)` and every unit vector `u` given as the corrected normal
at the three vertices, with `unit_u` false or true, and a square root with `sqrt 0 = 0` and
`sqrt 1 = 1`: `mu1InterpolatedU` is `0`, `mu2InterpolatedU` is `0`, `muXYInterpolatedU` is the
zero matrix and `mu0InterpolatedU` is `1/2 ((b-a) x (c-a)) . u`. -/
theorem cnc_measures_constant_normal (sqrt acos : α → α) (pi : α) (hs0 : sqrt 0 = 0)
    (hs1 : sqrt 1 = 1) (a b c u : VectorType α 3) (hu : dot u u = 1) (unit_u : Bool) :
    mu1InterpolatedU sqrt a b c u u u unit_u = some 0 ∧
    mu2InterpolatedU sqrt acos pi a b c u u u unit_u = some 0 ∧
    muXYInterpolatedU sqrt a b c u u u unit_u = some 0 ∧
    mu0InterpolatedU sqrt a b c u u u unit_u = 1 / 2 * dot (cross (b - a) (c - a)) u := by
  have hum := unitized_unit sqrt hs1 u hu unit_u
  refine ⟨?_, ?_, ?_, ?_⟩
  · unfold mu1InterpolatedU
    rw [meanNormal_self, hum]
    simp only [Option.map_some', sub_self, cross_zero_right, dot_zero_left, add_zero, mul_zero]
  · cases unit_u
    · show some (1 / 2 * dot (cross u u) u) = some 0
      rw [cross_self, dot_zero_left, mul_zero]
    · show SphericalTriangle.algebraicArea sqrt acos pi u u u = some 0
      have hdeg : SphericalTriangle.isDegenerate sqrt u u u = true := by
        unfold SphericalTriangle.isDegenerate vectorNorm
        simp only [sub_self, dot_zero_left, hs0]
        simp [epsilon_pos]
      unfold SphericalTriangle.algebraicArea SphericalTriangle.area
      simp only [hdeg, if_true, Option.map_some', sub_self, cross_zero_right]
      have hX : lpNorm1 (0 : VectorType α 3) ≤ epsilon := by
        simp [lpNorm1, epsilon_pos.le]
      simp [hX]
  · unfold muXYInterpolatedU
    rw [meanNormal_self, hum]
    simp only [Option.map_some', sub_self]
    congr 1
    funext i j
    simp [dot]
  · unfold mu0InterpolatedU
    rw [meanNormal_self]
    cases unit_u
    · rfl
    · simp [vectorNorm, hu, hs1]

/-- C20 on the triangle `a = (0,0,0)`, `b = (1,0,0)`, `c = (0,1,0)` with `u = (0,0,1)`, over the
reals: `mu0 = 1/2`, `mu1 = 0`, `mu2 = 0`, with the normals made unitary or not. -/
theorem cnc_measures_constant_normal_witness :
    Real.sqrt 0 = 0 ∧ Real.sqrt 1 = 1 ∧ dot (![0, 0, 1] : VectorType ℝ 3) ![0, 0, 1] = 1 ∧
    ∀ unit_u : Bool,
      mu0InterpolatedU Real.sqrt ![0, 0, 0] ![1, 0, 0] ![0, 1, 0] ![0, 0, 1] ![0, 0, 1]
        ![0, 0, 1] unit_u = 1 / 2 ∧
      mu1InterpolatedU Real.sqrt ![0, 0, 0] ![1, 0, 0] ![0, 1, 0] ![0, 0, 1] ![0, 0, 1]
        ![0, 0, 1] unit_u = some 0 ∧
      mu2InterpolatedU Real.sqrt Real.arccos Real.pi ![0, 0, 0] ![1, 0, 0] ![0, 1, 0] ![0, 0, 1]
        ![0, 0, 1] ![0, 0, 1] unit_u = some 0 := by
  have hu : dot (![0, 0, 1] : VectorType ℝ 3) ![0, 0, 1] = 1 := by simp [dot]
  refine ⟨Real.sqrt_zero, Real.sqrt_one, hu, ?_⟩
  intro unit_u
  have h := cnc_measures_constant_normal Real.sqrt Real.arccos Real.pi Real.sqrt_zero
    Real.sqrt_one ![0, 0, 0] ![1, 0, 0] ![0, 1, 0] ![0, 0, 1] hu unit_u
  refine ⟨?_, h.1, h.2.1⟩
  rw [h.2.2.2]
  simp [dot, cross]

end CNCEigenTheorems

end Ponca

namespace Ponca

section SphericalTriangleTheorems

variable {α : Type} [LinearOrderedField α]

open CNCEigen

/-- `isDegenerate` holds when a pairwise distance is below `epsilon`, or the largest pairwise
distance is within `epsilon` of the sum of the other two. -/
theorem isDegenerate_iff (sqrt : α → α) (a b c : VectorType α 3) :
    SphericalTriangle.isDegenerate sqrt a b c = true ↔
      (vectorNorm sqrt (a - b) < CNCEigen.epsilon ∨ vectorNorm sqrt (a - c) < CNCEigen.epsilon ∨
        vectorNorm sqrt (b - c) < CNCEigen.epsilon) ∨
      |max (vectorNorm sqrt (a - b)) (max (vectorNorm sqrt (a - c)) (vectorNorm sqrt (b - c))) -
        (vectorNorm sqrt (a - b) + vectorNorm sqrt (a - c) + vectorNorm sqrt (b - c) -
          max (vectorNorm sqrt (a - b))
            (max (vectorNorm sqrt (a - c)) (vectorNorm sqrt (b - c))))| < CNCEigen.epsilon := by
  unfold SphericalTriangle.isDegenerate
  generalize vectorNorm sqrt (a - b) = d0
  generalize vectorNorm sqrt (a - c) = d1
  generalize vectorNorm sqrt (b - c) = d2
  by_cases hsmall : d0 < (CNCEigen.epsilon : α) ∨ d1 < (CNCEigen.epsilon : α) ∨ d2 < (CNCEigen.epsilon : α)
  · simp [hsmall]
  · have hd : ∀ x y z : α, x - (y + z + x - x) = x - y - z := by intros; ring
    by_cases h10 : d1 > d0
    · by_cases h21 : d2 > d1
      · have hm : max d0 (max d1 d2) = d2 := by
          rw [max_eq_right h21.le, max_eq_right (h10.le.trans h21.le)]
        simp [hsmall, h10, h21, hm]
        constructor <;> intro h <;> convert h using 2 <;> ring
      · have hm : max d0 (max d1 d2) = d1 := by
          rw [max_eq_left (not_lt.1 h21), max_eq_right h10.le]
        simp [hsmall, h10, h21, hm]
        constructor <;> intro h <;> convert h using 2 <;> ring
    · by_cases h20 : d2 > d0
      · have hm : max d0 (max d1 d2) = d2 := by
          rw [max_eq_right ((not_lt.1 h10).trans h20.le), max_eq_right h20.le]
        simp [hsmall, h10, h20, hm]
        constructor <;> intro h <;> convert h using 2 <;> ring
      · have hm : max d0 (max d1 d2) = d0 := by
          rw [max_eq_left (max_le (not_lt.1 h10) (not_lt.1 h20))]
        simp [hsmall, h10, h20, hm]
        constructor <;> intro h <;> convert h using 2 <;> ring

/-- C21, as the code has it: with `unit_u = false`, `mu2InterpolatedU` is `1/2 (ua x ub) . uc`.
With `unit_u = true` it is the value of `SphericalTriangle::algebraicArea(ua, ub, uc)`: `0` when
the triangle is degenerate (a pairwise distance below `epsilon`, or the largest pairwise distance
within `epsilon` of the sum of the other two); and for a triangle that is not degenerate, with
the angles `alpha`, `beta`, `gamma` computed from the polar triangle, `0` as well when the
magnitude of an angle is below `epsilon` or the 1-norm of `M = ua + ub + uc` or of
`X = (ub - ua) x (uc - ua)` is at most `epsilon`, and otherwise `-(2 pi - alpha - beta - gamma)`
when `M . X < 0` and `2 pi - alpha - beta - gamma` when `M . X >= 0`. -/
theorem mu2_signed_area (sqrt acos : α → α) (pi : α) (a b c ua ub uc : VectorType α 3) :
    mu2InterpolatedU sqrt acos pi a b c ua ub uc false = some (1 / 2 * dot (cross ua ub) uc) ∧
    (SphericalTriangle.isDegenerate sqrt ua ub uc = true ↔
      (vectorNorm sqrt (ua - ub) < CNCEigen.epsilon ∨
        vectorNorm sqrt (ua - uc) < CNCEigen.epsilon ∨
        vectorNorm sqrt (ub - uc) < CNCEigen.epsilon) ∨
      |max (vectorNorm sqrt (ua - ub))
          (max (vectorNorm sqrt (ua - uc)) (vectorNorm sqrt (ub - uc))) -
        (vectorNorm sqrt (ua - ub) + vectorNorm sqrt (ua - uc) + vectorNorm sqrt (ub - uc) -
          max (vectorNorm sqrt (ua - ub))
            (max (vectorNorm sqrt (ua - uc)) (vectorNorm sqrt (ub - uc))))| <
        CNCEigen.epsilon) ∧
    (SphericalTriangle.isDegenerate sqrt ua ub uc = true →
      mu2InterpolatedU sqrt acos pi a b c ua ub uc true = some 0) ∧
    (SphericalTriangle.isDegenerate sqrt ua ub uc = false →
      ∀ alpha beta gamma : α,
        SphericalTriangle.interiorAngles sqrt acos ua ub uc = some (alpha, beta, gamma) →
        mu2InterpolatedU sqrt acos pi a b c ua ub uc true =
          some
            (if |alpha| < CNCEigen.epsilon ∨ |beta| < CNCEigen.epsilon ∨
                |gamma| < CNCEigen.epsilon ∨ lpNorm1 (ua + ub + uc) ≤ CNCEigen.epsilon ∨
                lpNorm1 (cross (ub - ua) (uc - ua)) ≤ CNCEigen.epsilon then 0
             else if dot (ua + ub + uc) (cross (ub - ua) (uc - ua)) < 0 then
               -(2 * pi - alpha - beta - gamma)
             else 2 * pi - alpha - beta - gamma)) := by
  refine ⟨rfl, isDegenerate_iff sqrt ua ub uc, ?_, ?_⟩
  · intro hdeg
    show SphericalTriangle.algebraicArea sqrt acos pi ua ub uc = some 0
    unfold SphericalTriangle.algebraicArea SphericalTriangle.area
    simp only [hdeg, if_true, Option.map_some', neg_zero]
    simp
  · intro hdeg alpha beta gamma hang
    show SphericalTriangle.algebraicArea sqrt acos pi ua ub uc = _
    unfold SphericalTriangle.algebraicArea SphericalTriangle.area
    simp only [hdeg, hang, Option.map_some', Bool.false_eq_true, if_false]
    congr 1
    by_cases hangle : |alpha| < CNCEigen.epsilon ∨ |beta| < CNCEigen.epsilon ∨
        |gamma| < CNCEigen.epsilon
    · have h1 : (|alpha| < CNCEigen.epsilon ∨ |beta| < CNCEigen.epsilon ∨
          |gamma| < CNCEigen.epsilon ∨ lpNorm1 (ua + ub + uc) ≤ CNCEigen.epsilon ∨
          lpNorm1 (cross (ub - ua) (uc - ua)) ≤ CNCEigen.epsilon) := by tauto
      rw [if_pos hangle, if_pos h1]
      simp
    · rw [if_neg hangle]
      by_cases hMX : lpNorm1 (ua + ub + uc) ≤ CNCEigen.epsilon ∨
          lpNorm1 (cross (ub - ua) (uc - ua)) ≤ CNCEigen.epsilon
      · have h1 : (|alpha| < CNCEigen.epsilon ∨ |beta| < CNCEigen.epsilon ∨
            |gamma| < CNCEigen.epsilon ∨ lpNorm1 (ua + ub + uc) ≤ CNCEigen.epsilon ∨
            lpNorm1 (cross (ub - ua) (uc - ua)) ≤ CNCEigen.epsilon) := by tauto
        rw [if_pos hMX, if_pos h1]
      · have h1 : ¬ (|alpha| < CNCEigen.epsilon ∨ |beta| < CNCEigen.epsilon ∨
            |gamma| < CNCEigen.epsilon ∨ lpNorm1 (ua + ub + uc) ≤ CNCEigen.epsilon ∨
            lpNorm1 (cross (ub - ua) (uc - ua)) ≤ CNCEigen.epsilon) := by tauto
        rw [if_neg hMX, if_neg h1]

theorem sqrt_eq_of_mul_self {x y : ℝ} (hy : 0 ≤ y) (h : x = y * y) : Real.sqrt x = y := by
  rw [h, Real.sqrt_mul_self hy]

/-- C21 fails as stated: the unit vectors `(1, 0, 0)`, `(-7/25, 24/25, 0)`, `(-7/25, -24/25, 0)`
lie on a great circle around the origin. Their triangle is not degenerate (pairwise distances
`8/5`, `8/5`, `48/25`), the three angles computed from the polar triangle are `0`, and
`mu2InterpolatedU` with `unit_u = true` returns `0`, whereas `2 pi - alpha - beta - gamma` is
`2 pi`. -/
theorem mu2_signed_area_counterexample :
    dot (![1, 0, 0] : VectorType ℝ 3) ![1, 0, 0] = 1 ∧
    dot (![-7 / 25, 24 / 25, 0] : VectorType ℝ 3) ![-7 / 25, 24 / 25, 0] = 1 ∧
    dot (![-7 / 25, -24 / 25, 0] : VectorType ℝ 3) ![-7 / 25, -24 / 25, 0] = 1 ∧
    SphericalTriangle.isDegenerate Real.sqrt (![1, 0, 0] : VectorType ℝ 3)
      ![-7 / 25, 24 / 25, 0] ![-7 / 25, -24 / 25, 0] = false ∧
    SphericalTriangle.interiorAngles Real.sqrt Real.arccos (![1, 0, 0] : VectorType ℝ 3)
      ![-7 / 25, 24 / 25, 0] ![-7 / 25, -24 / 25, 0] = some (0, 0, 0) ∧
    mu2InterpolatedU Real.sqrt Real.arccos Real.pi (0 : VectorType ℝ 3) 0 0 ![1, 0, 0]
      ![-7 / 25, 24 / 25, 0] ![-7 / 25, -24 / 25, 0] true = some 0 ∧
    2 * Real.pi - 0 - 0 - 0 ≠ 0 := by
  have hd0 : vectorNorm Real.sqrt ((![1, 0, 0] : VectorType ℝ 3) - ![-7 / 25, 24 / 25, 0]) =
      8 / 5 := by
    unfold vectorNorm
    apply sqrt_eq_of_mul_self (by norm_num)
    simp [dot]
    norm_num
  have hd1 : vectorNorm Real.sqrt ((![1, 0, 0] : VectorType ℝ 3) - ![-7 / 25, -24 / 25, 0]) =
      8 / 5 := by
    unfold vectorNorm
    apply sqrt_eq_of_mul_self (by norm_num)
    simp [dot]
    norm_num
  have hd2 : vectorNorm Real.sqrt
      ((![-7 / 25, 24 / 25, 0] : VectorType ℝ 3) - ![-7 / 25, -24 / 25, 0]) = 48 / 25 := by
    unfold vectorNorm
    apply sqrt_eq_of_mul_self (by norm_num)
    simp [dot]
    norm_num
  have hdeg : SphericalTriangle.isDegenerate Real.sqrt (![1, 0, 0] : VectorType ℝ 3)
      ![-7 / 25, 24 / 25, 0] ![-7 / 25, -24 / 25, 0] = false := by
    rw [← Bool.not_eq_true, isDegenerate_iff, hd0, hd1, hd2]
    unfold CNCEigen.epsilon
    norm_num [abs_lt]
  have hA : cross (![-7 / 25, 24 / 25, 0] : VectorType ℝ 3) ![-7 / 25, -24 / 25, 0] =
      ![0, 0, 336 / 625] := by
    funext i
    fin_cases i <;> simp [cross]
    norm_num
  have hB : cross (![-7 / 25, -24 / 25, 0] : VectorType ℝ 3) ![1, 0, 0] = ![0, 0, 24 / 25] := by
    funext i
    fin_cases i <;> simp [cross]
    norm_num
  have hC : cross (![1, 0, 0] : VectorType ℝ 3) ![-7 / 25, 24 / 25, 0] = ![0, 0, 24 / 25] := by
    funext i; fin_cases i <;> simp [cross]
  have hnA : vectorNorm Real.sqrt (![0, 0, 336 / 625] : VectorType ℝ 3) = 336 / 625 := by
    unfold vectorNorm
    apply sqrt_eq_of_mul_self (by norm_num)
    simp [dot]
  have hnB : vectorNorm Real.sqrt (![0, 0, 24 / 25] : VectorType ℝ 3) = 24 / 25 := by
    unfold vectorNorm
    apply sqrt_eq_of_mul_self (by norm_num)
    simp [dot]
  have hTA : (fun i => (![0, 0, 336 / 625] : VectorType ℝ 3) i / (336 / 625)) = ![0, 0, 1] := by
    funext i; fin_cases i <;> simp
  have hTB : (fun i => (![0, 0, 24 / 25] : VectorType ℝ 3) i / (24 / 25)) = ![0, 0, 1] := by
    funext i; fin_cases i <;> simp
  have hne : (![0, 0, 1] : VectorType ℝ 3) ≠ 0 := by
    intro h
    have := congrFun h 2
    simp at this
  have hang : SphericalTriangle.interiorAngles Real.sqrt Real.arccos
      (![1, 0, 0] : VectorType ℝ 3) ![-7 / 25, 24 / 25, 0] ![-7 / 25, -24 / 25, 0] =
      some (0, 0, 0) := by
    unfold SphericalTriangle.interiorAngles SphericalTriangle.polarTriangle
    simp only [hA, hB, hC]
    have h1 : ¬ dot (![0, 0, 336 / 625] : VectorType ℝ 3) ![1, 0, 0] < 0 := by simp [dot]
    have h2 : ¬ dot (![0, 0, 24 / 25] : VectorType ℝ 3) ![-7 / 25, 24 / 25, 0] < 0 := by
      simp [dot]
    have h3 : ¬ dot (![0, 0, 24 / 25] : VectorType ℝ 3) ![-7 / 25, -24 / 25, 0] < 0 := by
      simp [dot]
    simp only [h1, h2, h3, if_false, hnA, hnB, hTA, hTB]
    have hdot : dot (![0, 0, 1] : VectorType ℝ 3) ![0, 0, 1] = 1 := by simp [dot]
    simp [hne, hdot]
  refine ⟨by simp [dot], by simp [dot]; norm_num, by simp [dot]; norm_num, hdeg, hang, ?_, ?_⟩
  · show SphericalTriangle.algebraicArea Real.sqrt Real.arccos Real.pi _ _ _ = some 0
    unfold SphericalTriangle.algebraicArea SphericalTriangle.area
    simp only [hdeg, hang, Option.map_some', Bool.false_eq_true, if_false]
    have he : (0 : ℝ) < CNCEigen.epsilon := epsilon_pos
    simp [he]
  · have := Real.pi_pos
    intro h
    linarith

end SphericalTriangleTheorems

end Ponca

namespace Ponca

section TensorTheorems

variable {α : Type} [LinearOrderedField α]

open CNCEigen

theorem dot_matVec_symm (M : Matrix (Fin 3) (Fin 3) α) (hM : ∀ j k, M j k = M k j)
    (v w : VectorType α 3) : dot (matVec M v) w = dot v (matVec M w) := by
  simp only [dot, matVec]
  rw [hM 1 0, hM 2 0, hM 2 1]
  ring

theorem tensorMatrix_symm (tensor : Matrix (Fin 3) (Fin 3) α) (area : α) (N : VectorType α 3)
    (j k : Fin 3) : tensorMatrix tensor area N j k = tensorMatrix tensor area N k j := by
  unfold tensorMatrix
  ring

theorem dot_smul_left (c : α) (v w : VectorType α 3) :
    dot (fun i => c * v i) w = c * dot v w := by
  simp only [dot]
  ring

theorem dot_smul_right (c : α) (v w : VectorType α 3) :
    dot v (fun i => c * w i) = c * dot v w := by
  simp only [dot]
  ring

/-- An eigenvector of a symmetric matrix is orthogonal to every eigenvector of another
eigenvalue. -/
theorem eigen_orthogonal (M : Matrix (Fin 3) (Fin 3) α) (hM : ∀ j k, M j k = M k j)
    (v N : VectorType α 3) (lam mu : α) (hv : matVec M v = fun i => lam * v i)
    (hN : matVec M N = fun i => mu * N i) (hne : lam ≠ mu) : dot v N = 0 := by
  have h := dot_matVec_symm M hM v N
  rw [hv, hN, dot_smul_left, dot_smul_right] at h
  have h2 : (lam - mu) * dot v N = 0 := by linear_combination h
  rcases mul_eq_zero.1 h2 with h3 | h3
  · exact absurd (sub_eq_zero.1 h3) hne
  · exact h3

theorem curvaturesFromTensor_success
    (eigensolver : Matrix (Fin 3) (Fin 3) α → EigenSolution α) (debug : Bool)
    (uninit1 uninit2 : VectorType α 3) (tensor : Matrix (Fin 3) (Fin 3) α) (area : α)
    (N : VectorType α 3) (hsucc : (eigensolver (tensorMatrix tensor area N)).success = true)
    (h01 : (eigensolver (tensorMatrix tensor area N)).eigenvalues 0 ≤
      (eigensolver (tensorMatrix tensor area N)).eigenvalues 1)
    (h12 : (eigensolver (tensorMatrix tensor area N)).eigenvalues 1 ≤
      (eigensolver (tensorMatrix tensor area N)).eigenvalues 2) :
    curvaturesFromTensor eigensolver debug uninit1 uninit2 tensor area N =
      .returned (-(eigensolver (tensorMatrix tensor area N)).eigenvalues 0,
        -(eigensolver (tensorMatrix tensor area N)).eigenvalues 1,
        (eigensolver (tensorMatrix tensor area N)).col 0,
        (eigensolver (tensorMatrix tensor area N)).col 1) := by
  have hsucc1 : (eigensolver (fun j k =>
      (tensor j k + tensor k j) * (1 / 2) + 1000 * area * N j * N k)).success = true := hsucc
  have h011 : (eigensolver (fun j k =>
      (tensor j k + tensor k j) * (1 / 2) + 1000 * area * N j * N k)).eigenvalues 0 ≤
      (eigensolver (fun j k =>
      (tensor j k + tensor k j) * (1 / 2) + 1000 * area * N j * N k)).eigenvalues 1 := h01
  have h121 : (eigensolver (fun j k =>
      (tensor j k + tensor k j) * (1 / 2) + 1000 * area * N j * N k)).eigenvalues 1 ≤
      (eigensolver (fun j k =>
      (tensor j k + tensor k j) * (1 / 2) + 1000 * area * N j * N k)).eigenvalues 2 := h12
  unfold curvaturesFromTensor
  simp only [hsucc1, h011, h121, if_true, decide_True, Bool.not_true, Bool.and_false,
    Bool.false_eq_true, if_false]
  rfl

theorem curvDirFromTensor_success
    (eigensolver : Matrix (Fin 3) (Fin 3) α → EigenSolution α) (debug : Bool)
    (tensor : Matrix (Fin 3) (Fin 3) α) (area : α)
    (N : VectorType α 3) (hsucc : (eigensolver (tensorMatrix tensor area N)).success = true)
    (h01 : (eigensolver (tensorMatrix tensor area N)).eigenvalues 0 ≤
      (eigensolver (tensorMatrix tensor area N)).eigenvalues 1)
    (h12 : (eigensolver (tensorMatrix tensor area N)).eigenvalues 1 ≤
      (eigensolver (tensorMatrix tensor area N)).eigenvalues 2) :
    curvDirFromTensor eigensolver debug tensor area N =
      .returned ((eigensolver (tensorMatrix tensor area N)).col 1,
        (eigensolver (tensorMatrix tensor area N)).col 0) := by
  have hsucc1 : (eigensolver (fun j k =>
      (tensor j k + tensor k j) * (1 / 2) + 1000 * area * N j * N k)).success = true := hsucc
  have h011 : (eigensolver (fun j k =>
      (tensor j k + tensor k j) * (1 / 2) + 1000 * area * N j * N k)).eigenvalues 0 ≤
      (eigensolver (fun j k =>
      (tensor j k + tensor k j) * (1 / 2) + 1000 * area * N j * N k)).eigenvalues 1 := h01
  have h121 : (eigensolver (fun j k =>
      (tensor j k + tensor k j) * (1 / 2) + 1000 * area * N j * N k)).eigenvalues 1 ≤
      (eigensolver (fun j k =>
      (tensor j k + tensor k j) * (1 / 2) + 1000 * area * N j * N k)).eigenvalues 2 := h12
  unfold curvDirFromTensor
  simp only [hsucc1, h011, h121, Bool.not_true, decide_True, Bool.and_false,
    Bool.false_eq_true, if_false]
  rfl

/-- C22, as the code has it: when the eigen-solver succeeds on
`M = 1/2 (T + T^T) + 1000 area N N^T` with sorted eigenvalues `l0 <= l1 <= l2` whose columns are
eigenvectors, `curvaturesFromTensor` returns `-l0`, `-l1` and the eigenvectors of `l0` and `l1`,
the two smallest eigenvalues: both directions are eigenvectors of `M` and the curvatures are minus
their eigenvalues. The directions are orthogonal to `N` when `N` is an eigenvector of `M` for an
eigenvalue above `l1`. -/
theorem curvaturesFromTensor_eigenpairs
    (eigensolver : Matrix (Fin 3) (Fin 3) α → EigenSolution α) (debug : Bool)
    (uninit1 uninit2 : VectorType α 3) (tensor : Matrix (Fin 3) (Fin 3) α) (area : α)
    (N : VectorType α 3) (hsucc : (eigensolver (tensorMatrix tensor area N)).success = true)
    (h01 : (eigensolver (tensorMatrix tensor area N)).eigenvalues 0 ≤
      (eigensolver (tensorMatrix tensor area N)).eigenvalues 1)
    (h12 : (eigensolver (tensorMatrix tensor area N)).eigenvalues 1 ≤
      (eigensolver (tensorMatrix tensor area N)).eigenvalues 2)
    (heig : ∀ k, matVec (tensorMatrix tensor area N)
        ((eigensolver (tensorMatrix tensor area N)).col k) =
      fun i => (eigensolver (tensorMatrix tensor area N)).eigenvalues k *
        (eigensolver (tensorMatrix tensor area N)).col k i) :
    ∃ k1 k2 v1 v2,
      curvaturesFromTensor eigensolver debug uninit1 uninit2 tensor area N =
        .returned (k1, k2, v1, v2) ∧
      k1 = -(eigensolver (tensorMatrix tensor area N)).eigenvalues 0 ∧
      k2 = -(eigensolver (tensorMatrix tensor area N)).eigenvalues 1 ∧
      v1 = (eigensolver (tensorMatrix tensor area N)).col 0 ∧
      v2 = (eigensolver (tensorMatrix tensor area N)).col 1 ∧
      k2 ≤ k1 ∧
      matVec (tensorMatrix tensor area N) v1 = (fun i => -k1 * v1 i) ∧
      matVec (tensorMatrix tensor area N) v2 = (fun i => -k2 * v2 i) ∧
      ∀ mu, matVec (tensorMatrix tensor area N) N = (fun i => mu * N i) →
        (eigensolver (tensorMatrix tensor area N)).eigenvalues 1 < mu →
        dot v1 N = 0 ∧ dot v2 N = 0 := by
  refine ⟨_, _, _, _,
    curvaturesFromTensor_success eigensolver debug uninit1 uninit2 tensor area N hsucc h01 h12,
    rfl, rfl, rfl, rfl, neg_le_neg h01, ?_, ?_, ?_⟩
  · rw [heig 0]
    funext i
    rw [neg_neg]
  · rw [heig 1]
    funext i
    rw [neg_neg]
  · intro mu hN hmu
    exact ⟨eigen_orthogonal _ (tensorMatrix_symm tensor area N) _ N _ mu (heig 0) hN
        (ne_of_lt (lt_of_le_of_lt h01 hmu)),
      eigen_orthogonal _ (tensorMatrix_symm tensor area N) _ N _ mu (heig 1) hN (ne_of_lt hmu)⟩

theorem tensorMatrix_example :
    tensorMatrix (!![1, 0, 0; 0, 2, 0; 0, 0, 2] : Matrix (Fin 3) (Fin 3) ℚ) (1 / 1000)
      ![0, 0, 1] = !![1, 0, 0; 0, 2, 0; 0, 0, 3] := by
  funext j k
  fin_cases j <;> fin_cases k <;>
    simp [tensorMatrix, Matrix.vecHead, Matrix.vecTail] <;> norm_num

/-- C22 on `T = diag(1, 2, 2)`, area `1/1000` and `N = e_z`, where `M = diag(1, 2, 3)`: the
curvatures are `-1`, `-2` and the directions `e_x`, `e_y`, orthogonal to `N`. -/
theorem curvaturesFromTensor_eigenpairs_witness :
    curvaturesFromTensor exampleSolver true 0 0 !![1, 0, 0; 0, 2, 0; 0, 0, 2] (1 / 1000)
      ![0, 0, 1] = .returned (-1, -2, ![1, 0, 0], ![0, 1, 0]) ∧
    dot (![1, 0, 0] : VectorType ℚ 3) ![0, 0, 1] = 0 ∧
    dot (![0, 1, 0] : VectorType ℚ 3) ![0, 0, 1] = 0 := by
  have hsucc : (exampleSolver (tensorMatrix !![1, 0, 0; 0, 2, 0; 0, 0, 2] (1 / 1000)
      ![0, 0, 1])).success = true := rfl
  have h01 : (exampleSolver (tensorMatrix !![1, 0, 0; 0, 2, 0; 0, 0, 2] (1 / 1000)
      ![0, 0, 1])).eigenvalues 0 ≤ (exampleSolver (tensorMatrix !![1, 0, 0; 0, 2, 0; 0, 0, 2]
      (1 / 1000) ![0, 0, 1])).eigenvalues 1 := by
    norm_num [exampleSolver]
  have h12 : (exampleSolver (tensorMatrix !![1, 0, 0; 0, 2, 0; 0, 0, 2] (1 / 1000)
      ![0, 0, 1])).eigenvalues 1 ≤ (exampleSolver (tensorMatrix !![1, 0, 0; 0, 2, 0; 0, 0, 2]
      (1 / 1000) ![0, 0, 1])).eigenvalues 2 := by
    norm_num [exampleSolver]
  have heig : ∀ k, matVec (tensorMatrix !![1, 0, 0; 0, 2, 0; 0, 0, 2] (1 / 1000) ![0, 0, 1])
      ((exampleSolver (tensorMatrix !![1, 0, 0; 0, 2, 0; 0, 0, 2] (1 / 1000)
        ![0, 0, 1])).col k) =
      fun i => (exampleSolver (tensorMatrix !![1, 0, 0; 0, 2, 0; 0, 0, 2] (1 / 1000)
        ![0, 0, 1])).eigenvalues k *
        (exampleSolver (tensorMatrix !![1, 0, 0; 0, 2, 0; 0, 0, 2] (1 / 1000)
          ![0, 0, 1])).col k i := by
    intro k
    rw [tensorMatrix_example]
    funext i
    fin_cases k <;> fin_cases i <;>
      simp [matVec, exampleSolver, EigenSolution.col, Matrix.vecHead, Matrix.vecTail]
  obtain ⟨k1, k2, v1, v2, hret, hk1, hk2, hv1, hv2, -, -, -, horth⟩ :=
    curvaturesFromTensor_eigenpairs exampleSolver true 0 0 !![1, 0, 0; 0, 2, 0; 0, 0, 2]
      (1 / 1000) ![0, 0, 1] hsucc h01 h12 heig
  have hN : matVec (tensorMatrix (!![1, 0, 0; 0, 2, 0; 0, 0, 2] : Matrix (Fin 3) (Fin 3) ℚ)
      (1 / 1000) ![0, 0, 1]) ![0, 0, 1] = fun i => 3 * (![0, 0, 1] : VectorType ℚ 3) i := by
    rw [tensorMatrix_example]
    funext i
    fin_cases i <;> simp [matVec, Matrix.vecHead, Matrix.vecTail]
  have ho := horth 3 hN (by norm_num [exampleSolver])
  have e1 : v1 = ![1, 0, 0] := by
    rw [hv1]; funext i; fin_cases i <;>
      simp [exampleSolver, EigenSolution.col, Matrix.vecHead, Matrix.vecTail]
  have e2 : v2 = ![0, 1, 0] := by
    rw [hv2]; funext i; fin_cases i <;>
      simp [exampleSolver, EigenSolution.col, Matrix.vecHead, Matrix.vecTail]
  have e3 : k1 = -1 := by rw [hk1]; simp [exampleSolver]
  have e4 : k2 = -2 := by rw [hk2]; simp [exampleSolver]
  rw [e1, e2, e3, e4] at hret
  rw [e1, e2] at ho
  exact ⟨hret, ho.1, ho.2⟩

/-- C22 fails as stated: for `T = diag(2, 3, 0)`, area `1/1000` and the unit normal `N = e_z`,
`M = diag(2, 3, 1)` has the sorted eigenvalues `1, 2, 3` with the eigenvectors `e_z`, `e_x`,
`e_y`. On this decomposition `curvaturesFromTensor` returns the curvatures `-1`, `-2` and the
directions `e_z`, `e_x`: the first direction is the normal itself, not orthogonal to it. -/
theorem curvaturesFromTensor_eigenpairs_counterexample :
    tensorMatrix (!![2, 0, 0; 0, 3, 0; 0, 0, 0] : Matrix (Fin 3) (Fin 3) ℚ) (1 / 1000)
      ![0, 0, 1] = !![2, 0, 0; 0, 3, 0; 0, 0, 1] ∧
    (normalFirstSolver !![2, 0, 0; 0, 3, 0; 0, 0, 1]).success = true ∧
    (normalFirstSolver !![2, 0, 0; 0, 3, 0; 0, 0, 1]).eigenvalues = ![1, 2, 3] ∧
    (∀ k, matVec !![2, 0, 0; 0, 3, 0; 0, 0, 1]
        ((normalFirstSolver !![2, 0, 0; 0, 3, 0; 0, 0, 1]).col k) =
      fun i => (normalFirstSolver !![2, 0, 0; 0, 3, 0; 0, 0, 1]).eigenvalues k *
        (normalFirstSolver !![2, 0, 0; 0, 3, 0; 0, 0, 1]).col k i) ∧
    (∀ j k, dot ((normalFirstSolver !![2, 0, 0; 0, 3, 0; 0, 0, 1]).col j)
        ((normalFirstSolver !![2, 0, 0; 0, 3, 0; 0, 0, 1]).col k) = if j = k then 1 else 0) ∧
    dot (![0, 0, 1] : VectorType ℚ 3) ![0, 0, 1] = 1 ∧
    curvaturesFromTensor normalFirstSolver true 0 0 !![2, 0, 0; 0, 3, 0; 0, 0, 0] (1 / 1000)
      ![0, 0, 1] = .returned (-1, -2, ![0, 0, 1], ![1, 0, 0]) ∧
    dot (![0, 0, 1] : VectorType ℚ 3) ![0, 0, 1] ≠ 0 := by
  have hM : tensorMatrix (!![2, 0, 0; 0, 3, 0; 0, 0, 0] : Matrix (Fin 3) (Fin 3) ℚ) (1 / 1000)
      ![0, 0, 1] = !![2, 0, 0; 0, 3, 0; 0, 0, 1] := by
    funext j k
    fin_cases j <;> fin_cases k <;>
    simp [tensorMatrix, Matrix.vecHead, Matrix.vecTail] <;> norm_num
  refine ⟨hM, rfl, rfl, ?_, ?_, by simp [dot], ?_, by simp [dot]⟩
  · intro k
    funext i
    fin_cases k <;> fin_cases i <;>
      simp [matVec, normalFirstSolver, EigenSolution.col, Matrix.vecHead, Matrix.vecTail]
  · intro j k
    fin_cases j <;> fin_cases k <;>
      simp [dot, normalFirstSolver, EigenSolution.col, Matrix.vecHead, Matrix.vecTail]
  · rw [curvaturesFromTensor_success normalFirstSolver true 0 0 _ _ _ rfl
      (by norm_num [normalFirstSolver]) (by norm_num [normalFirstSolver])]
    have e1 : (normalFirstSolver (tensorMatrix !![2, 0, 0; 0, 3, 0; 0, 0, 0] (1 / 1000)
        ![0, 0, 1])).col 0 = ![0, 0, 1] := by
      funext i; fin_cases i <;>
        simp [normalFirstSolver, EigenSolution.col, Matrix.vecHead, Matrix.vecTail]
    have e2 : (normalFirstSolver (tensorMatrix !![2, 0, 0; 0, 3, 0; 0, 0, 0] (1 / 1000)
        ![0, 0, 1])).col 1 = ![1, 0, 0] := by
      funext i; fin_cases i <;>
        simp [normalFirstSolver, EigenSolution.col, Matrix.vecHead, Matrix.vecTail]
    rw [e1, e2]
    simp [normalFirstSolver]

/-- When the eigen-solver reports failure `curvaturesFromTensor` returns the curvatures `0`, `0`
and, as directions, the two vectors it declared and never assigned. -/
theorem curvaturesFromTensor_failure_branch
    (eigensolver : Matrix (Fin 3) (Fin 3) α → EigenSolution α) (debug : Bool)
    (uninit1 uninit2 : VectorType α 3) (tensor : Matrix (Fin 3) (Fin 3) α) (area : α)
    (N : VectorType α 3) (hfail : (eigensolver (tensorMatrix tensor area N)).success = false) :
    curvaturesFromTensor eigensolver debug uninit1 uninit2 tensor area N =
      .returned (0, 0, uninit1, uninit2) := by
  have hfail1 : (eigensolver (fun j k =>
      (tensor j k + tensor k j) * (1 / 2) + 1000 * area * N j * N k)).success = false := hfail
  unfold curvaturesFromTensor
  simp only [hfail1, Bool.false_eq_true, if_false]

/-- C23 fails for the directions: on a solver failure, with the storage of `v1` and `v2` holding
`(1, 2, 3)` and `(4, 5, 6)`, `curvaturesFromTensor` returns the curvatures `0`, `0` and these two
vectors, which are not zero. -/
theorem curvaturesFromTensor_failure :
    curvaturesFromTensor failingSolver true ![1, 2, 3] ![4, 5, 6] !![1, 0, 0; 0, 2, 0; 0, 0, 2]
      (1 / 1000) ![0, 0, 1] = .returned (0, 0, ![1, 2, 3], ![4, 5, 6]) ∧
    (![1, 2, 3] : VectorType ℚ 3) ≠ 0 ∧ (![4, 5, 6] : VectorType ℚ 3) ≠ 0 := by
  refine ⟨curvaturesFromTensor_failure_branch failingSolver true _ _ _ _ _ rfl, ?_, ?_⟩
  · intro h
    have := congrFun h 0
    simp at this
  · intro h
    have := congrFun h 0
    simp at this

/-- C30: when the eigen-solver succeeds, `curvDirFromTensor` hands the same matrix to the solver
as `curvaturesFromTensor` and returns the two directions of `curvaturesFromTensor` in the
opposite order: first the eigenvector of the middle eigenvalue, then the eigenvector of the
smallest eigenvalue. With the `assert`s compiled in and eigenvalues that are not sorted, both
functions fail the same `assert`. -/
theorem curvDirFromTensor_swaps
    (eigensolver : Matrix (Fin 3) (Fin 3) α → EigenSolution α) (debug : Bool)
    (uninit1 uninit2 : VectorType α 3) (tensor : Matrix (Fin 3) (Fin 3) α) (area : α)
    (N : VectorType α 3) (hsucc : (eigensolver (tensorMatrix tensor area N)).success = true) :
    (∀ k1 k2 v1 v2,
      curvaturesFromTensor eigensolver debug uninit1 uninit2 tensor area N =
        .returned (k1, k2, v1, v2) →
      curvDirFromTensor eigensolver debug tensor area N = .returned (v2, v1) ∧
      v1 = (eigensolver (tensorMatrix tensor area N)).col 0 ∧
      v2 = (eigensolver (tensorMatrix tensor area N)).col 1) ∧
    (∀ w1 w2, curvDirFromTensor eigensolver debug tensor area N = .returned (w1, w2) →
      ∃ k1 k2, curvaturesFromTensor eigensolver debug uninit1 uninit2 tensor area N =
        .returned (k1, k2, w2, w1)) ∧
    ((eigensolver (tensorMatrix tensor area N)).eigenvalues 0 ≤
        (eigensolver (tensorMatrix tensor area N)).eigenvalues 1 →
      (eigensolver (tensorMatrix tensor area N)).eigenvalues 1 ≤
        (eigensolver (tensorMatrix tensor area N)).eigenvalues 2 →
      curvDirFromTensor eigensolver debug tensor area N =
        .returned ((eigensolver (tensorMatrix tensor area N)).col 1,
          (eigensolver (tensorMatrix tensor area N)).col 0)) := by
  have hsucc1 : (eigensolver (fun j k =>
      (tensor j k + tensor k j) * (1 / 2) + 1000 * area * N j * N k)).success = true := hsucc
  have hM : tensorMatrix tensor area N = (fun j k =>
      (tensor j k + tensor k j) * (1 / 2) + 1000 * area * N j * N k) := rfl
  refine ⟨?_, ?_, fun h01 h12 =>
    curvDirFromTensor_success eigensolver debug tensor area N hsucc h01 h12⟩
  · intro k1 k2 v1 v2 h
    unfold curvaturesFromTensor at h
    unfold curvDirFromTensor
    simp only [hsucc1, if_true, Bool.not_true, Bool.false_eq_true, if_false] at h ⊢
    rw [hM]
    split_ifs at h ⊢ with h1 h2
    · simp only [Outcome.returned.injEq, Prod.mk.injEq] at h
      obtain ⟨-, -, rfl, rfl⟩ := h
      exact ⟨rfl, rfl, rfl⟩
  · intro w1 w2 h
    unfold curvaturesFromTensor
    unfold curvDirFromTensor at h
    simp only [hsucc1, if_true, Bool.not_true, Bool.false_eq_true, if_false] at h ⊢
    split_ifs at h ⊢ with h1 h2
    · simp only [Outcome.returned.injEq, Prod.mk.injEq] at h
      obtain ⟨rfl, rfl⟩ := h
      exact ⟨_, _, rfl⟩

/-- C30 on `T = diag(1, 2, 2)`, area `1/1000`, `N = e_z`: `curvaturesFromTensor` returns the
directions `e_x`, `e_y` and `curvDirFromTensor` returns `e_y`, `e_x`. -/
theorem curvDirFromTensor_swaps_witness :
    (exampleSolver (tensorMatrix !![1, 0, 0; 0, 2, 0; 0, 0, 2] (1 / 1000)
      ![0, 0, 1])).success = true ∧
    curvDirFromTensor exampleSolver true !![1, 0, 0; 0, 2, 0; 0, 0, 2] (1 / 1000) ![0, 0, 1] =
      .returned (![0, 1, 0], ![1, 0, 0]) := by
  refine ⟨rfl, ?_⟩
  rw [(curvDirFromTensor_swaps exampleSolver true 0 0 !![1, 0, 0; 0, 2, 0; 0, 0, 2] (1 / 1000)
    ![0, 0, 1] rfl).2.2 (by norm_num [exampleSolver]) (by norm_num [exampleSolver])]
  have e1 : (exampleSolver (tensorMatrix !![1, 0, 0; 0, 2, 0; 0, 0, 2] (1 / 1000)
      ![0, 0, 1])).col 0 = ![1, 0, 0] := by
    funext i; fin_cases i <;>
      simp [exampleSolver, EigenSolution.col, Matrix.vecHead, Matrix.vecTail]
  have e2 : (exampleSolver (tensorMatrix !![1, 0, 0; 0, 2, 0; 0, 0, 2] (1 / 1000)
      ![0, 0, 1])).col 1 = ![0, 1, 0] := by
    funext i; fin_cases i <;>
      simp [exampleSolver, EigenSolution.col, Matrix.vecHead, Matrix.vecTail]
  rw [e1, e2]

end TensorTheorems

end Ponca

namespace Ponca

section MongePatchSums

variable {α P B : Type} [LinearOrderedField α]

/-- In the second pass the neighbors are added to whatever `m_A` and `m_b` hold. -/
theorem addNeighbors_second_pass (ops : MongeBase α P B) :
    ∀ (ns : List (α × VectorType α 3 × P)) (s : MongePatch α B), s.m_planeIsReady = true →
      (MongePatch.addNeighbors ops ns s).m_planeIsReady = true ∧
      (∀ i j, (MongePatch.addNeighbors ops ns s).m_A i j =
        s.m_A i j + ((localCoordinates ops ns s.base).map fun t =>
          t.1 * mongeBasis (t.2 1) (t.2 2) i * mongeBasis (t.2 1) (t.2 2) j).sum) ∧
      (∀ i, (MongePatch.addNeighbors ops ns s).m_b i =
        s.m_b i + ((localCoordinates ops ns s.base).map fun t =>
          t.1 * t.2 0 * mongeBasis (t.2 1) (t.2 2) i).sum) := by
  intro ns
  induction ns with
  | nil =>
    intro s h
    exact ⟨h, fun i j => by simp [MongePatch.addNeighbors, localCoordinates],
      fun i => by simp [MongePatch.addNeighbors, localCoordinates]⟩
  | cons n ns ih =>
    intro s h
    have hstep : MongePatch.addLocalNeighbor ops n.1 n.2.1 n.2.2 s =
        (true,
          { s with
            base := (ops.addLocalNeighbor n.1 n.2.1 n.2.2 s.base).2
            m_A := fun i j => s.m_A i j + n.1 *
              mongeBasis
                (ops.worldToLocalFrame (ops.addLocalNeighbor n.1 n.2.1 n.2.2 s.base).2
                  (ops.pos n.2.2) 1)
                (ops.worldToLocalFrame (ops.addLocalNeighbor n.1 n.2.1 n.2.2 s.base).2
                  (ops.pos n.2.2) 2) i *
              mongeBasis
                (ops.worldToLocalFrame (ops.addLocalNeighbor n.1 n.2.1 n.2.2 s.base).2
                  (ops.pos n.2.2) 1)
                (ops.worldToLocalFrame (ops.addLocalNeighbor n.1 n.2.1 n.2.2 s.base).2
                  (ops.pos n.2.2) 2) j
            m_b := fun i => s.m_b i + n.1 *
              ops.worldToLocalFrame (ops.addLocalNeighbor n.1 n.2.1 n.2.2 s.base).2
                (ops.pos n.2.2) 0 *
              mongeBasis
                (ops.worldToLocalFrame (ops.addLocalNeighbor n.1 n.2.1 n.2.2 s.base).2
                  (ops.pos n.2.2) 1)
                (ops.worldToLocalFrame (ops.addLocalNeighbor n.1 n.2.1 n.2.2 s.base).2
                  (ops.pos n.2.2) 2) i }) := by
      unfold MongePatch.addLocalNeighbor
      simp [h]
    obtain ⟨hr, hA, hb⟩ := ih (MongePatch.addLocalNeighbor ops n.1 n.2.1 n.2.2 s).2
      (by rw [hstep]; exact h)
    refine ⟨hr, ?_, ?_⟩
    · intro i j
      show (MongePatch.addNeighbors ops ns
        (MongePatch.addLocalNeighbor ops n.1 n.2.1 n.2.2 s).2).m_A i j = _
      rw [hA i j, hstep]
      simp only [localCoordinates, List.map_cons, List.sum_cons]
      rw [add_assoc]
    · intro i
      show (MongePatch.addNeighbors ops ns
        (MongePatch.addLocalNeighbor ops n.1 n.2.1 n.2.2 s).2).m_b i = _
      rw [hb i, hstep]
      simp only [localCoordinates, List.map_cons, List.sum_cons]
      rw [add_assoc]

/-- C24: whatever the state before `init` holds, after `init`, any calls of the first pass and
the `finalize` call that returns `NEED_OTHER_PASS`, the neighbors `ns` passed to
`addLocalNeighbor` leave `m_A = sum of w_i p_i p_i^T` and `m_b = sum of w_i h_i p_i` over
exactly these neighbors, with `(h_i, u_i, v_i) = worldToLocalFrame(position_i)` and
`p_i = (u_i^2, v_i^2, u_i v_i, u_i, v_i, 1)`; the second-pass `finalize` then returns `STABLE`
with `m_x` solved from these sums. -/
theorem mongePatch_second_pass_sums (ops : MongeBase α P B)
    (solve : Matrix (Fin 6) (Fin 6) α → (Fin 6 → α) → Fin 6 → α) (evalPos : VectorType α 3)
    (s0 : MongePatch α B) (first : List (MongeCall α P)) (ns : List (α × VectorType α 3 × P))
    (hfirst : (MongePatch.run ops solve first
      (MongePatch.init ops evalPos s0)).2.m_planeIsReady = false)
    (hstable : (ops.finalize (MongePatch.run ops solve first
      (MongePatch.init ops evalPos s0)).2.base).1 = FIT_RESULT.STABLE) :
    (MongePatch.finalize ops solve (MongePatch.run ops solve first
      (MongePatch.init ops evalPos s0)).2).1 = FIT_RESULT.NEED_OTHER_PASS ∧
    (∀ i j, (MongePatch.addNeighbors ops ns (MongePatch.finalize ops solve
        (MongePatch.run ops solve first (MongePatch.init ops evalPos s0)).2).2).m_A i j =
      ((localCoordinates ops ns (MongePatch.finalize ops solve
        (MongePatch.run ops solve first (MongePatch.init ops evalPos s0)).2).2.base).map
        fun t => t.1 * mongeBasis (t.2 1) (t.2 2) i * mongeBasis (t.2 1) (t.2 2) j).sum) ∧
    (∀ i, (MongePatch.addNeighbors ops ns (MongePatch.finalize ops solve
        (MongePatch.run ops solve first (MongePatch.init ops evalPos s0)).2).2).m_b i =
      ((localCoordinates ops ns (MongePatch.finalize ops solve
        (MongePatch.run ops solve first (MongePatch.init ops evalPos s0)).2).2.base).map
        fun t => t.1 * t.2 0 * mongeBasis (t.2 1) (t.2 2) i).sum) ∧
    (MongePatch.finalize ops solve (MongePatch.addNeighbors ops ns (MongePatch.finalize ops solve
      (MongePatch.run ops solve first (MongePatch.init ops evalPos s0)).2).2)).1 =
      FIT_RESULT.STABLE ∧
    (MongePatch.finalize ops solve (MongePatch.addNeighbors ops ns (MongePatch.finalize ops solve
      (MongePatch.run ops solve first (MongePatch.init ops evalPos s0)).2).2)).2.m_x =
      solve
        (MongePatch.addNeighbors ops ns (MongePatch.finalize ops solve
          (MongePatch.run ops solve first (MongePatch.init ops evalPos s0)).2).2).m_A
        (MongePatch.addNeighbors ops ns (MongePatch.finalize ops solve
          (MongePatch.run ops solve first (MongePatch.init ops evalPos s0)).2).2).m_b := by
  have hf := finalize_first_pass_stable ops solve _ hfirst hstable
  have hready : (MongePatch.finalize ops solve (MongePatch.run ops solve first
      (MongePatch.init ops evalPos s0)).2).2.m_planeIsReady = true := by rw [hf]
  have hA0 : (MongePatch.finalize ops solve (MongePatch.run ops solve first
      (MongePatch.init ops evalPos s0)).2).2.m_A = 0 := by rw [hf]
  have hb0 : (MongePatch.finalize ops solve (MongePatch.run ops solve first
      (MongePatch.init ops evalPos s0)).2).2.m_b = 0 := by rw [hf]
  obtain ⟨hr, hA, hb⟩ := addNeighbors_second_pass ops ns _ hready
  have h2 := finalize_second_pass ops solve _ hr
  refine ⟨by rw [hf], ?_, ?_, by rw [h2], by rw [h2]⟩
  · intro i j
    rw [hA i j, hA0]
    simp
  · intro i
    rw [hb i, hb0]
    simp

/-- C24 over `exampleMongeBase`, from a state with stale `m_A`, `m_b`, `m_x`: one neighbor in
the first pass, then the neighbors at `(1, 2, 3)` with weight `1` and at `(2, 0, 1)` with weight
`2` in the second pass give `m_b = (4, 13, 6, 2, 7, 5)`, the sum over these two neighbors. -/
theorem mongePatch_second_pass_sums_witness :
    (MongePatch.run exampleMongeBase (fun _ b => b)
      [MongeCall.addLocalNeighbor 1 0 ![5, 5, 5]]
      (MongePatch.init exampleMongeBase 0 staleMongePatch)).2.m_planeIsReady = false ∧
    (exampleMongeBase.finalize (MongePatch.run exampleMongeBase (fun _ b => b)
      [MongeCall.addLocalNeighbor 1 0 ![5, 5, 5]]
      (MongePatch.init exampleMongeBase 0 staleMongePatch)).2.base).1 = FIT_RESULT.STABLE ∧
    (MongePatch.addNeighbors exampleMongeBase [(1, 0, ![1, 2, 3]), (2, 0, ![2, 0, 1])]
      (MongePatch.finalize exampleMongeBase (fun _ b => b)
        (MongePatch.run exampleMongeBase (fun _ b => b)
          [MongeCall.addLocalNeighbor 1 0 ![5, 5, 5]]
          (MongePatch.init exampleMongeBase 0 staleMongePatch)).2).2).m_b =
      ![4, 13, 6, 2, 7, 5] := by
  have h1 : (MongePatch.run exampleMongeBase (fun _ b => b)
      [MongeCall.addLocalNeighbor 1 0 ![5, 5, 5]]
      (MongePatch.init exampleMongeBase 0 staleMongePatch)).2.m_planeIsReady = false := by
    simp [MongePatch.run, MongePatch.addLocalNeighbor, MongePatch.init]
  have h2 : (exampleMongeBase.finalize (MongePatch.run exampleMongeBase (fun _ b => b)
      [MongeCall.addLocalNeighbor 1 0 ![5, 5, 5]]
      (MongePatch.init exampleMongeBase 0 staleMongePatch)).2.base).1 = FIT_RESULT.STABLE := by
    simp [MongePatch.run, MongePatch.addLocalNeighbor, MongePatch.init, exampleMongeBase]
  refine ⟨h1, h2, ?_⟩
  funext i
  rw [(mongePatch_second_pass_sums exampleMongeBase (fun _ b => b) 0 staleMongePatch
    [MongeCall.addLocalNeighbor 1 0 ![5, 5, 5]] [(1, 0, ![1, 2, 3]), (2, 0, ![2, 0, 1])]
    h1 h2).2.2.1 i]
  fin_cases i <;> simp [localCoordinates, exampleMongeBase, mongeBasis] <;>
    first
    | (norm_num; done)
    | (show (1 : ℚ) + 2 * 2 * 1 = 5; norm_num)

end MongePatchSums

end Ponca

namespace Ponca

section Discriminant

/-- The discriminant of the two fundamental forms of a graph `h(u, v)` is not negative. -/
theorem discriminant_nonneg (u v a b c : ℝ) :
    0 ≤ (a * (1 + v ^ 2) + b * (1 + u ^ 2) - 2 * c * u * v) ^ 2 -
      4 * (1 + u ^ 2 + v ^ 2) * (a * b - c ^ 2) := by
  have hE : 0 < 1 + u ^ 2 := by positivity
  have hW : 0 < 1 + u ^ 2 + v ^ 2 := by positivity
  have hid : ((a * (1 + v ^ 2) + b * (1 + u ^ 2) - 2 * c * u * v) ^ 2 -
      4 * (1 + u ^ 2 + v ^ 2) * (a * b - c ^ 2)) * (1 + u ^ 2) ^ 2 =
      ((1 + u ^ 2) * (a * (1 + v ^ 2) - b * (1 + u ^ 2)) -
          2 * (u * v) * (a * (u * v) - c * (1 + u ^ 2))) ^ 2 +
        4 * (1 + u ^ 2 + v ^ 2) * (c * (1 + u ^ 2) - a * (u * v)) ^ 2 := by ring
  have hrhs : 0 ≤ ((1 + u ^ 2) * (a * (1 + v ^ 2) - b * (1 + u ^ 2)) -
          2 * (u * v) * (a * (u * v) - c * (1 + u ^ 2))) ^ 2 +
        4 * (1 + u ^ 2 + v ^ 2) * (c * (1 + u ^ 2) - a * (u * v)) ^ 2 := by positivity
  rw [← hid] at hrhs
  exact nonneg_of_mul_nonneg_left hrhs (by positivity)

theorem rpow_three_halves_sq {W : ℝ} (hW : 0 < W) : (W ^ ((3 : ℝ) / 2)) * (W ^ ((3 : ℝ) / 2)) =
    W ^ 3 := by
  rw [← Real.rpow_add hW]
  norm_num
  exact_mod_cast Real.rpow_natCast W 3

/-- Over the reals `kMean()^2 - GaussianCurvature()` is not negative. -/
theorem kMean_sq_sub_gauss_nonneg (d : PatchDerivatives ℝ) :
    0 ≤ MongePatch.kMean (fun x y => x ^ y) d * MongePatch.kMean (fun x y => x ^ y) d -
      MongePatch.GaussianCurvature (fun x y => x ^ y) d := by
  have hW : 0 < 1 + d.dh_u ^ 2 + d.dh_v ^ 2 := by positivity
  have hP : 0 < (1 + d.dh_u ^ 2 + d.dh_v ^ 2) ^ ((3 : ℝ) / 2) := Real.rpow_pos_of_pos hW _
  have hsq := rpow_three_halves_sq hW
  have hD := discriminant_nonneg d.dh_u d.dh_v d.dh_uu d.dh_vv d.dh_uv
  have hval : MongePatch.kMean (fun x y => x ^ y) d * MongePatch.kMean (fun x y => x ^ y) d -
      MongePatch.GaussianCurvature (fun x y => x ^ y) d =
      ((d.dh_uu * (1 + d.dh_v ^ 2) + d.dh_vv * (1 + d.dh_u ^ 2) -
          2 * d.dh_uv * d.dh_u * d.dh_v) ^ 2 -
        4 * (1 + d.dh_u ^ 2 + d.dh_v ^ 2) * (d.dh_uu * d.dh_vv - d.dh_uv ^ 2)) /
        (4 * (1 + d.dh_u ^ 2 + d.dh_v ^ 2) ^ 3) := by
    unfold MongePatch.kMean MongePatch.GaussianCurvature
    simp only [Real.rpow_two]
    rw [add_comm (d.dh_u ^ 2 + d.dh_v ^ 2) 1, ← add_assoc, div_mul_div_comm]
    have h1 : 2 * (1 + d.dh_u ^ 2 + d.dh_v ^ 2) ^ ((3 : ℝ) / 2) *
        (2 * (1 + d.dh_u ^ 2 + d.dh_v ^ 2) ^ ((3 : ℝ) / 2)) =
        4 * (1 + d.dh_u ^ 2 + d.dh_v ^ 2) ^ 3 := by
      rw [← hsq]; ring
    rw [h1]
    field_simp
    ring
  rw [hval]
  exact div_nonneg hD (by positivity)

/-- C27: for all real values of the accessors `dh_u`, `dh_v`, `dh_uu`, `dh_vv`, `dh_uv`, with
the real power and square root, `kMean()^2 - GaussianCurvature()` is not negative, so that
`kmin()` and `kmax()` are numbers with `kmin() <= kmax()`, `kmin() + kmax() = 2 kMean()` and
`kmin() * kmax() = GaussianCurvature()`; for `MongePatch` and for `ParabolicCylinder`. -/
theorem principal_curvatures_real (d : PatchDerivatives ℝ) :
    (0 ≤ MongePatch.kMean (fun x y => x ^ y) d * MongePatch.kMean (fun x y => x ^ y) d -
        MongePatch.GaussianCurvature (fun x y => x ^ y) d ∧
      ∃ k1 k2 : ℝ,
        MongePatch.kmin (fun x y => x ^ y) Real.sqrt d = some k1 ∧
        MongePatch.kmax (fun x y => x ^ y) Real.sqrt d = some k2 ∧
        k1 ≤ k2 ∧ k1 + k2 = 2 * MongePatch.kMean (fun x y => x ^ y) d ∧
        k1 * k2 = MongePatch.GaussianCurvature (fun x y => x ^ y) d) ∧
    (0 ≤ ParabolicCylinder.kMean (fun x y => x ^ y) d *
          ParabolicCylinder.kMean (fun x y => x ^ y) d -
        ParabolicCylinder.GaussianCurvature (fun x y => x ^ y) d ∧
      ∃ k1 k2 : ℝ,
        ParabolicCylinder.kmin (fun x y => x ^ y) Real.sqrt d = some k1 ∧
        ParabolicCylinder.kmax (fun x y => x ^ y) Real.sqrt d = some k2 ∧
        k1 ≤ k2 ∧ k1 + k2 = 2 * ParabolicCylinder.kMean (fun x y => x ^ y) d ∧
        k1 * k2 = ParabolicCylinder.GaussianCurvature (fun x y => x ^ y) d) := by
  have hD := kMean_sq_sub_gauss_nonneg d
  have hs := Real.sqrt_nonneg (MongePatch.kMean (fun x y => x ^ y) d *
    MongePatch.kMean (fun x y => x ^ y) d - MongePatch.GaussianCurvature (fun x y => x ^ y) d)
  have hss := Real.mul_self_sqrt hD
  have hmain : 0 ≤ MongePatch.kMean (fun x y => x ^ y) d *
        MongePatch.kMean (fun x y => x ^ y) d -
        MongePatch.GaussianCurvature (fun x y => x ^ y) d ∧
      ∃ k1 k2 : ℝ,
        MongePatch.kmin (fun x y => x ^ y) Real.sqrt d = some k1 ∧
        MongePatch.kmax (fun x y => x ^ y) Real.sqrt d = some k2 ∧
        k1 ≤ k2 ∧ k1 + k2 = 2 * MongePatch.kMean (fun x y => x ^ y) d ∧
        k1 * k2 = MongePatch.GaussianCurvature (fun x y => x ^ y) d := by
    refine ⟨hD,
      MongePatch.kMean (fun x y => x ^ y) d -
        Real.sqrt (MongePatch.kMean (fun x y => x ^ y) d *
          MongePatch.kMean (fun x y => x ^ y) d -
          MongePatch.GaussianCurvature (fun x y => x ^ y) d),
      MongePatch.kMean (fun x y => x ^ y) d +
        Real.sqrt (MongePatch.kMean (fun x y => x ^ y) d *
          MongePatch.kMean (fun x y => x ^ y) d -
          MongePatch.GaussianCurvature (fun x y => x ^ y) d), ?_, ?_, ?_, ?_, ?_⟩
    · unfold MongePatch.kmin
      simp only [stdSqrt_of_nonneg Real.sqrt hD, Option.map_some']
    · unfold MongePatch.kmax
      simp only [stdSqrt_of_nonneg Real.sqrt hD, Option.map_some']
    · linarith
    · ring
    · linear_combination -hss
  exact ⟨hmain, hmain⟩

/-- The principal curvatures at `dh_u = dh_v = 0` with second derivatives `3`, `1`, `0`, where
`kMean() = 2` and `GaussianCurvature() = 3`: `kmin() = 1` and `kmax() = 3`. -/
theorem principal_curvatures_real_example :
    MongePatch.kmin (fun x y => x ^ y) Real.sqrt (⟨0, 0, 3, 1, 0⟩ : PatchDerivatives ℝ) =
      some 1 ∧
    MongePatch.kmax (fun x y => x ^ y) Real.sqrt (⟨0, 0, 3, 1, 0⟩ : PatchDerivatives ℝ) =
      some 3 := by
  have hH : MongePatch.kMean (fun x y => x ^ y) (⟨0, 0, 3, 1, 0⟩ : PatchDerivatives ℝ) = 2 := by
    unfold MongePatch.kMean
    simp only [Real.rpow_two]
    norm_num
  have hK : MongePatch.GaussianCurvature (fun x y => x ^ y)
      (⟨0, 0, 3, 1, 0⟩ : PatchDerivatives ℝ) = 3 := by
    unfold MongePatch.GaussianCurvature
    simp only [Real.rpow_two]
    norm_num
  have hs : Real.sqrt (2 * 2 - 3) = 1 := by
    rw [show (2 : ℝ) * 2 - 3 = 1 by norm_num, Real.sqrt_one]
  constructor
  · unfold MongePatch.kmin
    simp only [hH, hK]
    rw [stdSqrt_of_nonneg Real.sqrt (by norm_num), hs]
    norm_num
  · unfold MongePatch.kmax
    simp only [hH, hK]
    rw [stdSqrt_of_nonneg Real.sqrt (by norm_num), hs]
    norm_num

end Discriminant

end Ponca

namespace Ponca

section ParabolicCylinderSurfaceTheorems

variable {α : Type} [LinearOrderedField α]

/-- With mutually inverse frame maps, the potential at `project(q)` is
`(correctOrientation - 1)` times the height of the cylinder at the in-plane coordinates of `q`:
it is `0` for `correctOrientation = 1`, and minus twice the height for
`correctOrientation = -1`. -/
theorem potential_project (worldToLocalFrame localFrameToWorld : VectorType α 3 → VectorType α 3)
    (hinv : ∀ x, worldToLocalFrame (localFrameToWorld x) = x)
    (eval_quadratic_function : α → α → α) (s : ParabolicCylinder α) (q : VectorType α 3) :
    ParabolicCylinder.potential worldToLocalFrame eval_quadratic_function s
        (ParabolicCylinder.project worldToLocalFrame localFrameToWorld eval_quadratic_function q) =
      (s.m_correctOrientation - 1) *
        eval_quadratic_function (worldToLocalFrame q 1) (worldToLocalFrame q 2) ∧
    (s.m_correctOrientation = 1 →
      ParabolicCylinder.potential worldToLocalFrame eval_quadratic_function s
        (ParabolicCylinder.project worldToLocalFrame localFrameToWorld eval_quadratic_function q) =
      0) ∧
    (s.m_correctOrientation = -1 →
      ParabolicCylinder.potential worldToLocalFrame eval_quadratic_function s
        (ParabolicCylinder.project worldToLocalFrame localFrameToWorld eval_quadratic_function q) =
      -2 * eval_quadratic_function (worldToLocalFrame q 1) (worldToLocalFrame q 2)) := by
  have h : ParabolicCylinder.potential worldToLocalFrame eval_quadratic_function s
        (ParabolicCylinder.project worldToLocalFrame localFrameToWorld eval_quadratic_function q) =
      (s.m_correctOrientation - 1) *
        eval_quadratic_function (worldToLocalFrame q 1) (worldToLocalFrame q 2) := by
    unfold ParabolicCylinder.potential ParabolicCylinder.project
    simp only [hinv]
    have h1 : (1 : Fin 3) ≠ 0 := by decide
    have h2 : (2 : Fin 3) ≠ 0 := by decide
    rw [Function.update_noteq h1, Function.update_noteq h2, Function.update_same]
    ring
  refine ⟨h, ?_, ?_⟩
  · intro hc
    rw [h, hc]
    ring
  · intro hc
    rw [h, hc]
    ring

/-- C28 fails for `correctOrientation = -1`: for the cylinder with `m_a = 1`,
`u_q = [[1, 0], [0, 0]]`, no linear term, the world frame as plane frame and `q = (0, 2, 0)`,
the height at `(u, v) = (2, 0)` is `2`, `project(q)` is `(2, 2, 0)` and the potential there is
`-4`; with `correctOrientation = 1` it is `0`. -/
theorem potential_project_negative_orientation :
    ParabolicCylinder.project id id exampleCylinder.eval_quadratic_function ![0, 2, 0] =
      ![2, 2, 0] ∧
    ParabolicCylinder.potential id
      ({ exampleCylinder with m_correctOrientation := -1 } :
        ParabolicCylinder ℚ).eval_quadratic_function
      { exampleCylinder with m_correctOrientation := -1 }
      (ParabolicCylinder.project id id
        ({ exampleCylinder with m_correctOrientation := -1 } :
          ParabolicCylinder ℚ).eval_quadratic_function ![0, 2, 0]) = -4 ∧
    ParabolicCylinder.potential id exampleCylinder.eval_quadratic_function exampleCylinder
      (ParabolicCylinder.project id id exampleCylinder.eval_quadratic_function ![0, 2, 0]) =
      0 := by
  have hf : ∀ c : ℚ, ({ exampleCylinder with m_correctOrientation := c } :
      ParabolicCylinder ℚ).eval_quadratic_function 2 0 = 2 := by
    intro c
    simp [ParabolicCylinder.eval_quadratic_function, exampleCylinder]
  have hp : ∀ c : ℚ, ParabolicCylinder.project id id
      ({ exampleCylinder with m_correctOrientation := c } :
        ParabolicCylinder ℚ).eval_quadratic_function ![0, 2, 0] = ![2, 2, 0] := by
    intro c
    unfold ParabolicCylinder.project
    funext i
    fin_cases i
    · simpa using hf c
    · simp
    · simp
  refine ⟨hp 1, ?_, ?_⟩
  · rw [hp (-1)]
    have := hf (-1)
    simp only [ParabolicCylinder.potential, id] at this ⊢
    simp [this]
    norm_num
  · have h1 := hp 1
    have h2 := hf 1
    rw [show ({ exampleCylinder with m_correctOrientation := 1 } : ParabolicCylinder ℚ) =
      exampleCylinder from rfl] at h1 h2
    rw [h1]
    have hc : exampleCylinder.m_correctOrientation = 1 := rfl
    simp only [ParabolicCylinder.potential, id]
    simp [h2, hc]

end ParabolicCylinderSurfaceTheorems

end Ponca

namespace Ponca

section CNCTrace

variable {α : Type} [LinearOrderedField α]

open CNCEigen

/-- The trace identity for any interpolated normal `uM`. -/
theorem trace_identity (uM a b c ua ub uc : VectorType α 3) :
    (1 / 2 * dot uM (fun k => (uc - ua) 0 * cross (fun k => if k = 0 then 1 else 0) (b - a) k -
        (ub - ua) 0 * cross (fun k => if k = 0 then 1 else 0) (c - a) k)) +
      (1 / 2 * dot uM (fun k => (uc - ua) 1 * cross (fun k => if k = 1 then 1 else 0) (b - a) k -
        (ub - ua) 1 * cross (fun k => if k = 1 then 1 else 0) (c - a) k)) +
      (1 / 2 * dot uM (fun k => (uc - ua) 2 * cross (fun k => if k = 2 then 1 else 0) (b - a) k -
        (ub - ua) 2 * cross (fun k => if k = 2 then 1 else 0) (c - a) k)) =
    -2 * (1 / 4 * (dot (cross uM (uc - ub)) a + dot (cross uM (ua - uc)) b +
      dot (cross uM (ub - ua)) c)) := by
  simp [dot, cross]
  ring

/-- C29: for all points `a`, `b`, `c` and normals `ua`, `ub`, `uc`, and for either value of
`unit_u` (with `ua + ub + uc` not zero when `unit_u` is true, and a square root that is not zero
on positive numbers), the trace of `muXYInterpolatedU` is `-2` times `mu1InterpolatedU`. -/
theorem muXY_trace (sqrt : α → α) (hsqrt : ∀ x, 0 < x → sqrt x ≠ 0)
    (a b c ua ub uc : VectorType α 3) (unit_u : Bool)
    (hsum : unit_u = true → ua + ub + uc ≠ 0) :
    ∃ (T : Matrix (Fin 3) (Fin 3) α) (m : α),
      muXYInterpolatedU sqrt a b c ua ub uc unit_u = some T ∧
      mu1InterpolatedU sqrt a b c ua ub uc unit_u = some m ∧
      T 0 0 + T 1 1 + T 2 2 = -2 * m := by
  have hu : ∃ uM, unitized sqrt (meanNormal ua ub uc) unit_u = some uM := by
    cases unit_u with
    | false => exact ⟨_, rfl⟩
    | true =>
      have hne : meanNormal ua ub uc ≠ 0 := by
        intro h0
        apply hsum rfl
        funext i
        have := congrFun h0 i
        simp only [meanNormal, Pi.zero_apply, div_eq_zero_iff] at this
        rcases this with h | h
        · exact h
        · norm_num at h
      have hn : vectorNorm sqrt (meanNormal ua ub uc) ≠ 0 := hsqrt _ (dot_self_pos hne)
      refine ⟨fun i => meanNormal ua ub uc i / vectorNorm sqrt (meanNormal ua ub uc), ?_⟩
      simp [unitized, hn]
  obtain ⟨uM, huM⟩ := hu
  have hT : muXYInterpolatedU sqrt a b c ua ub uc unit_u =
      some (fun i j => 1 / 2 * dot uM (fun k =>
        (uc - ua) j * cross (fun k => if k = i then 1 else 0) (b - a) k -
          (ub - ua) j * cross (fun k => if k = i then 1 else 0) (c - a) k)) := by
    unfold muXYInterpolatedU
    rw [huM]
    rfl
  have hm : mu1InterpolatedU sqrt a b c ua ub uc unit_u =
      some (1 / 4 * (dot (cross uM (uc - ub)) a + dot (cross uM (ua - uc)) b +
        dot (cross uM (ub - ua)) c)) := by
    unfold mu1InterpolatedU
    rw [huM]
    rfl
  exact ⟨_, _, hT, hm, trace_identity uM a b c ua ub uc⟩

/-- C29 on the triangle `(0,0,0)`, `(2,0,0)`, `(0,2,0)` with the normals `(0,0,3)`, `(3,0,3)`,
`(0,3,3)` over the reals, the interpolated normal made unitary. -/
theorem muXY_trace_witness :
    (∀ x : ℝ, 0 < x → Real.sqrt x ≠ 0) ∧
    ((![0, 0, 3] : VectorType ℝ 3) + ![3, 0, 3] + ![0, 3, 3] ≠ 0) ∧
    ∃ (T : Matrix (Fin 3) (Fin 3) ℝ) (m : ℝ),
      muXYInterpolatedU Real.sqrt ![0, 0, 0] ![2, 0, 0] ![0, 2, 0] ![0, 0, 3] ![3, 0, 3]
        ![0, 3, 3] true = some T ∧
      mu1InterpolatedU Real.sqrt ![0, 0, 0] ![2, 0, 0] ![0, 2, 0] ![0, 0, 3] ![3, 0, 3]
        ![0, 3, 3] true = some m ∧
      T 0 0 + T 1 1 + T 2 2 = -2 * m := by
  have hs : ∀ x : ℝ, 0 < x → Real.sqrt x ≠ 0 := fun x hx => (Real.sqrt_pos.2 hx).ne'
  have hne : (![0, 0, 3] : VectorType ℝ 3) + ![3, 0, 3] + ![0, 3, 3] ≠ 0 := by
    intro h
    have := congrFun h 0
    simp at this
  exact ⟨hs, hne, muXY_trace Real.sqrt hs ![0, 0, 0] ![2, 0, 0] ![0, 2, 0] ![0, 0, 3]
    ![3, 0, 3] ![0, 3, 3] true (fun _ => hne)⟩

/-- The trace and `mu1` at a triangle over `ℚ`, the normals not made unitary: the trace of
`muXYInterpolatedU` is `-18` and `mu1InterpolatedU` is `9`. -/
theorem muXY_trace_example :
    ∃ T : Matrix (Fin 3) (Fin 3) ℚ,
      muXYInterpolatedU (fun x : ℚ => x) ![0, 0, 0] ![2, 0, 0] ![0, 2, 0] ![0, 0, 3] ![3, 0, 3]
        ![0, 3, 3] false = some T ∧
      T 0 0 + T 1 1 + T 2 2 = -18 := by
  refine ⟨_, rfl, ?_⟩
  simp [meanNormal, dot, cross]
  norm_num

end CNCTrace

end Ponca

namespace Ponca

section Visits

variable {α σ : Type} [LinearOrderedCommRing α] {D : Nat}
variable (F : Functors α σ) (t : KdTreeBase α D) (point : VectorType α D)

theorem nodeVisits_append (tr new : List (Event α)) :
    nodeVisits (tr ++ new) = nodeVisits tr ++ nodeVisits new := by
  simp [nodeVisits, List.filterMap_append]

/-- A pass of the leaf loop records no node. -/
theorem leafBody_nodeVisits (i : Nat) (st st1 : KdTreeQuery α σ)
    (h : leafBody F t point i st = .next st1) : nodeVisits st1.trace = nodeVisits st.trace := by
  unfold leafBody at h
  repeat' split at h
  all_goals try dsimp only at h
  all_goals try split_ifs at h
  all_goals
    first
    | (simp at h; done)
    | (injection h with h; subst h; simp [nodeVisits_append, nodeVisits])

theorem leafLoop_nodeVisits : ∀ (n i : Nat) (st st1 : KdTreeQuery α σ),
    leafLoop F t point n i st = .next st1 → nodeVisits st1.trace = nodeVisits st.trace := by
  intro n
  induction n with
  | zero =>
    intro i st st1 h
    injection h with h
    subst h
    rfl
  | succ n ih =>
    intro i st st1 h
    unfold leafLoop at h
    cases hbody : leafBody F t point i st with
    | next st0 =>
      rw [hbody] at h
      exact (ih (i + 1) st0 st1 h).trans (leafBody_nodeVisits F t point i st st0 hbody)
    | stop v0 st0 =>
      rw [hbody] at h
      simp at h
    | undefinedBehaviour =>
      rw [hbody] at h
      simp at h

/-- A pass of the main loop that stays in the loop: the top frame `f` is recorded as visited,
and it is either dropped (a leaf was traversed, or the frame was pruned) or replaced by the two
frames of the children of its inner node. -/
theorem searchStep_next_cases (st st1 : KdTreeQuery α σ)
    (h : searchStep F t point st = .next st1) :
    ∃ f rest node, st.m_stack = f :: rest ∧ t.nodes[f.index]? = some node ∧
      nodeVisits st1.trace = nodeVisits st.trace ++ [f.index] ∧
      (st1.m_stack = rest ∨
        ∃ dim value child, node = .inner dim value child ∧
          ((point dim - value < 0 ∧
              st1.m_stack = ⟨child, f.squared_distance⟩ ::
                ⟨child + 1, (point dim - value) * (point dim - value)⟩ :: rest) ∨
            (¬ point dim - value < 0 ∧
              st1.m_stack = ⟨child + 1, f.squared_distance⟩ ::
                ⟨child, (point dim - value) * (point dim - value)⟩ :: rest))) := by
  obtain ⟨stk, u, tr⟩ := st
  cases stk with
  | nil => simp [searchStep] at h
  | cons f rest =>
    unfold searchStep at h
    simp only at h
    cases hnode : t.nodes[f.index]? with
    | none => simp [hnode] at h
    | some node =>
      simp only [hnode] at h
      refine ⟨f, rest, node, rfl, hnode, ?_⟩
      by_cases hb : belowThreshold f.squared_distance (F.descentDistanceThreshold u).1 = true
      · simp only [hb, if_true] at h
        cases node with
        | leaf start size =>
          simp only at h
          have hs := (leafLoop_effect F t point size start _).1 st1 h
          have hv := leafLoop_nodeVisits F t point size start _ st1 h
          refine ⟨?_, Or.inl hs.1⟩
          rw [hv]
          simp [nodeVisits_append, nodeVisits]
        | inner dim value child =>
          simp only at h
          by_cases hoff : point dim - value < 0
          · simp only [hoff, if_true] at h
            injection h with h
            subst h
            refine ⟨by simp [nodeVisits_append, nodeVisits], Or.inr ⟨dim, value, child, rfl,
              Or.inl ⟨hoff, rfl⟩⟩⟩
          · simp only [hoff, if_false] at h
            injection h with h
            subst h
            refine ⟨by simp [nodeVisits_append, nodeVisits], Or.inr ⟨dim, value, child, rfl,
              Or.inr ⟨hoff, rfl⟩⟩⟩
      · simp only [hb] at h
        injection h with h
        subst h
        exact ⟨by simp [nodeVisits_append, nodeVisits], Or.inl rfl⟩

theorem Embeds.inner_shape {nodes : List (KdNode α D)} {i : Nat} {sh : Shape α D}
    {dim : Fin D} {value : α} {child : Nat} (hE : Embeds nodes i sh)
    (hnode : nodes[i]? = some (.inner dim value child)) :
    ∃ l r, sh = .inner dim value child l r ∧ Embeds nodes child l ∧
      Embeds nodes (child + 1) r := by
  cases sh with
  | leaf start size => simp [Embeds, hnode] at hE
  | inner dim1 value1 child1 l r =>
    have h1 := hE.1
    rw [hnode] at h1
    injection h1 with h1
    injection h1 with h1 h2 h3
    subst h1 h2 h3
    exact ⟨l, r, rfl, hE.2.1, hE.2.2⟩

theorem Embeds.index_lt {nodes : List (KdNode α D)} {i : Nat} {sh : Shape α D}
    (hE : Embeds nodes i sh) : i < nodes.length := by
  cases sh with
  | leaf start size =>
    have h : nodes[i]? = some (.leaf start size) := hE
    exact (List.getElem?_eq_some_iff.1 h).1
  | inner dim value child l r =>
    have h : nodes[i]? = some (.inner dim value child) := hE.1
    exact (List.getElem?_eq_some_iff.1 h).1

theorem Embeds.nodeIds_lt {nodes : List (KdNode α D)} :
    ∀ (sh : Shape α D) (i : Nat), Embeds nodes i sh → ∀ j ∈ sh.nodeIds i, j < nodes.length
  | .leaf start size, i, hE, j, hj => by
    simp only [Shape.nodeIds, List.mem_singleton] at hj
    subst hj
    exact hE.index_lt
  | .inner dim value child l r, i, hE, j, hj => by
    simp only [Shape.nodeIds, List.mem_cons, List.mem_append] at hj
    rcases hj with rfl | hj | hj
    · exact hE.index_lt
    · exact Embeds.nodeIds_lt l child hE.2.1 j hj
    · exact Embeds.nodeIds_lt r (child + 1) hE.2.2 j hj

theorem Shape.nodeIds_eq_cons (sh : Shape α D) (i : Nat) : ∃ tl, sh.nodeIds i = i :: tl := by
  cases sh with
  | leaf start size => exact ⟨[], rfl⟩
  | inner dim value child l r => exact ⟨_, rfl⟩

/-- When the children of every inner node are valid indices above the node, the node array
unfolds to a finite shape below every node. -/
theorem ChildrenAfter.embeds {nodes : List (KdNode α D)} (h : ChildrenAfter nodes) :
    ∀ (k i : Nat), nodes.length - i ≤ k → i < nodes.length → ∃ sh : Shape α D, Embeds nodes i sh
  | 0, i, hk, hi => by omega
  | k + 1, i, hk, hi => by
    cases hnode : nodes[i]? with
    | none =>
      rw [List.getElem?_eq_none_iff] at hnode
      omega
    | some node =>
      cases node with
      | leaf start size => exact ⟨.leaf start size, hnode⟩
      | inner dim value child =>
        obtain ⟨h1, h2⟩ := h i dim value child hnode
        obtain ⟨l, hl⟩ := ChildrenAfter.embeds h k child (by omega) (by omega)
        obtain ⟨r, hr⟩ := ChildrenAfter.embeds h k (child + 1) (by omega) h2
        exact ⟨.inner dim value child l r, hnode, hl, hr⟩

/-- A pass of the main loop visits the node of the top frame and leaves pending node indices
that, with the visited one, are among the indices pending before. -/
theorem searchStep_pendingIds (st st1 : KdTreeQuery α σ) (ids : List Nat)
    (hP : PendingIds t.nodes st.m_stack ids) (h : searchStep F t point st = .next st1) :
    ∃ i ids1, PendingIds t.nodes st1.m_stack ids1 ∧
      nodeVisits st1.trace = nodeVisits st.trace ++ [i] ∧ List.Subperm (i :: ids1) ids := by
  obtain ⟨f, rest, node, hstk, hnode, hvis, hcases⟩ := searchStep_next_cases F t point st st1 h
  rw [hstk] at hP
  obtain ⟨sh, idsRest, hE, hPrest, hids⟩ := hP
  subst hids
  rcases hcases with hdrop | ⟨dim, value, child, rfl, hpush⟩
  · obtain ⟨tl, htl⟩ := sh.nodeIds_eq_cons f.index
    refine ⟨f.index, idsRest, by rw [hdrop]; exact hPrest, hvis, ?_⟩
    rw [htl]
    exact (List.Sublist.cons₂ _ (List.sublist_append_right tl idsRest)).subperm
  · obtain ⟨l, r, rfl, hEl, hEr⟩ := hE.inner_shape hnode
    rcases hpush with ⟨_, hstk1⟩ | ⟨_, hstk1⟩
    · refine ⟨f.index, l.nodeIds child ++ (r.nodeIds (child + 1) ++ idsRest), ?_, hvis, ?_⟩
      · rw [hstk1]
        exact ⟨l, _, hEl, ⟨r, idsRest, hEr, hPrest, rfl⟩, rfl⟩
      · simp only [Shape.nodeIds, List.cons_append, List.append_assoc]
        exact List.Subperm.refl _
    · refine ⟨f.index, r.nodeIds (child + 1) ++ (l.nodeIds child ++ idsRest), ?_, hvis, ?_⟩
      · rw [hstk1]
        exact ⟨r, _, hEr, ⟨l, idsRest, hEl, hPrest, rfl⟩, rfl⟩
      · simp only [Shape.nodeIds, List.cons_append]
        refine List.Perm.subperm (List.Perm.cons _ ?_)
        rw [← List.append_assoc]
        exact List.Perm.append_right _ List.perm_append_comm

theorem searchIterate_pendingIds : ∀ (k : Nat) (st st1 : KdTreeQuery α σ) (ids : List Nat),
    PendingIds t.nodes st.m_stack ids → searchIterate F t point k st = some st1 →
    ∃ visited ids1, PendingIds t.nodes st1.m_stack ids1 ∧
      nodeVisits st1.trace = nodeVisits st.trace ++ visited ∧ visited.length = k ∧
      List.Subperm (visited ++ ids1) ids := by
  intro k
  induction k with
  | zero =>
    intro st st1 ids hP hs
    simp only [searchIterate, Option.some.injEq] at hs
    subst hs
    exact ⟨[], ids, hP, by simp, rfl, List.Subperm.refl _⟩
  | succ k ih =>
    intro st st1 ids hP hs
    unfold searchIterate at hs
    cases hstep : searchStep F t point st with
    | next st2 =>
      rw [hstep] at hs
      obtain ⟨i, ids2, hP2, hv2, hsub2⟩ := searchStep_pendingIds F t point st st2 ids hP hstep
      obtain ⟨visited, ids1, hP1, hv1, hlen, hsub1⟩ := ih st2 st1 ids2 hP2 hs
      refine ⟨i :: visited, ids1, hP1, ?_, by simp [hlen], ?_⟩
      · rw [hv1, hv2]
        simp
      · exact ((List.subperm_cons i).2 hsub1).trans hsub2
    | stop v st2 =>
      rw [hstep] at hs
      simp at hs
    | undefinedBehaviour =>
      rw [hstep] at hs
      simp at hs

theorem searchLoop_pendingIds : ∀ (fuel : Nat) (st : KdTreeQuery α σ) (ids : List Nat),
    PendingIds t.nodes st.m_stack ids → ids.length < fuel →
    searchLoop F t point fuel st ≠ .outOfFuel := by
  intro fuel
  induction fuel with
  | zero =>
    intro st ids _ hlt
    omega
  | succ fuel ih =>
    intro st ids hP hlt
    unfold searchLoop
    cases hstep : searchStep F t point st with
    | next st1 =>
      obtain ⟨i, ids1, hP1, _, hsub⟩ := searchStep_pendingIds F t point st st1 ids hP hstep
      have hlen := hsub.length_le
      simp only [List.length_cons] at hlen
      exact ih st1 ids1 hP1 (by omega)
    | stop v st1 => simp
    | undefinedBehaviour => simp

/-- C25, as the code has it: on every node array in which the two children of each inner node
are valid indices above the node's own index, for every query point and every choice of
functors `search_internal` terminates. When in addition the nodes reached from the root are
pairwise distinct (no node is the child of two inner nodes), each node is the top-of-stack frame
of at most one pass of the loop, so that the loop body runs at most once per node. -/
theorem search_internal_terminates (F : Functors α σ) (t : KdTreeBase α D)
    (point : VectorType α D) (st : KdTreeQuery α σ) (hnodes : ChildrenAfter t.nodes) :
    (∃ N, ∀ fuel, N < fuel → search_internal F t point fuel st.reset ≠ .outOfFuel) ∧
    (∀ sh : Shape α D, Embeds t.nodes 0 sh → (sh.nodeIds 0).Nodup →
      ∀ k st1, searchIterate F t point k st.reset = some st1 →
        ∃ visited, nodeVisits st1.trace = nodeVisits st.trace ++ visited ∧
          visited.length = k ∧ visited.Nodup ∧ k ≤ t.nodes.length) := by
  constructor
  · by_cases hlen : 0 < t.nodes.length
    · obtain ⟨sh, hE⟩ := hnodes.embeds t.nodes.length 0 (by omega) hlen
      refine ⟨(sh.nodeIds 0).length, fun fuel hfuel => ?_⟩
      unfold search_internal
      split_ifs
      · simp
      · exact searchLoop_pendingIds F t point fuel st.reset (sh.nodeIds 0)
          ⟨sh, [], hE, rfl, by simp⟩ hfuel
    · refine ⟨0, fun fuel _ => ?_⟩
      have hnil : t.nodes = [] := List.length_eq_zero.1 (by omega)
      simp [search_internal, hnil]
  · intro sh hE hnodup k st1 hs
    obtain ⟨visited, ids1, _, hv, hlen, hsub⟩ :=
      searchIterate_pendingIds F t point k st.reset st1 (sh.nodeIds 0)
        ⟨sh, [], hE, rfl, by simp⟩ hs
    have hsubv : List.Subperm visited (sh.nodeIds 0) :=
      (List.sublist_append_left visited ids1).subperm.trans hsub
    have hnd : visited.Nodup := by
      obtain ⟨l0, hperm, hsubl⟩ := hsubv
      exact hperm.nodup_iff.1 (hsubl.nodup hnodup)
    have hrange : List.Subperm visited (List.range t.nodes.length) := by
      apply List.subperm_of_subset hnd
      intro j hj
      exact List.mem_range.2 (Embeds.nodeIds_lt sh 0 hE j (hsubv.subset hj))
    have hle := hrange.length_le
    rw [List.length_range, hlen] at hle
    exact ⟨visited, hv, hlen, hnd, hle⟩

end Visits

theorem exampleTree_childrenAfter : ChildrenAfter exampleTree.nodes := by
  intro i dim value child h
  rcases i with _ | _ | _ | _ | _ | i <;> simp [exampleTree] at h ⊢ <;> omega

theorem sharedChildTree_childrenAfter : ChildrenAfter sharedChildTree.nodes := by
  intro i dim value child h
  rcases i with _ | _ | _ | _ | i <;> simp [sharedChildTree] at h ⊢ <;> omega

/-- C25 on `exampleTree`, for the 5-nearest-neighbour functors and the query point `(0, 0)`. -/
theorem search_internal_terminates_witness :
    ChildrenAfter exampleTree.nodes ∧
    (∃ N, ∀ fuel, N < fuel →
      search_internal (knnFunctors 5 fun _ => false) exampleTree ![0, 0] fuel
        emptyKnnQuery.reset ≠ .outOfFuel) ∧
    (∀ sh : Shape ℤ 2, Embeds exampleTree.nodes 0 sh → (sh.nodeIds 0).Nodup →
      ∀ k st1, searchIterate (knnFunctors 5 fun _ => false) exampleTree ![0, 0] k
          emptyKnnQuery.reset = some st1 →
        ∃ visited,
          nodeVisits st1.trace = nodeVisits emptyKnnQuery.trace ++ visited ∧
          visited.length = k ∧ visited.Nodup ∧ k ≤ exampleTree.nodes.length) :=
  ⟨exampleTree_childrenAfter,
    search_internal_terminates (knnFunctors 5 fun _ => false) exampleTree ![0, 0] emptyKnnQuery
      exampleTree_childrenAfter⟩

/-- C25 fails as stated: in `sharedChildTree` the children of the inner nodes `0` and `1` are
valid indices above them, and node `2` is a child of both. The search for the 5 nearest
neighbours of `(0)` is still in the loop after 5 passes, with the nodes `0, 1, 2, 3, 2` on top
of the stack: node `2` twice, and 5 passes for 4 nodes. -/
theorem search_internal_terminates_counterexample :
    ChildrenAfter sharedChildTree.nodes ∧ sharedChildTree.nodes.length = 4 ∧
    (∃ st, searchIterate (knnFunctors 5 fun _ => false) sharedChildTree ![0] 5
        emptyKnnQuery.reset = some st ∧
      nodeVisits st.trace = [0, 1, 2, 3, 2]) ∧
    (∃ final, search_internal (knnFunctors 5 fun _ => false) sharedChildTree ![0] 6
        emptyKnnQuery.reset = .returned true final ∧
      nodeVisits final.trace = [0, 1, 2, 3, 2]) :=
  ⟨sharedChildTree_childrenAfter, rfl, ⟨_, rfl, rfl⟩, ⟨_, rfl, rfl⟩⟩

end Ponca

namespace Ponca

section LowerBoundInvariant

variable {α σ : Type} [LinearOrderedCommRing α] {D : Nat}
variable (F : Functors α σ) (t : KdTreeBase α D) (point : VectorType α D)

/-- A pass of the main loop keeps the frames of the stack in order. -/
theorem searchStep_frameOk (st st1 : KdTreeQuery α σ) (shapes : List (Shape α D))
    (hF : List.Forall₂ (FrameOk t point) st.m_stack shapes)
    (h : searchStep F t point st = .next st1) :
    ∃ shapes1, List.Forall₂ (FrameOk t point) st1.m_stack shapes1 := by
  obtain ⟨f, rest, node, hstk, hnode, _, hcases⟩ := searchStep_next_cases F t point st st1 h
  rw [hstk] at hF
  cases hF with
  | cons hf hrest =>
    rename_i sh shs
    rcases hcases with hdrop | ⟨dim, value, child, rfl, hpush⟩
    · exact ⟨shs, by rw [hdrop]; exact hrest⟩
    · obtain ⟨l, r, rfl, _, _⟩ := hf.1.inner_shape hnode
      rcases hpush with ⟨hoff, hstk1⟩ | ⟨hoff, hstk1⟩
      · obtain ⟨h1, h2⟩ := hf.children.1 hoff
        exact ⟨l :: r :: shs, by rw [hstk1]; exact .cons h1 (.cons h2 hrest)⟩
      · obtain ⟨h1, h2⟩ := hf.children.2 hoff
        exact ⟨r :: l :: shs, by rw [hstk1]; exact .cons h1 (.cons h2 hrest)⟩

theorem searchIterate_frameOk : ∀ (k : Nat) (st st1 : KdTreeQuery α σ)
    (shapes : List (Shape α D)), List.Forall₂ (FrameOk t point) st.m_stack shapes →
    searchIterate F t point k st = some st1 →
    ∃ shapes1, List.Forall₂ (FrameOk t point) st1.m_stack shapes1 := by
  intro k
  induction k with
  | zero =>
    intro st st1 shapes hF hs
    simp only [searchIterate, Option.some.injEq] at hs
    subst hs
    exact ⟨shapes, hF⟩
  | succ k ih =>
    intro st st1 shapes hF hs
    unfold searchIterate at hs
    cases hstep : searchStep F t point st with
    | next st2 =>
      rw [hstep] at hs
      obtain ⟨shapes2, hF2⟩ := searchStep_frameOk F t point st st2 shapes hF hstep
      exact ih st2 st1 shapes2 hF2 hs
    | stop v st2 =>
      rw [hstep] at hs
      simp at hs
    | undefinedBehaviour =>
      rw [hstep] at hs
      simp at hs

theorem belowThreshold_mono {b d : α} (hbd : b ≤ d) (th : Threshold α)
    (h : belowThreshold b th = false) : belowThreshold d th = false := by
  cases th with
  | none => simp [belowThreshold] at h
  | some x =>
    simp only [belowThreshold, decide_eq_false_iff_not, not_lt] at h ⊢
    exact h.trans hbd

/-- C26: on a well-formed k-d tree, after every number of passes of the loop of
`search_internal` started from the reset stack, below the node of each frame of the stack lies a
subtree all of whose samples have a position, at a squared distance from the query point that is
at least the `squared_distance` of the frame. Hence when the `squared_distance` of a frame is
not below a threshold, no sample of its subtree has a squared distance below that threshold. -/
theorem search_internal_lower_bound (F : Functors α σ) (t : KdTreeBase α D)
    (hwf : WellFormed t) (point : VectorType α D) (st : KdTreeQuery α σ) (k : Nat)
    (st1 : KdTreeQuery α σ) (hs : searchIterate F t point k st.reset = some st1) :
    ∃ shapes : List (Shape α D),
      List.Forall₂
        (fun f sh =>
          Embeds t.nodes f.index sh ∧
          (∀ s ∈ sh.samples, ∃ p, t.samplePos s = some p) ∧
          (∀ s ∈ sh.samples, ∀ p, t.samplePos s = some p →
            f.squared_distance ≤ squaredDistance point p) ∧
          (∀ th : Threshold α, belowThreshold f.squared_distance th = false →
            ∀ s ∈ sh.samples, ∀ p, t.samplePos s = some p →
              belowThreshold (squaredDistance point p) th = false))
        st1.m_stack shapes := by
  obtain ⟨sh, hroot, _⟩ := hwf.rootFrame point
  obtain ⟨shapes, hF⟩ := searchIterate_frameOk F t point k st.reset st1 [sh]
    (List.Forall₂.cons hroot List.Forall₂.nil) hs
  refine ⟨shapes, hF.imp ?_⟩
  intro f sh1 hf
  obtain ⟨hE, _, hV, hL⟩ := hf
  exact ⟨hE, hV, hL, fun th hth s hsm p hp => belowThreshold_mono (hL s hsm p hp) th hth⟩

end LowerBoundInvariant

/-- C26 on `exampleTree`: after three passes of the search for the 5 nearest neighbours of
`(0, 0)` the stack holds the frames of the nodes `3` and `4` with the bounds `4` and `25`, and
each bound is below the squared distances of the samples under its node. -/
theorem search_internal_lower_bound_witness :
    WellFormed exampleTree ∧
    (∃ st1, searchIterate (knnFunctors 5 fun _ => false) exampleTree ![0, 0] 3
        emptyKnnQuery.reset = some st1 ∧
      st1.m_stack.map (fun f => (f.index, f.squared_distance)) = [(3, 4), (4, 25)] ∧
      ∃ shapes : List (Shape ℤ 2),
        List.Forall₂
          (fun f sh =>
            Embeds exampleTree.nodes f.index sh ∧
            (∀ s ∈ sh.samples, ∃ p, exampleTree.samplePos s = some p) ∧
            (∀ s ∈ sh.samples, ∀ p, exampleTree.samplePos s = some p →
              f.squared_distance ≤ squaredDistance ![0, 0] p) ∧
            (∀ th : Threshold ℤ, belowThreshold f.squared_distance th = false →
              ∀ s ∈ sh.samples, ∀ p, exampleTree.samplePos s = some p →
                belowThreshold (squaredDistance ![0, 0] p) th = false))
          st1.m_stack shapes) :=
  ⟨exampleTree_wellFormed, _, rfl, rfl,
    search_internal_lower_bound (knnFunctors 5 fun _ => false) exampleTree
      exampleTree_wellFormed ![0, 0] emptyKnnQuery 3 _ rfl⟩

end Ponca
